import Mathlib

/-!
# Acqiris "GetStarted" examples: RIS bin placement, monitor-frame decoding, polling loops

A shallow embedding of the decision logic of the demonstration programs:

* `RisAcquisitionVC.cpp`: the command line, the device selection, the RIS (random
  interleaved sampling) acquisition loop of `main`, `Acquire` and `saveData`,
* `GetStartedPeakTDC.cpp`: the byte-cursor decoder `PrintoutData` and the size of its buffer,
* `GetStartedThresholdGatesSSR.cpp`: the readout loop of `main`,
* `GetStartedSARmode.cpp`: the body of the SAR acquisition loop of `main`,
* `GetStartedSC240BaseStrmVC.cpp`, `GetStartedSC240StreamerVC.cpp`: the device discovery,
  the headers and the layout of the monitor block,
* `GetStartedAC240fftVC.cpp`: the polling loops of `InitFPGA` and `WaitForSpectrum`,
* `GetStartedAvgVC.cpp`: the number of samples saved,
* `GetStarted16bitMultiSegment.cpp`, `Test.cpp`: the indices of the multi-segment readout
  and `Acquire` on several instruments.

Conventions of the embedding.

* `ViReal64` values (sampling interval, horizontal positions, bin limits) are rationals `ℚ`.
  The RIS loop of `main` computes on them in IEEE 754 double precision: each operation is the
  exact one followed by the rounding `rnd` to the nearest double, and the literal `0.01` is
  the double nearest to `1/100`. The formulas `binIndex`, `fc`, `binCentre`, `initBins` and
  `rejected` are the same computations over exact rationals, with `0.01` as `1/100`; they
  serve the statements that are about the exact formulas.
* The cursor of `PrintoutData` is modelled twice: as an offset into the buffer, and as an
  address of 32 bits whose arithmetic wraps.
* `ViInt32`/`int` quantities are mathematical integers `Int`; the counters `nb_iter` and
  `skipped` of the RIS loop are not wrapped (the loop would need `2^31` rounds to overflow them).
* A C++ conversion `int(x)` of a floating value truncates toward zero.
* An access outside an allocated array, and a conversion to `int` of the quotient by a zero
  sampling interval, have no defined behaviour in C++; the embedding returns `none` for them.
* The driver library is external: its answers are inputs of the embedded functions.
-/

namespace Acqiris

/-! ## RIS acquisition (`RisAcquisitionVC.cpp`) -/

/-- The conversion `int(x)` of C++: truncation toward zero. -/
def cTrunc (q : ℚ) : Int := Int.tdiv q.num q.den

/-- The bin index of line 149, `int(fabs(segDesc.horPos) * of / si)`, over exact rationals:
the formula `floor(|horPos| * of / si)` of the specification. The program evaluates it in
double precision, see `binIndex64`. -/
def binIndex (horPos : ℚ) (of : Int) (si : ℚ) : Int :=
  cTrunc (|horPos| * (of : ℚ) / si)

/-- A waveform as read by `AcqrsD1_readData` (`ViReal64` samples). -/
abbrev Waveform := List ℚ

/-- The record `struct RISData`. -/
structure RISData where
  horPos : ℚ
  waveformArray : Waveform
  c_bin : ℚ
  upper_bin : ℚ
  lower_bin : ℚ
deriving DecidableEq, Repr

/-- The global parameters `si`, `of`, `oa` read by the RIS loop. -/
structure RisParams where
  si : ℚ
  of : Int
  oa : Int

/-- The tolerance of line 106 over exact rationals: `fc = 0.01 * (oa/2) * si / of`, with the
integer division `oa/2` of C++. -/
def fc (p : RisParams) : ℚ :=
  (1 / 100) * ((Int.tdiv p.oa 2 : Int) : ℚ) * p.si / (p.of : ℚ)

/-- The ideal centre of bin `k`, line 114, over exact rationals: `-si*(k+0.5)/of`. -/
def binCentre (p : RisParams) (k : Int) : ℚ :=
  -p.si * ((k : ℚ) + 1 / 2) / (p.of : ℚ)

/-- The body of the initialisation loop, lines 111-117, for bin `k`, over exact rationals;
`uninit` is the content of the freshly allocated waveform array. -/
def initBin (p : RisParams) (uninit : Waveform) (k : Nat) : RISData :=
  { horPos := 1
    waveformArray := uninit
    c_bin := binCentre p (k : Int)
    upper_bin := binCentre p (k : Int) + fc p
    lower_bin := binCentre p (k : Int) - fc p }

/-- The array `ris_data` after the initialisation loop `for (k = 0; k < of; k++)`, over
exact rationals. -/
def initBins (p : RisParams) (uninit : Waveform) : List RISData :=
  (List.range p.of.toNat).map (initBin p uninit)

/-! ### Double-precision arithmetic of the RIS loop

The RIS loop computes with `ViReal64`, the IEEE 754 binary64 format: every product,
quotient, sum and difference is rounded to the nearest number with a significand of 53
bits, ties to the even significand. `rnd` is this rounding on the rationals, with the
gradual underflow of the format (no exponent below `-1074`); overflow to infinity is not
modelled, the quantities of the loop being far from the largest double. An operation of the
program is the exact operation followed by `rnd`: each operation is rounded by itself, to
double precision (no wider intermediate format and no fused multiply-add). Comparisons,
`fabs` and the negation are exact. The values themselves (`si`, `horPos`) are any
rationals; the program only meets those that are doubles. -/

/-- The quotient `n / d` rounded to the nearest integer, ties to even. -/
def roundNE (n d : Nat) : Nat :=
  if 2 * (n % d) < d then n / d
  else if d < 2 * (n % d) then n / d + 1
  else if (n / d) % 2 = 0 then n / d else n / d + 1

/-- The number of binary digits of `n` less one, by at most `fuel` halvings. -/
def log2Fuel : Nat → Nat → Nat
  | 0, _ => 0
  | f + 1, n => if n < 2 then 0 else log2Fuel f (n / 2) + 1

/-- The integer part of the binary logarithm of `n >= 1`. -/
def natLog2 (n : Nat) : Nat := log2Fuel n n

/-- The integer part of the binary logarithm of `n / d`, for `n, d >= 1`. -/
def ilog2 (n d : Nat) : Int :=
  let k : Int := (natLog2 n : Int) - (natLog2 d : Int)
  if 0 ≤ k then (if d * 2 ^ k.toNat ≤ n then k else k - 1)
  else (if d ≤ n * 2 ^ (-k).toNat then k else k - 1)

/-- The exponent of the unit in the last place of the double nearest to `n / d`. -/
def dExp (n d : Nat) : Int := max (ilog2 n d - 52) (-1074)

/-- The significand of the double nearest to `n / d`, in units of `2 ^ dExp n d`. -/
def dMant (n d : Nat) : Nat :=
  if 0 ≤ dExp n d then roundNE n (d * 2 ^ (dExp n d).toNat)
  else roundNE (n * 2 ^ (-dExp n d).toNat) d

/-- Rounding to the nearest double, ties to even. -/
def rnd (q : ℚ) : ℚ :=
  if q = 0 then 0
  else if 0 < q then (dMant q.num.natAbs q.den : ℚ) * 2 ^ dExp q.num.natAbs q.den
  else -((dMant q.num.natAbs q.den : ℚ) * 2 ^ dExp q.num.natAbs q.den)

/-- The product of two doubles. -/
def dmul (x y : ℚ) : ℚ := rnd (x * y)

/-- The quotient of two doubles. -/
def ddiv (x y : ℚ) : ℚ := rnd (x / y)

/-- The sum of two doubles. -/
def dadd (x y : ℚ) : ℚ := rnd (x + y)

/-- The difference of two doubles. -/
def dsub (x y : ℚ) : ℚ := rnd (x - y)

/-- The bin index of line 149 as the program computes it:
`int(fabs(segDesc.horPos) * of / si)` with the product and the quotient rounded. -/
def binIndex64 (horPos : ℚ) (of : Int) (si : ℚ) : Int :=
  cTrunc (ddiv (dmul |horPos| (of : ℚ)) si)

/-- The tolerance of line 106 as the program computes it: `0.01 * (oa/2) * si / of`, from
the left, with the integer division `oa/2` and the double nearest to `0.01`. -/
def fc64 (p : RisParams) : ℚ :=
  ddiv (dmul (dmul (rnd (1 / 100)) ((Int.tdiv p.oa 2 : Int) : ℚ)) p.si) (p.of : ℚ)

/-- The centre of bin `k` as line 114 computes it: `-si*(k+0.5)/of`. -/
def binCentre64 (p : RisParams) (k : Int) : ℚ :=
  ddiv (dmul (-p.si) (dadd (k : ℚ) (1 / 2))) (p.of : ℚ)

/-- The body of the initialisation loop, lines 111-117, for bin `k`, as the program computes
it; `uninit` is the content of the freshly allocated waveform array. -/
def initBin64 (p : RisParams) (uninit : Waveform) (k : Nat) : RISData :=
  { horPos := 1
    waveformArray := uninit
    c_bin := binCentre64 p (k : Int)
    upper_bin := dadd (binCentre64 p (k : Int)) (fc64 p)
    lower_bin := dsub (binCentre64 p (k : Int)) (fc64 p) }

/-- The array `ris_data` after the initialisation loop `for (k = 0; k < of; k++)`, as the
program computes it. -/
def initBins64 (p : RisParams) (uninit : Waveform) : List RISData :=
  (List.range p.of.toNat).map (initBin64 p uninit)

/-- The variables of the RIS loop. -/
structure RisState where
  ris_data : List RISData
  nb_bin : Int
  nb_iter : Int
  skipped : Int
deriving DecidableEq, Repr

/-- The state on entry of the loop, lines 106-130. -/
def risInit (p : RisParams) (uninit : Waveform) : RisState :=
  { ris_data := initBins64 p uninit, nb_bin := 0, nb_iter := 0, skipped := 0 }

/-- Lines 176-178: store `horPos` and the waveform in bin `i`. -/
def storeBin (bins : List RISData) (i : Nat) (bin : RISData) (horPos : ℚ) (wf : Waveform) :
    List RISData :=
  bins.set i { bin with horPos := horPos, waveformArray := wf }

/-- One round of the RIS loop after a successful `Acquire`, lines 136-178, for the
`segDesc.horPos` and the waveform delivered by `AcqrsD1_readData`, in double precision. The
result is `none` when the round has no defined behaviour (zero `si`, or `index` outside
`ris_data`). -/
def risBody (p : RisParams) (s : RisState) (horPos : ℚ) (wf : Waveform) : Option RisState :=
  if p.si = 0 then none
  else
    let index := binIndex64 horPos p.of p.si
    if index < 0 then none
    else
      match s.ris_data[index.toNat]? with
      | none => none
      | some bin =>
        let s1 := { s with nb_iter := s.nb_iter + 1 }
        if p.oa < 100 ∧ (horPos < bin.lower_bin ∨ horPos > bin.upper_bin) then
          some { s1 with skipped := s1.skipped + 1 }
        else if bin.horPos < 1 then
          if |dsub bin.c_bin horPos| > |dsub bin.c_bin bin.horPos| then some s1
          else some { s1 with ris_data := storeBin s1.ris_data index.toNat bin horPos wf }
        else
          some { s1 with nb_bin := s1.nb_bin + 1
                         ris_data := storeBin s1.ris_data index.toNat bin horPos wf }

/-- What one call of `Acquire` followed by `AcqrsD1_readData` delivers: a time-out of the
acquisition, or a horizontal position together with a waveform. -/
inductive Acq where
  | timeout
  | ok (horPos : ℚ) (wf : Waveform)
deriving DecidableEq, Repr

/-- How a run of the RIS loop over a finite list of acquisitions stands. -/
inductive RisOutcome where
  /-- all acquisitions were used and the loop is at its head, about to test `nb_bin < of` -/
  | atHead (s : RisState)
  /-- the loop was left, `nb_bin < of` being false, before all acquisitions were used -/
  | exited (s : RisState)
  /-- the call of `Acquire` failed: `main` returns through `CloseDevices` -/
  | acqError (s : RisState)
  /-- a round without defined behaviour -/
  | undefined
deriving DecidableEq, Repr

/-- The loop `while (nb_bin < of)` of lines 131-179, run on the acquisitions `acqs`. -/
def risLoop (p : RisParams) : RisState → List Acq → RisOutcome
  | s, [] => .atHead s
  | s, a :: rest =>
    if s.nb_bin < p.of then
      match a with
      | .timeout => .acqError s
      | .ok horPos wf =>
        match risBody p s horPos wf with
        | none => .undefined
        | some s1 => risLoop p s1 rest
    else .exited s

/-- The pairs of `horPos` and waveform delivered by a list of acquisitions. -/
def candidates : List Acq → List (ℚ × Waveform)
  | [] => []
  | .timeout :: rest => candidates rest
  | .ok horPos wf :: rest => (horPos, wf) :: candidates rest

/-- The range check of lines 152-154 for a candidate over exact rationals, against the
window of the bin its index selects: `oa < 100` and `horPos` below the lower or above the
upper limit. -/
def rejected (p : RisParams) (horPos : ℚ) : Prop :=
  p.oa < 100 ∧
    (horPos < binCentre p (binIndex horPos p.of p.si) - fc p ∨
     horPos > binCentre p (binIndex horPos p.of p.si) + fc p)

instance (p : RisParams) (horPos : ℚ) : Decidable (rejected p horPos) := by
  unfold rejected; infer_instance

/-- The limits of every bin are those of the initialisation loop over exact rationals. -/
def WindowsOK (p : RisParams) (s : RisState) : Prop :=
  s.ris_data.length = p.of.toNat ∧
  ∀ (k : Nat) (bin : RISData), s.ris_data[k]? = some bin →
    bin.c_bin = binCentre p (k : Int) ∧ bin.upper_bin = binCentre p (k : Int) + fc p ∧
    bin.lower_bin = binCentre p (k : Int) - fc p

/-- The range check of lines 152-154 for a candidate as the program makes it, against the
limits stored for the bin its index selects: `oa < 100` and `horPos` below the lower or
above the upper limit. -/
def rejected64 (p : RisParams) (horPos : ℚ) : Prop :=
  p.oa < 100 ∧
    (horPos < dsub (binCentre64 p (binIndex64 horPos p.of p.si)) (fc64 p) ∨
     horPos > dadd (binCentre64 p (binIndex64 horPos p.of p.si)) (fc64 p))

instance (p : RisParams) (horPos : ℚ) : Decidable (rejected64 p horPos) := by
  unfold rejected64; infer_instance

/-- The candidates among `cands` that the program maps to bin `k` and that pass its range
check. -/
def acceptedFor64 (p : RisParams) (k : Nat) (cands : List (ℚ × Waveform)) :
    List (ℚ × Waveform) :=
  cands.filter (fun c => decide (binIndex64 c.1 p.of p.si = (k : Int) ∧ ¬ rejected64 p c.1))

/-- The centre and the limits of every bin are those set by the initialisation loop of the
program. -/
def WindowsOK64 (p : RisParams) (s : RisState) : Prop :=
  s.ris_data.length = p.of.toNat ∧
  ∀ (k : Nat) (bin : RISData), s.ris_data[k]? = some bin →
    bin.c_bin = binCentre64 p (k : Int) ∧
    bin.upper_bin = dadd (binCentre64 p (k : Int)) (fc64 p) ∧
    bin.lower_bin = dsub (binCentre64 p (k : Int)) (fc64 p)

/-! ## Monitor-frame decoder (`GetStartedPeakTDC.cpp`)

The buffer is a list of bytes and the cursor `dataP` an offset into it, a natural number;
the section on 32-bit pointers below takes the cursor as an address, with the wrap-around of
pointer arithmetic. `unsigned long` has 32 bits, as for the compiler
the example is written for, so each of the three headers occupies 8 bytes; the byte order is
little-endian with bit-fields allocated from the least significant bit, which is what makes
the `tag` field of the declarations coincide with the byte `dataP[3]` the decoder switches on.
-/

/-- A byte of the readout buffer. -/
abbrev Byte := Fin 256

/-- The 32-bit word made of four consecutive bytes, least significant first. -/
def word32 (b0 b1 b2 b3 : Byte) : Nat :=
  b0.val + 256 * b1.val + 65536 * b2.val + 16777216 * b3.val

/-- The two 32-bit words of the 8-byte header at offset `c`, when all 8 bytes are in the
buffer. -/
def headerWords (data : List Byte) (c : Nat) : Option (Nat × Nat) :=
  match data[c]?, data[c + 1]?, data[c + 2]?, data[c + 3]?,
        data[c + 4]?, data[c + 5]?, data[c + 6]?, data[c + 7]? with
  | some b0, some b1, some b2, some b3, some b4, some b5, some b6, some b7 =>
    some (word32 b0 b1 b2 b3, word32 b4 b5 b6 b7)
  | _, _, _, _, _, _, _, _ => none

/-- The field `long amplitude : 20` of `struct PeakData`: bits 0..19 of the first word, read
as a signed (two's complement) number. -/
def peakAmplitude (w0 : Nat) : Int :=
  if w0 % 2 ^ 20 < 2 ^ 19 then ((w0 % 2 ^ 20 : Nat) : Int) else ((w0 % 2 ^ 20 : Nat) : Int) - 2 ^ 20

/-- A line written by one of the three `printf` calls of `PrintoutData`, with the values
that are printed. -/
inductive Printed where
  /-- the line `# Gate: pos %lu len %lu` with `gateP->position, gateP->length` -/
  | gate (pos len : Nat)
  /-- the line `Peak: pos %lu ampl %d` with `peakP->position / 16, peakP->amplitude / 16` -/
  | peak (pos : Nat) (ampl : Int)
  /-- the line `# Segment: %06lx:%08lx` with `segP->timeStampHi, segP->timeStampLo` -/
  | segment (timeStampHi timeStampLo : Nat)
deriving DecidableEq, Repr

/-- The variables of `PrintoutData`, with the lines printed and the buffer offsets read so
far. -/
structure DecState where
  dataP : Nat
  printed : List Printed
  reads : List Nat
deriving DecidableEq, Repr

/-- The offsets of the header fields of a record at `c` other than the tag byte. -/
def fieldOffsets (c : Nat) : List Nat := [c, c + 1, c + 2, c + 4, c + 5, c + 6, c + 7]

/-- Result of one round of the decoding loop: the next state, or the state at a read outside
the buffer (no defined behaviour). -/
inductive DecStep where
  | next (s : DecState)
  | outside (s : DecState)
deriving DecidableEq, Repr

/-- One round of the loop of `PrintoutData`, lines 45-79: the `switch (dataP[3])`. A tag
other than `0x00`, `0x10`, `0x04` matches no `case`, and the round changes nothing. -/
def decodeStep (data : List Byte) (s : DecState) : DecStep :=
  let c := s.dataP
  match data[c + 3]? with
  | none => .outside { s with reads := s.reads ++ [c + 3] }
  | some tag =>
    if tag.val = 0x00 then
      match headerWords data c with
      | none => .outside { s with reads := s.reads ++ [c + 3] ++ fieldOffsets c }
      | some (w0, w1) =>
        .next { dataP := c + 8 + w1
                printed := s.printed ++ [Printed.gate (w0 % 2 ^ 24) w1]
                reads := s.reads ++ [c + 3] ++ fieldOffsets c }
    else if tag.val = 0x10 then
      match headerWords data c with
      | none => .outside { s with reads := s.reads ++ [c + 3] ++ fieldOffsets c }
      | some (w0, w1) =>
        .next { dataP := c + 8
                printed := s.printed ++ [Printed.peak (w1 / 16) (Int.tdiv (peakAmplitude w0) 16)]
                reads := s.reads ++ [c + 3] ++ fieldOffsets c }
    else if tag.val = 0x04 then
      match headerWords data c with
      | none => .outside { s with reads := s.reads ++ [c + 3] ++ fieldOffsets c }
      | some (w0, w1) =>
        .next { dataP := c + 8
                printed := s.printed ++ [Printed.segment (w0 % 2 ^ 24) w1]
                reads := s.reads ++ [c + 3] ++ fieldOffsets c }
    else .next { s with reads := s.reads ++ [c + 3] }

/-- How a run of `PrintoutData` ended. -/
inductive DecStatus where
  /-- the loop condition `dataP < dataEndP` failed and the function returned -/
  | returned
  /-- the given number of rounds did not suffice -/
  | outOfFuel
  /-- a byte outside the buffer was read -/
  | outOfBuffer
deriving DecidableEq, Repr

/-- Final status and variables of a run of `PrintoutData`. -/
structure DecResult where
  status : DecStatus
  final : DecState
deriving DecidableEq, Repr

/-- The loop `while (dataP < dataEndP)` of lines 43-80, for at most `fuel` rounds. -/
def decodeLoop (data : List Byte) (length : Int) : Nat → DecState → DecResult
  | 0, s => { status := .outOfFuel, final := s }
  | fuel + 1, s =>
    if (s.dataP : Int) < length then
      match decodeStep data s with
      | .next s1 => decodeLoop data length fuel s1
      | .outside s1 => { status := .outOfBuffer, final := s1 }
    else { status := .returned, final := s }

/-- The function `PrintoutData(dataP, length)`, run for at most `fuel` rounds of its loop. -/
def PrintoutData (fuel : Nat) (data : List Byte) (length : Int) : DecResult :=
  decodeLoop data length fuel { dataP := 0, printed := [], reads := [] }

/-! ### The byte image of the records

The records the decoder is written for, with the fields of the declarations
`struct SegmentHeader`, `struct PeakData` and `struct GateHeader` (lines 16-36), and their
image in the buffer under the layout described above. -/

/-- A record of the readout buffer. -/
inductive Rec where
  | segment (timeStampHi timeStampLo : Nat)
  | peak (amplitude : Int) (unused position : Nat)
  | gate (position : Nat) (payload : List Byte)
deriving DecidableEq, Repr

/-- The fields of a record fit the widths of their declarations. -/
def Rec.WellFormed : Rec → Prop
  | .segment hi lo => hi < 2 ^ 24 ∧ lo < 2 ^ 32
  | .peak a u pos => -(2 ^ 19) ≤ a ∧ a < 2 ^ 19 ∧ u < 2 ^ 4 ∧ pos < 2 ^ 32
  | .gate pos payload => pos < 2 ^ 24 ∧ payload.length < 2 ^ 32

instance (r : Rec) : Decidable r.WellFormed := by
  cases r <;> unfold Rec.WellFormed <;> infer_instance

/-- The tag byte of a record: `0x04`, `0x10`, `0x00`. -/
def Rec.tag : Rec → Nat
  | .segment _ _ => 0x04
  | .peak _ _ _ => 0x10
  | .gate _ _ => 0x00

/-- The byte `n mod 256`. -/
def toByte (n : Nat) : Byte := ⟨n % 256, Nat.mod_lt n (by decide)⟩

/-- The four bytes of a 32-bit word, least significant first. -/
def le32 (w : Nat) : List Byte :=
  [toByte w, toByte (w / 256), toByte (w / 65536), toByte (w / 16777216)]

/-- The first header word of a record: the 24 low bits hold the bit-fields before `tag`. -/
def Rec.word0 : Rec → Nat
  | .segment hi _ => hi % 2 ^ 24 + 2 ^ 24 * 0x04
  | .peak a u _ => (a % 2 ^ 20).toNat + 2 ^ 20 * (u % 2 ^ 4) + 2 ^ 24 * 0x10
  | .gate pos _ => pos % 2 ^ 24 + 2 ^ 24 * 0x00

/-- The second header word of a record. -/
def Rec.word1 : Rec → Nat
  | .segment _ lo => lo
  | .peak _ _ pos => pos
  | .gate _ payload => payload.length

/-- The bytes that follow the header: the samples of a gate. -/
def Rec.payload : Rec → List Byte
  | .gate _ payload => payload
  | _ => []

/-- The byte image of one record: 8-byte header, then the payload. -/
def encodeRec (r : Rec) : List Byte := le32 r.word0 ++ le32 r.word1 ++ r.payload

/-- The byte image of a sequence of records. -/
def encodeRecs : List Rec → List Byte
  | [] => []
  | r :: rest => encodeRec r ++ encodeRecs rest

/-- The line `PrintoutData` prints for a record: position and amplitude of a peak are
divided by 16. -/
def Rec.printed : Rec → Printed
  | .segment hi lo => .segment hi lo
  | .peak a _ pos => .peak (pos / 16) (Int.tdiv a 16)
  | .gate pos payload => .gate pos payload.length

/-- The line that would carry the fields of a record as they were encoded. -/
def Rec.asEncoded : Rec → Printed
  | .segment hi lo => .segment hi lo
  | .peak a _ pos => .peak pos a
  | .gate pos payload => .gate pos payload.length

/-! ## SAR acquisition loop (`GetStartedSARmode.cpp`) -/

/-- The driver functions called in the SAR loop. -/
inductive DriverCall where
  | waitForEndOfAcquisition
  | forceTrig
  | readData
  | freeBank
deriving DecidableEq, Repr

/-- What the loop does that can be observed: a driver call, a message of `CHECK_API_CALL`
for the status of a call, the writing of the waveform file of round `acq`. -/
inductive SarEvent where
  | call (c : DriverCall)
  | report (c : DriverCall) (status : Int)
  | fileWritten (acq : Int)
deriving DecidableEq, Repr

/-- A simulated driver: from its state and the call, the returned status and its next
state. -/
structure Driver (σ : Type) where
  respond : σ → DriverCall → Int × σ

/-- The status `VI_SUCCESS`. -/
def VI_SUCCESS : Int := 0

/-- The effect of `CHECK_API_CALL(f, s)` (lines 18-19): a message when `s` is not zero. -/
def checkApiCall (c : DriverCall) (status : Int) : List SarEvent :=
  if status ≠ 0 then [.report c status] else []

/-- Lines 128-139: the wait for the end of the acquisition and the forced trigger. Returns
the events and the state of the driver. -/
def sarWait {σ : Type} (d : Driver σ) (st : σ) : List SarEvent × σ :=
  let r1 := d.respond st .waitForEndOfAcquisition
  let ev1 := [SarEvent.call .waitForEndOfAcquisition] ++
    checkApiCall .waitForEndOfAcquisition r1.1
  if r1.1 ≠ VI_SUCCESS then
    let r2 := d.respond r1.2 .forceTrig
    let ev2 := ev1 ++ [SarEvent.call .forceTrig] ++ checkApiCall .forceTrig r2.1
    let r3 := d.respond r2.2 .waitForEndOfAcquisition
    (ev2 ++ [SarEvent.call .waitForEndOfAcquisition] ++
      checkApiCall .waitForEndOfAcquisition r3.1, r3.2)
  else (ev1, r1.2)

/-- One round of the loop `for (acq = 1; acq <= nbrSARLoops; acq++)`, lines 126-172. -/
def sarIteration {σ : Type} (d : Driver σ) (st : σ) (acq : Int) : List SarEvent × σ :=
  let w := sarWait d st
  let r4 := d.respond w.2 .readData
  let ev4 := w.1 ++ [SarEvent.call .readData] ++ checkApiCall .readData r4.1 ++
    [SarEvent.fileWritten acq]
  let r5 := d.respond r4.2 .freeBank
  (ev4 ++ [SarEvent.call .freeBank] ++ checkApiCall .freeBank r5.1, r5.2)

/-- The constant `nbrSARLoops`. -/
def nbrSARLoops : Nat := 10

/-- The rounds `acq, acq + 1, ...` of the loop, `n` of them. -/
def sarRounds {σ : Type} (d : Driver σ) : Nat → Int → σ → List (List SarEvent) × σ
  | 0, _, st => ([], st)
  | n + 1, acq, st =>
    let r := sarIteration d st acq
    let rest := sarRounds d n (acq + 1) r.2
    (r.1 :: rest.1, rest.2)

/-- The whole loop of lines 124-173: the events of each of its `nbrSARLoops` rounds. -/
def sarLoop {σ : Type} (d : Driver σ) (st : σ) : List (List SarEvent) × σ :=
  sarRounds d nbrSARLoops 1 st

/-- The driver calls among the events, in order. -/
def driverCalls : List SarEvent → List DriverCall
  | [] => []
  | .call c :: rest => c :: driverCalls rest
  | _ :: rest => driverCalls rest

/-- The status returned by the first wait of a round started in driver state `st`. -/
def firstWaitStatus {σ : Type} (d : Driver σ) (st : σ) : Int :=
  (d.respond st .waitForEndOfAcquisition).1

/-- The status returned by `AcqrsD1_forceTrig` when it is called after the first wait. -/
def forceTrigStatus {σ : Type} (d : Driver σ) (st : σ) : Int :=
  (d.respond (d.respond st .waitForEndOfAcquisition).2 .forceTrig).1

/-- The status returned by the wait that follows the forced trigger. -/
def secondWaitStatus {σ : Type} (d : Driver σ) (st : σ) : Int :=
  (d.respond (d.respond (d.respond st .waitForEndOfAcquisition).2 .forceTrig).2
    .waitForEndOfAcquisition).1

/-- A simulated driver that answers its calls with the statuses of a script, in order, and
with `VI_SUCCESS` once the script is used up. -/
def scriptedDriver : Driver (List Int) :=
  { respond := fun script _ => (script.headD VI_SUCCESS, script.tail) }

/-! ## Invariants of the RIS loop -/

/-- The invariant of the RIS loop behind the best-match property, for the candidates `hist`
used so far: a bin that counts as filled (`horPos < 1.0`) holds one of the accepted
candidates of the bin, at the least computed distance `fabs(c_bin - horPos)` from the centre
among them; in a bin that does not count as filled, no accepted candidate of the bin was
below `1.0`. -/
def BinInv (p : RisParams) (hist : List (ℚ × Waveform)) (s : RisState) : Prop :=
  WindowsOK64 p s ∧
  ∀ (k : Nat) (bin : RISData), s.ris_data[k]? = some bin →
    (bin.horPos < 1 →
      (bin.horPos, bin.waveformArray) ∈ acceptedFor64 p k hist ∧
      ∀ c ∈ acceptedFor64 p k hist, |dsub bin.c_bin bin.horPos| ≤ |dsub bin.c_bin c.1|) ∧
    (¬ bin.horPos < 1 → ∀ c ∈ acceptedFor64 p k hist, 1 ≤ c.1)

/-- The number of bins whose stored `horPos` differs from the initial value `1.0`. -/
def filledCount (bins : List RISData) : Nat :=
  bins.countP (fun b => decide (b.horPos ≠ 1))

/-- The invariant of the RIS loop behind the count of filled bins, for the candidates `hist`
used so far: `nb_bin` is the number of bins whose `horPos` is not `1.0`, no stored `horPos`
exceeds `1.0`, and a bin whose `horPos` is not `1.0` holds one of the candidates. -/
def CountInv (p : RisParams) (hist : List (ℚ × Waveform)) (s : RisState) : Prop :=
  WindowsOK64 p s ∧ s.nb_bin = (filledCount s.ris_data : Int) ∧
  ∀ (k : Nat) (bin : RISData), s.ris_data[k]? = some bin →
    bin.horPos ≤ 1 ∧ (bin.horPos ≠ 1 → (bin.horPos, bin.waveformArray) ∈ hist)

/-! ## Concrete runs of the RIS loop -/

/-- Sampling interval 1, two bins, accuracy 100 %. -/
def risDemoParams : RisParams := { si := 1, of := 2, oa := 100 }

/-- The loop variables for `risDemoParams` after the acquisition of `horPos = -1/8` with
waveform `[1]`. -/
def risDemoState1 : RisState :=
  { ris_data := [⟨-1 / 8, [1], -1 / 4, 0, -1 / 2⟩, ⟨1, [], -3 / 4, -1 / 2, -1⟩]
    nb_bin := 1, nb_iter := 1, skipped := 0 }

/-- The loop variables after the further acquisition of `horPos = -3/8` with waveform
`[2]`. -/
def risDemoState2 : RisState :=
  { ris_data := [⟨-3 / 8, [2], -1 / 4, 0, -1 / 2⟩, ⟨1, [], -3 / 4, -1 / 2, -1⟩]
    nb_bin := 1, nb_iter := 2, skipped := 0 }

/-- The loop variables after the third acquisition, of `horPos = -7/8` with waveform
`[3]`. -/
def risDemoState3 : RisState :=
  { ris_data := [⟨-3 / 8, [2], -1 / 4, 0, -1 / 2⟩, ⟨-7 / 8, [3], -3 / 4, -1 / 2, -1⟩]
    nb_bin := 2, nb_iter := 3, skipped := 0 }

/-- The double nearest to `1e-10`, three bins, accuracy 100 %. -/
def risOverflowParams : RisParams :=
  { si := 7737125245533627 / 2 ^ 86, of := 3, oa := 100 }

/-- The double next below the sampling interval of `risOverflowParams`, negated. -/
def risOverflowHorPos : ℚ := -(7737125245533626 / 2 ^ 86)

/-- Sampling interval 1, one bin, accuracy 2 %. -/
def risWindowParams : RisParams := { si := 1, of := 1, oa := 2 }

/-- The upper limit the program stores for the bin of `risWindowParams`: the double nearest
to `-0.5 + 0.01`. -/
def risWindowHorPos : ℚ := -(2206763817411543 / 2 ^ 52)

/-- A position `2^-60` below zero. -/
def risDriftHorPos : ℚ := -(1 / 2 ^ 60)

/-! ## Device discovery of the SC240 examples
(`GetStartedSC240BaseStrmVC.cpp`, `GetStartedSC240StreamerVC.cpp`)

The driver calls that `main` issues from `FindDevices` to the end of `Acquire`, in order,
with the instrument handle they are given. The messages of `CHECK_API_CALL` and the wait
for the operator are left out. -/

/-- A driver call of the first part of `main`. -/
inductive ScCall where
  | multiInstrAutoDefine
  | initWithOptions
  | configLogicDevice (instrID : Int) (flag : Int)
  | getInstrumentInfo (instrID : Int)
  | configHorizontal (instrID : Int)
  | configVertical (instrID : Int) (channel : Int)
  | configTrigClass (instrID : Int)
  | configTrigSource (instrID : Int)
  | configMode (instrID : Int)
  | acquire (instrID : Int)
deriving DecidableEq, Repr

/-- The answer of the driver to a call: the status, and the value it writes to the output
argument (`numInstr` for `AcqrsD1_multiInstrAutoDefine`, `instrID` for
`Acqrs_InitWithOptions`). -/
structure ScAnswer where
  status : Int
  value : Int
deriving DecidableEq, Repr

/-- A simulated driver for the SC240 examples. -/
structure ScDriver (σ : Type) where
  respond : σ → ScCall → ScAnswer × σ

/-- The function `FindDevices` (lines 214-246 of the base streamer, 270-302 of the streamer):
the returned handle, the calls, the state of the driver. -/
def FindDevices {σ : Type} (d : ScDriver σ) (st : σ) : Int × List ScCall × σ :=
  let r1 := d.respond st .multiInstrAutoDefine
  if r1.1.value < 1 then (-1, [.multiInstrAutoDefine], r1.2)
  else
    let r2 := d.respond r1.2 .initWithOptions
    (r2.1.value, [.multiInstrAutoDefine, .initWithOptions], r2.2)

/-- The function `LoadFPGA` of the base streamer, lines 307-339. -/
def baseStrmLoadFPGA {σ : Type} (d : ScDriver σ) (st : σ) (instrID : Int) : List ScCall × σ :=
  let r1 := d.respond st (.configLogicDevice instrID 1)
  let r2 := d.respond r1.2 (.configLogicDevice instrID 3)
  if r2.1.status = VI_SUCCESS then
    let r3 := d.respond r2.2 (.getInstrumentInfo instrID)
    let r4 := d.respond r3.2 (.getInstrumentInfo instrID)
    let r5 := d.respond r4.2 (.getInstrumentInfo instrID)
    ([.configLogicDevice instrID 1, .configLogicDevice instrID 3, .getInstrumentInfo instrID,
      .getInstrumentInfo instrID, .getInstrumentInfo instrID], r5.2)
  else ([.configLogicDevice instrID 1, .configLogicDevice instrID 3], r2.2)

/-- The function `LoadFPGA` of the streamer, lines 358-370. -/
def streamerLoadFPGA {σ : Type} (d : ScDriver σ) (st : σ) (instrID : Int) : List ScCall × σ :=
  let r1 := d.respond st (.configLogicDevice instrID 1)
  let r2 := d.respond r1.2 (.configLogicDevice instrID 3)
  ([.configLogicDevice instrID 1, .configLogicDevice instrID 3], r2.2)

/-- The calls `cs` issued one after the other: their list and the state of the driver
after them (the statuses are only reported). -/
def scIssue {σ : Type} (d : ScDriver σ) : σ → List ScCall → List ScCall × σ
  | st, [] => ([], st)
  | st, c :: cs =>
    let r := scIssue d (d.respond st c).2 cs
    (c :: r.1, r.2)

/-- The function `Configure` of the base streamer, lines 179-210. -/
def baseStrmConfigure {σ : Type} (d : ScDriver σ) (st : σ) (instrID : Int) : List ScCall × σ :=
  scIssue d st [.configHorizontal instrID, .configVertical instrID 1, .configTrigClass instrID,
    .configTrigSource instrID]

/-- The function `Configure` of the streamer, lines 232-266. -/
def streamerConfigure {σ : Type} (d : ScDriver σ) (st : σ) (instrID : Int) : List ScCall × σ :=
  scIssue d st [.configHorizontal instrID, .configVertical instrID 1, .configVertical instrID 2,
    .configTrigClass instrID, .configTrigSource instrID]

/-- The function `Acquire` of both examples (lines 81-94 and 98-111). -/
def scAcquire {σ : Type} (d : ScDriver σ) (st : σ) (instrID : Int) : List ScCall × σ :=
  scIssue d st [.configMode instrID, .acquire instrID]

/-- The first statements of `main` of the base streamer, lines 646-651: `FindDevices`,
`LoadFPGA`, `Configure`, `Acquire`. The result is the list of driver calls so far. -/
def baseStrmMainStart {σ : Type} (d : ScDriver σ) (st : σ) : List ScCall × σ :=
  let f := FindDevices d st
  let l := baseStrmLoadFPGA d f.2.2 f.1
  let c := baseStrmConfigure d l.2 f.1
  let a := scAcquire d c.2 f.1
  (f.2.1 ++ l.1 ++ c.1 ++ a.1, a.2)

/-- The first statements of `main` of the streamer, lines 661-667. -/
def streamerMainStart {σ : Type} (d : ScDriver σ) (st : σ) : List ScCall × σ :=
  let f := FindDevices d st
  let l := streamerLoadFPGA d f.2.2 f.1
  let c := streamerConfigure d l.2 f.1
  let a := scAcquire d c.2 f.1
  (f.2.1 ++ l.1 ++ c.1 ++ a.1, a.2)

/-- A simulated driver of a machine without instrument: `numInstr` is 0 and every call
fails with the status `-1`. -/
def noInstrumentDriver : ScDriver Unit :=
  { respond := fun _ _ => ({ status := -1, value := 0 }, ()) }

/-! ## Command line of the RIS example (`RisAcquisitionVC.cpp`)

A C string is the list of its characters before the terminating zero. The library functions
`atoi` and `atof` are arguments of the embedding; `cAtoi` is `atoi` on the inputs whose
value fits an `int`. -/

/-- A C string. -/
abbrev CString := List Char

/-- Whether `strstr(s, pat)` is not `NULL`: `pat` occurs somewhere in `s`. -/
def strstr : CString → CString → Bool
  | [], pat => pat.isEmpty
  | c :: t, pat => pat.isPrefixOf (c :: t) || strstr t pat

/-- The global variables set by `CheckInputArguments`. -/
structure RisGlobals where
  si : ℚ
  nbrSamples : Int
  of : Int
  oa : Int
  OutputFile : CString
deriving DecidableEq, Repr

/-- The initial values of lines 30-34. -/
def risDefaults : RisGlobals :=
  { si := 1 / 10 ^ 12, nbrSamples := 1000, of := 10, oa := 100, OutputFile := "RIS.data".toList }

/-- The chain of `else if (strstr(...))` of lines 236-272 for the argument `strP`. -/
def processArg (atoi : CString → Int) (atof : CString → ℚ) (g : RisGlobals) (strP : CString) :
    RisGlobals :=
  if strstr strP "-si".toList then
    if (strP.drop 3).length ≠ 0 then { g with si := atof (strP.drop 3) } else g
  else if strstr strP "-ns".toList then
    if (strP.drop 3).length ≠ 0 then
      if atoi (strP.drop 3) > 100 then { g with nbrSamples := atoi (strP.drop 3) } else g
    else g
  else if strstr strP "-of".toList then
    if (strP.drop 3).length ≠ 0 then
      if atoi (strP.drop 3) > 0 then { g with of := atoi (strP.drop 3) } else g
    else g
  else if strstr strP "-oa".toList then
    if (strP.drop 3).length ≠ 0 then
      let g1 := if atoi (strP.drop 3) > 0 then { g with oa := atoi (strP.drop 3) } else g
      if g1.oa > 100 then { g1 with oa := 100 } else g1
    else g
  else if strstr strP "-f".toList then
    if (strP.drop 2).length ≠ 0 then { g with OutputFile := strP.drop 2 } else g
  else g

/-- The loop `while (--argc > 0)` of lines 208-274, entered with the value `argc`: the
returned status (1 after `-h`, else `VI_SUCCESS`) and the globals. -/
def checkArgsFrom (atoi : CString → Int) (atof : CString → ℚ) (argv : List CString) :
    Nat → RisGlobals → Int × RisGlobals
  | 0, g => (VI_SUCCESS, g)
  | 1, g => (VI_SUCCESS, g)
  | k + 2, g =>
    if k + 1 = 1 ∧ argv.getD (k + 1) [] = "-h".toList then (1, g)
    else checkArgsFrom atoi atof argv (k + 1) (processArg atoi atof g (argv.getD (k + 1) []))

/-- The function `CheckInputArguments(argc, argv)` with `argc` the length of `argv`. -/
def CheckInputArguments (atoi : CString → Int) (atof : CString → ℚ) (argv : List CString)
    (g : RisGlobals) : Int × RisGlobals :=
  checkArgsFrom atoi atof argv argv.length g

/-- The test `isspace` of C in the default locale. -/
def cIsSpace (c : Char) : Bool := c.toNat = 32 || (9 ≤ c.toNat && c.toNat ≤ 13)

/-- The digits read by `atoi`, accumulated in `acc`. -/
def atoiDigits (acc : Int) : CString → Int
  | [] => acc
  | c :: cs => if c.isDigit then atoiDigits (10 * acc + ((c.toNat - 48 : Nat) : Int)) cs else acc

/-- The library function `atoi`: white space, an optional sign, decimal digits. The value
is not wrapped: the model is that of `atoi` for the inputs whose value fits an `int`. -/
def cAtoi : CString → Int
  | [] => 0
  | c :: cs =>
    if cIsSpace c then cAtoi cs
    else if c = '-' then -atoiDigits 0 cs
    else if c = '+' then atoiDigits 0 cs
    else atoiDigits 0 (c :: cs)

/-- The number written by the decimal digits `ds`. -/
def decimalValue (ds : CString) : Nat :=
  ds.foldl (fun acc c => 10 * acc + (c.toNat - 48)) 0

/-- A non-empty string of decimal digits. -/
def IsDecimal (ds : CString) : Prop := ds ≠ [] ∧ ∀ c ∈ ds, c.isDigit = true

instance (ds : CString) : Decidable (IsDecimal ds) := by
  unfold IsDecimal; infer_instance

/-- The parameters of the RIS loop satisfy `nbrSamples > 100`, `of >= 1`,
`1 <= oa <= 100`. -/
def RisGlobals.Valid (g : RisGlobals) : Prop :=
  100 < g.nbrSamples ∧ 1 ≤ g.of ∧ 1 ≤ g.oa ∧ g.oa ≤ 100

/-! ## Readout loop of the threshold-gated SSR example (`GetStartedThresholdGatesSSR.cpp`)

The buffer and the cursor are those of the monitor-frame decoder; the headers are read as
two `unsigned int` of 32 bits. -/

/-- The value of a byte read as `signed char`. -/
def signedByte (b : Byte) : Int := if b.val < 128 then (b.val : Int) else (b.val : Int) - 256

/-- A line printed by the readout loop of lines 137-169. -/
inductive SsrLine where
  /-- the line `# Segment %d, timestamp %06x:%08x` -/
  | segment (nSeg : Int) (tsHi tsLo : Nat)
  /-- the line `#   Gate %d: %u samples at position %u` -/
  | gate (nGate : Int) (lenGate posGate : Nat)
  /-- the line `%u\t%d` with `posGate + n, samplesP[n]` -/
  | sample (position : Nat) (value : Int)
deriving DecidableEq, Repr

/-- The loop `for (n = 0; n < lenGate; ++n)` of lines 164-165, from `n` on, with `k` rounds
to go; the sum `posGate + n` is an `unsigned int`. The result is `none` when a sample lies
outside the buffer. -/
def ssrSampleLoop (data : List Byte) (samplesP posGate : Nat) : Nat → Nat → Option (List SsrLine)
  | 0, _ => some []
  | k + 1, n =>
    match data[samplesP + n]? with
    | none => none
    | some b =>
      (ssrSampleLoop data samplesP posGate k (n + 1)).map
        (fun rest => SsrLine.sample ((posGate + n) % 2 ^ 32) (signedByte b) :: rest)

/-- The variables of the readout loop and the lines printed so far. -/
structure SsrState where
  dataP : Nat
  nSeg : Int
  nGate : Int
  printed : List SsrLine
deriving DecidableEq, Repr

/-- The body of the inner loop, lines 154-165: one gate header and its samples. The result
is `none` when a byte outside the buffer is read. -/
def ssrGateBody (data : List Byte) (s : SsrState) : Option SsrState :=
  match headerWords data s.dataP with
  | none => none
  | some (w0, w1) =>
    match ssrSampleLoop data (s.dataP + 8) (w0 &&& 0x00FFFFFF) w1 0 with
    | none => none
    | some samples =>
      some { dataP := s.dataP + 8 + w1
             nSeg := s.nSeg
             nGate := s.nGate + 1
             printed := s.printed ++ [SsrLine.gate s.nGate w1 (w0 &&& 0x00FFFFFF)] ++ samples }

/-- How a run of a loop of the readout ended. -/
inductive SsrResult where
  /-- the loop condition failed in the state `s` -/
  | done (s : SsrState)
  /-- the given number of rounds did not suffice -/
  | outOfFuel
  /-- a byte outside the buffer was read -/
  | outside
deriving DecidableEq, Repr

/-- The inner loop `while (dataP[3] == 0x00 && dataP < dataEndP)` of lines 152-167, for at
most `fuel` rounds. The byte `dataP[3]` is read before the cursor is compared with the
end. -/
def ssrGateLoop (data : List Byte) (dataEnd : Int) : Nat → SsrState → SsrResult
  | 0, _ => .outOfFuel
  | fuel + 1, s =>
    match data[s.dataP + 3]? with
    | none => .outside
    | some tag =>
      if tag.val = 0x00 ∧ (s.dataP : Int) < dataEnd then
        match ssrGateBody data s with
        | none => .outside
        | some s1 => ssrGateLoop data dataEnd fuel s1
      else .done s

/-- The outer loop `while (dataP[3] == 0x04 && dataP < dataEndP)` of lines 141-169, for at
most `fuel` rounds, each inner loop having `fuel` rounds as well. -/
def ssrSegmentLoop (data : List Byte) (dataEnd : Int) : Nat → SsrState → SsrResult
  | 0, _ => .outOfFuel
  | fuel + 1, s =>
    match data[s.dataP + 3]? with
    | none => .outside
    | some tag =>
      if tag.val = 0x04 ∧ (s.dataP : Int) < dataEnd then
        match headerWords data s.dataP with
        | none => .outside
        | some (w0, w1) =>
          match ssrGateLoop data dataEnd fuel
              { dataP := s.dataP + 8
                nSeg := s.nSeg + 1
                nGate := 0
                printed := s.printed ++ [SsrLine.segment s.nSeg (w0 &&& 0x00FFFFFF) w1] } with
          | .done s1 => ssrSegmentLoop data dataEnd fuel s1
          | .outOfFuel => .outOfFuel
          | .outside => .outside
      else .done s

/-- The sample lines for the bytes `payload`, paired with the positions `p`, `p + 1`,
and so on. -/
def sampleLines (p : Nat) : List Byte → List SsrLine
  | [] => []
  | b :: rest => SsrLine.sample p (signedByte b) :: sampleLines (p + 1) rest

/-! ## Termination of the monitor-frame decoder -/

/-- One of the three tags of the `switch` of `PrintoutData`. -/
def KnownTag (tag : Byte) : Prop := tag.val = 0x00 ∨ tag.val = 0x10 ∨ tag.val = 0x04

instance (tag : Byte) : Decidable (KnownTag tag) := by
  unfold KnownTag; infer_instance

/-! ## The decoder with 32-bit pointers (`GetStartedPeakTDC.cpp`)

The cursor `dataP` of `PrintoutData` is a pointer. The headers are declared with
`unsigned long` fields and occupy 8 bytes only where `unsigned long` has 32 bits; on that
build pointers have 32 bits as well, an address is a number below `2^32`, and the additions
`dataP += sizeof(...)` and `dataP += gateP->length` are taken modulo `2^32`. The buffer
`data` stands at the address `base`; the loop test `dataP < dataEndP` compares addresses.
A read at an address outside the buffer has no defined behaviour. -/

/-- The addition of a number of bytes to a 32-bit pointer. -/
def ptrAdd (a n : Nat) : Nat := (a + n) % 2 ^ 32

/-- The byte at the address `a`, when `a` lies in the buffer `data` placed at `base`. -/
def byteAt (base : Nat) (data : List Byte) (a : Nat) : Option Byte :=
  if base ≤ a then data[a - base]? else none

/-- The two 32-bit words of the 8-byte header at the address `a`, when all 8 bytes are in
the buffer. -/
def headerWordsAt (base : Nat) (data : List Byte) (a : Nat) : Option (Nat × Nat) :=
  match byteAt base data a, byteAt base data (ptrAdd a 1), byteAt base data (ptrAdd a 2),
        byteAt base data (ptrAdd a 3), byteAt base data (ptrAdd a 4),
        byteAt base data (ptrAdd a 5), byteAt base data (ptrAdd a 6),
        byteAt base data (ptrAdd a 7) with
  | some b0, some b1, some b2, some b3, some b4, some b5, some b6, some b7 =>
    some (word32 b0 b1 b2 b3, word32 b4 b5 b6 b7)
  | _, _, _, _, _, _, _, _ => none

/-- The variables of `PrintoutData`, the cursor being an address, with the lines printed. -/
structure PtrState where
  dataP : Nat
  printed : List Printed
deriving DecidableEq, Repr

/-- Result of one round of the decoding loop on addresses. -/
inductive PtrStep where
  | next (s : PtrState)
  | outside (s : PtrState)
deriving DecidableEq, Repr

/-- One round of the loop of `PrintoutData`, lines 45-79, on addresses: the
`switch (dataP[3])`, with `dataP += sizeof(GateHeader); dataP += gateP->length;` for a
gate header. -/
def decodeStep32 (base : Nat) (data : List Byte) (s : PtrState) : PtrStep :=
  match byteAt base data (ptrAdd s.dataP 3) with
  | none => .outside s
  | some tag =>
    if tag.val = 0x00 then
      match headerWordsAt base data s.dataP with
      | none => .outside s
      | some (w0, w1) =>
        .next { dataP := ptrAdd (ptrAdd s.dataP 8) w1
                printed := s.printed ++ [Printed.gate (w0 % 2 ^ 24) w1] }
    else if tag.val = 0x10 then
      match headerWordsAt base data s.dataP with
      | none => .outside s
      | some (w0, w1) =>
        .next { dataP := ptrAdd s.dataP 8
                printed := s.printed ++ [Printed.peak (w1 / 16) (Int.tdiv (peakAmplitude w0) 16)] }
    else if tag.val = 0x04 then
      match headerWordsAt base data s.dataP with
      | none => .outside s
      | some (w0, w1) =>
        .next { dataP := ptrAdd s.dataP 8
                printed := s.printed ++ [Printed.segment (w0 % 2 ^ 24) w1] }
    else .next s

/-- Final status and variables of a run of `PrintoutData` on addresses. -/
structure PtrResult where
  status : DecStatus
  final : PtrState
deriving DecidableEq, Repr

/-- The loop `while (dataP < dataEndP)` of lines 43-80 on addresses, for at most `fuel`
rounds. -/
def decodeLoop32 (base : Nat) (data : List Byte) (dataEndP : Nat) : Nat → PtrState → PtrResult
  | 0, s => { status := .outOfFuel, final := s }
  | fuel + 1, s =>
    if s.dataP < dataEndP then
      match decodeStep32 base data s with
      | .next s1 => decodeLoop32 base data dataEndP fuel s1
      | .outside s1 => { status := .outOfBuffer, final := s1 }
    else { status := .returned, final := s }

/-- The pointer `dataEndP = dataP + length` of line 41, for the signed `length`. -/
def dataEndP (base : Nat) (length : Int) : Nat := (((base : Int) + length) % 2 ^ 32).toNat

/-- The function `PrintoutData(dataP, length)` called with the address `base` of the buffer
`data`, run for at most `fuel` rounds of its loop. -/
def PrintoutData32 (fuel : Nat) (base : Nat) (data : List Byte) (length : Int) : PtrResult :=
  decodeLoop32 base data (dataEndP base length) fuel { dataP := base, printed := [] }

/-- After some number `k` of rounds the run stands at an address below `dataEndP` whose tag
byte is none of the three tags. -/
def ReachesUnknownTag32 (base : Nat) (data : List Byte) (length : Int) : Prop :=
  ∃ (k : Nat) (tag : Byte),
    (PrintoutData32 k base data length).status = .outOfFuel ∧
    (PrintoutData32 k base data length).final.dataP < dataEndP base length ∧
    byteAt base data (ptrAdd (PrintoutData32 k base data length).final.dataP 3) = some tag ∧
    ¬ KnownTag tag

/-- The number of bytes the round at the address `a` adds to the pointer: 8 for a segment
header or a peak record, 8 plus the length for a gate header, nothing otherwise. -/
def stepAdvance (base : Nat) (data : List Byte) (a : Nat) : Nat :=
  match byteAt base data (ptrAdd a 3) with
  | none => 0
  | some tag =>
    if tag.val = 0x00 then
      match headerWordsAt base data a with
      | none => 0
      | some (_, w1) => 8 + w1
    else if tag.val = 0x10 ∨ tag.val = 0x04 then 8
    else 0

/-- After some number `k` of rounds the run stands at an address below `dataEndP` from
which the advance of the round leaves the 32-bit address space: the pointer wraps. -/
def ReachesWrap32 (base : Nat) (data : List Byte) (length : Int) : Prop :=
  ∃ k : Nat,
    (PrintoutData32 k base data length).status = .outOfFuel ∧
    (PrintoutData32 k base data length).final.dataP < dataEndP base length ∧
    2 ^ 32 ≤ (PrintoutData32 k base data length).final.dataP +
      stepAdvance base data (PrintoutData32 k base data length).final.dataP

/-- A buffer of the 32-bit build holding one gate header with position 0 and the length
`0xFFFFFFF8`, followed by 8 bytes. -/
def wrapDemoData : List Byte :=
  [0, 0, 0, 0, 0xF8, 0xFF, 0xFF, 0xFF, 0, 0, 0, 0, 0, 0, 0, 0]

/-! ## Device selection of the RIS example (`RisAcquisitionVC.cpp`) -/

/-- A driver call of `main` of the RIS example. -/
inductive RisCall where
  | getNbrInstruments
  | initWithOptions (i : Nat)
  | getInstrumentData (i : Nat)
  | getDevTypeByIndex (idx : Int)
  | closeAll
  | configHorizontal
  | getHorizontal
  | configMemory
  | configVertical
  | configTrigClass
  | configTrigSource
  | acquire
  | acqDone
  | stopAcquisition
  | readData
deriving DecidableEq, Repr

/-- The constant `MAX_SUPPORTED_DEVICES`. -/
def MAX_SUPPORTED_DEVICES : Int := 10

/-- The calls of the loop `for (i = 0; i < NumInstruments; i++)` of lines 322-339, for `n`
instruments. -/
def initInstruments : Nat → List RisCall
  | 0 => []
  | k + 1 => initInstruments k ++ [.initWithOptions k, .getInstrumentData k]

/-- The result of `FindAndSelectDevices`: the returned status, the globals `NumInstruments`
and `InstrIdx`, the driver calls. -/
structure SelectResult where
  status : Int
  NumInstruments : Int
  InstrIdx : Int
  calls : List RisCall
deriving DecidableEq, Repr

/-- The function `FindAndSelectDevices`, lines 295-361. `AqD1` is the device type of a
digitizer (a constant of the driver headers); `reported` is the number of instruments
written by `Acqrs_getNbrInstruments`, `selection` the value of `InstrIdx` after
`cin >> InstrIdx`, `devType` the type written by `Acqrs_getDevTypeByIndex`. -/
def FindAndSelectDevices (AqD1 reported selection devType : Int) : SelectResult :=
  if reported < 1 then
    { status := -1, NumInstruments := reported, InstrIdx := 0, calls := [.getNbrInstruments] }
  else
    let n := if reported > MAX_SUPPORTED_DEVICES then MAX_SUPPORTED_DEVICES else reported
    let found := RisCall.getNbrInstruments :: initInstruments n.toNat
    if selection ≥ n ∨ selection < 0 then
      { status := -1, NumInstruments := n, InstrIdx := selection, calls := found }
    else if devType ≠ AqD1 then
      { status := -1, NumInstruments := n, InstrIdx := selection,
        calls := found ++ [.getDevTypeByIndex selection] }
    else
      { status := VI_SUCCESS, NumInstruments := n, InstrIdx := selection,
        calls := found ++ [.getDevTypeByIndex selection] }

/-- The calls of `Configure`, lines 364-390. -/
def risConfigureCalls : List RisCall :=
  [.configHorizontal, .getHorizontal, .configMemory, .configVertical, .configTrigClass,
    .configTrigSource]

/-- The driver calls of `main` from line 90 on, after `CheckInputArguments` returned
`VI_SUCCESS`; `later` are the calls of the acquisitions of lines 97-199. -/
def risMainCalls (AqD1 reported selection devType : Int) (later : List RisCall) :
    List RisCall :=
  if (FindAndSelectDevices AqD1 reported selection devType).status ≠ 0 then
    (FindAndSelectDevices AqD1 reported selection devType).calls ++ [.closeAll]
  else
    (FindAndSelectDevices AqD1 reported selection devType).calls ++ risConfigureCalls ++ later

/-- A call that configures the digitizer or takes part in an acquisition. -/
def RisCall.configuresOrAcquires : RisCall → Bool
  | .configHorizontal | .getHorizontal | .configMemory | .configVertical | .configTrigClass
  | .configTrigSource | .acquire | .acqDone | .stopAcquisition | .readData => true
  | _ => false

/-! ## Monitor block of the base streamer (`GetStartedSC240BaseStrmVC.cpp`) -/

/-- The frame type written by `WriteHeaders`, line 346: `(header[0] & 0xFF000000L) >> 24`. -/
def frameType (w : Nat) : Nat := (w &&& 0xFF000000) >>> 24

/-- The time stamp in seconds computed by `WriteHeaders`, line 351:
`(header[0] & 0x00FFFFFFL) * 0.016777216 + header[1] * 1e-9`. -/
def frameTimestamp (w lo : Nat) : ℚ :=
  ((w &&& 0x00FFFFFF : Nat) : ℚ) * (16777216 / 10 ^ 9) + (lo : ℚ) * (1 / 10 ^ 9)

/-- What `WriteHeaders` writes for the headers of the Tx and Rx buffers. -/
structure HeaderLines where
  txFrameType : Nat
  rxFrameType : Nat
  txTimestamp : ℚ
  rxTimestamp : ℚ
deriving DecidableEq, Repr

/-- The function `WriteHeaders`, lines 343-358, for the first two words of both headers. -/
def WriteHeaders (tx0 tx1 rx0 rx1 : Nat) : HeaderLines :=
  { txFrameType := frameType tx0
    rxFrameType := frameType rx0
    txTimestamp := frameTimestamp tx0 tx1
    rxTimestamp := frameTimestamp rx0 rx1 }

/-- The constant `NbrLongs` of lines 395-401, for `NbrSamples` samples per frame. -/
def NbrLongs (NbrSamples : Nat) : Nat :=
  4 + NbrSamples / 4 + 4 + NbrSamples / 2 + 4 + 1024

/-- A read of the monitor buffer in `ReadMonitorBlock`: a header word read by
`WriteHeaders` or a parameter value (a long, by its index), a raw sample (a byte, by its
byte offset), an accumulated sample (a `short`, by the offset of its first byte). -/
inductive MonitorRead where
  | headerWord (longIndex : Nat)
  | rawSample (byteOffset : Nat)
  | accumSample (byteOffset : Nat)
  | parameter (longIndex : Nat)
deriving DecidableEq, Repr

/-- The offset of the last byte of a read. -/
def MonitorRead.lastByte : MonitorRead → Nat
  | .headerWord k => 4 * k + 3
  | .rawSample b => b
  | .accumSample b => b + 1
  | .parameter k => 4 * k + 3

/-- The two words `WriteHeaders` reads of the header at the long offset `cur`. -/
def headerReads (cur : Nat) : List MonitorRead := [.headerWord cur, .headerWord (cur + 1)]

/-- The reads of lines 446-456: sample 0, then the loop `for (i = 1; i < NbrSamples; ++i)`,
from the byte pointer at the long offset `cur`. -/
def rawReads (NbrSamples cur : Nat) : List MonitorRead :=
  .rawSample (4 * cur + 0) ::
    (List.range' 1 (NbrSamples - 1)).map (fun i => MonitorRead.rawSample (4 * cur + i))

/-- The reads of lines 467-478, from the `short` pointer at the long offset `cur`. -/
def accumReads (NbrSamples cur : Nat) : List MonitorRead :=
  .accumSample (4 * cur + 2 * 0) ::
    (List.range' 1 (NbrSamples - 1)).map (fun i => MonitorRead.accumSample (4 * cur + 2 * i))

/-- The reads of lines 487-497: value 0, then the loop `for (i = 1; i < 1024; ++i)`. -/
def parameterReads (cur : Nat) : List MonitorRead :=
  .parameter (cur + 0) :: (List.range' 1 1023).map (fun i => MonitorRead.parameter (cur + i))

/-- The state of the cursor walk of lines 435-497 over the Tx buffer: the cursor
`txCurrentP` as a number of longs from the start of `txData`, the values of the cursor
passed to `WriteHeaders`, and the reads made so far, in order. -/
structure MonitorWalk where
  txCurrentP : Nat
  headers : List Nat
  reads : List MonitorRead
deriving DecidableEq, Repr

/-- The call `WriteHeaders(outFile, txCurrentP, rxCurrentP)`. -/
def MonitorWalk.writeHeaders (w : MonitorWalk) : MonitorWalk :=
  { w with headers := w.headers ++ [w.txCurrentP], reads := w.reads ++ headerReads w.txCurrentP }

/-- The statement `txCurrentP += n`. -/
def MonitorWalk.advance (n : Nat) (w : MonitorWalk) : MonitorWalk :=
  { w with txCurrentP := w.txCurrentP + n }

/-- The raw samples read through `txRawSamplesP = (char*)txCurrentP`. -/
def MonitorWalk.rawSamples (NbrSamples : Nat) (w : MonitorWalk) : MonitorWalk :=
  { w with reads := w.reads ++ rawReads NbrSamples w.txCurrentP }

/-- The accumulated samples read through `txAccumSamplesP = (short*)txCurrentP`. -/
def MonitorWalk.accumSamples (NbrSamples : Nat) (w : MonitorWalk) : MonitorWalk :=
  { w with reads := w.reads ++ accumReads NbrSamples w.txCurrentP }

/-- The parameter values read through `txCurrentP[i]`. -/
def MonitorWalk.parameters (w : MonitorWalk) : MonitorWalk :=
  { w with reads := w.reads ++ parameterReads w.txCurrentP }

/-- The cursor walk of lines 435-497, statement by statement, from
`txCurrentP = (unsigned long*)txData`. -/
def monitorWalk (NbrSamples : Nat) : MonitorWalk :=
  let w0 : MonitorWalk := { txCurrentP := 0, headers := [], reads := [] }
  let w1 := w0.writeHeaders
  let w2 := (w1.advance 4).rawSamples NbrSamples
  let w3 := (w2.advance (NbrSamples / 4)).writeHeaders
  let w4 := (w3.advance 4).accumSamples NbrSamples
  let w5 := (w4.advance (NbrSamples / 2)).writeHeaders
  (w5.advance 4).parameters

/-- The reads of one monitor buffer by the cursor walk of lines 435-497, in order. -/
def monitorReads (NbrSamples : Nat) : List MonitorRead := (monitorWalk NbrSamples).reads

/-- Whether a read is a raw sample byte. -/
def MonitorRead.isRawSample : MonitorRead → Bool
  | .rawSample _ => true
  | _ => false

/-- Whether a read is an accumulated 16-bit sample. -/
def MonitorRead.isAccumSample : MonitorRead → Bool
  | .accumSample _ => true
  | _ => false

/-- Whether a read is a parameter value. -/
def MonitorRead.isParameter : MonitorRead → Bool
  | .parameter _ => true
  | _ => false

/-- Whether a read is a header word. -/
def MonitorRead.isHeaderWord : MonitorRead → Bool
  | .headerWord _ => true
  | _ => false

/-! ## Polling loops of the FFT example (`GetStartedAC240fftVC.cpp`)

The register values delivered by the successive calls of `ReadFPGA` are a sequence
`regs 0`, `regs 1`, and so on, of 32-bit patterns. -/

/-- The register address `FPGACtrlReg`. -/
def FPGACtrlReg : Nat := 3

/-- The register address `FPGAStatusReg`. -/
def FPGAStatusReg : Nat := 6

/-- The register address `DECtrlReg`. -/
def DECtrlReg : Nat := 8

/-- The register address `MainCtrlReg`. -/
def MainCtrlReg : Nat := 64

/-- The register address `MainStatusReg`. -/
def MainStatusReg : Nat := 65

/-- The register address `NbrAccReg`. -/
def NbrAccReg : Nat := 66

/-- The register address `FFTConfReg`. -/
def FFTConfReg : Nat := 67

/-- What `InitFPGA` and `WaitForSpectrum` do that is visible from outside. -/
inductive FpgaEvent where
  | printf (msg : String)
  | writeFPGA (regID value : Nat)
  | readFPGA (regID value : Nat)
  | sleep (ms : Nat)
deriving DecidableEq, Repr

/-- The variables of a polling loop: `timeout`, `ready`, the number of calls of `ReadFPGA`
made, and the events so far. -/
structure PollState where
  timeout : Int
  ready : Bool
  nRead : Nat
  events : List FpgaEvent
deriving DecidableEq, Repr

/-- The body of the polling loops of lines 261-268 and 409-414: decrement `timeout`, read
the register, test the bit `mask`, sleep `ms` milliseconds when the bit is clear. -/
def pollRound (regID mask ms : Nat) (regs : Nat → Nat) (s : PollState) : PollState :=
  let value := regs s.nRead
  let ready := (value &&& mask) != 0
  { timeout := s.timeout - 1
    ready := ready
    nRead := s.nRead + 1
    events := s.events ++ [FpgaEvent.readFPGA regID value] ++
      (if !ready then [FpgaEvent.sleep ms] else []) }

/-- The loop `while (!ready && timeout > 0)` of lines 260 and 408, for at most `fuel`
rounds; `none` when the fuel does not suffice. -/
def pollLoop (regID mask ms : Nat) (regs : Nat → Nat) : Nat → PollState → Option PollState
  | 0, _ => none
  | fuel + 1, s =>
    if !s.ready && decide (s.timeout > 0) then
      pollLoop regID mask ms regs fuel (pollRound regID mask ms regs s)
    else some s

/-- The message of line 418. -/
def spectrumTimeoutMsg : String := "Timeout while waiting for spectrum!\n"

/-- The message of line 272. -/
def deClockTimeoutMsg : String := "Timeout while waiting for DE clock!\n"

/-- The test `if (timeout <= 0) printf(msg)` that follows a polling loop. -/
def reportTimeout (msg : String) (s : PollState) : PollState :=
  if s.timeout ≤ 0 then { s with events := s.events ++ [FpgaEvent.printf msg] } else s

/-- The function `WaitForSpectrum`, lines 397-419. -/
def WaitForSpectrum (fuel : Nat) (regs : Nat → Nat) : Option PollState :=
  (pollLoop MainStatusReg 0x80000000 10 regs fuel
    { timeout := 100, ready := false, nRead := 0,
      events := [FpgaEvent.printf "Processing data\n"] }).map
    (reportTimeout spectrumTimeoutMsg)

/-- The writes of `InitFPGA` before the wait for the DE clock, lines 224-254. -/
def initFPGAWrites : List FpgaEvent :=
  [.printf "Initializing FPGA\n", .writeFPGA FPGACtrlReg 0, .writeFPGA FPGACtrlReg 0x00ff0000,
    .sleep 10, .writeFPGA DECtrlReg 0, .writeFPGA DECtrlReg 0x80000000, .writeFPGA NbrAccReg 30,
    .writeFPGA FFTConfReg 0x00000020]

/-- The function `InitFPGA`, lines 218-277: the writes, the wait for the DE clock, the
start of the FFT core. -/
def InitFPGA (fuel : Nat) (regs : Nat → Nat) : Option PollState :=
  (pollLoop FPGAStatusReg 0x00100000 1 regs fuel
    { timeout := 100, ready := false, nRead := 0, events := initFPGAWrites }).map
    (fun s =>
      let s1 := reportTimeout deClockTimeoutMsg s
      { s1 with events := s1.events ++ [FpgaEvent.writeFPGA MainCtrlReg 1] })

/-- The events the description of the polling loops prescribes for the reads number
`start`, ..., `start + n - 1`: each read, followed by one sleep when its bit is clear. -/
def specPollTrace (regID mask ms : Nat) (regs : Nat → Nat) : Nat → Nat → List FpgaEvent
  | _, 0 => []
  | start, n + 1 =>
    [FpgaEvent.readFPGA regID (regs start)] ++
      (if regs start &&& mask = 0 then [FpgaEvent.sleep ms] else []) ++
      specPollTrace regID mask ms regs (start + 1) n

/-! ## Acquisition of the RIS example (`RisAcquisitionVC.cpp`)

The values written to `done` by the successive calls of `AcqrsD1_acqDone` are a sequence
`answers 0`, `answers 1`, and so on. -/

/-- The variables of the polling loop of `Acquire` and the number of polls made. -/
structure AcqState where
  done : Int
  errTimeoutCounter : Int
  polls : Nat
deriving DecidableEq, Repr

/-- The loop `while (!done && errTimeoutCounter--)` of lines 425-428, for at most `fuel`
evaluations of its condition; the counter is decremented whenever it is tested, and it is
tested only when `done` is zero. -/
def acquireLoop (answers : Nat → Int) : Nat → AcqState → Option AcqState
  | 0, _ => none
  | fuel + 1, s =>
    if s.done = 0 then
      if s.errTimeoutCounter ≠ 0 then
        acquireLoop answers fuel
          { done := answers s.polls
            errTimeoutCounter := s.errTimeoutCounter - 1
            polls := s.polls + 1 }
      else some { s with errTimeoutCounter := s.errTimeoutCounter - 1 }
    else some s

/-- The status returned by `Acquire` and its driver calls. -/
structure AcquireResult where
  status : Int
  calls : List RisCall
deriving DecidableEq, Repr

/-- The function `Acquire`, lines 416-442. -/
def Acquire (fuel : Nat) (answers : Nat → Int) : Option AcquireResult :=
  (acquireLoop answers fuel { done := 0, errTimeoutCounter := 500000, polls := 0 }).map
    (fun s =>
      if s.done = 0 then
        { status := -1
          calls := RisCall.acquire :: List.replicate s.polls RisCall.acqDone ++
            [RisCall.stopAcquisition] }
      else
        { status := VI_SUCCESS
          calls := RisCall.acquire :: List.replicate s.polls RisCall.acqDone })

/-- What `main` does from the RIS loop on: a driver call, or the call of `saveData`. -/
inductive RisMainEvent where
  | driver (c : RisCall)
  | saveData
deriving DecidableEq, Repr

/-- What the driver delivers in one round of the RIS loop: the answers to the polls of
`Acquire`, and the `horPos` and waveform of `AcqrsD1_readData`. -/
structure RisRound where
  answers : Nat → Int
  horPos : ℚ
  wf : Waveform

/-- The RIS loop of `main` and what follows it, lines 131-199, with the events: a failed
`Acquire` returns through `CloseDevices`; when the loop is left `saveData` is called, then
`CloseDevices`. The result is `none` when the fuel of an `Acquire` does not suffice. -/
def risMainLoop (fuel : Nat) (p : RisParams) :
    RisState → List RisRound → Option (List RisMainEvent × RisOutcome)
  | s, [] => some ([], .atHead s)
  | s, r :: rest =>
    if s.nb_bin < p.of then
      match Acquire fuel r.answers with
      | none => none
      | some a =>
        if a.status ≠ 0 then
          some (a.calls.map RisMainEvent.driver ++ [.driver .closeAll], .acqError s)
        else
          match risBody p s r.horPos r.wf with
          | none => some (a.calls.map RisMainEvent.driver ++ [.driver .readData], .undefined)
          | some s1 =>
            (risMainLoop fuel p s1 rest).map
              (fun t => (a.calls.map RisMainEvent.driver ++ [.driver .readData] ++ t.1, t.2))
    else some ([.saveData, .driver .closeAll], .exited s)

/-! ## Acquisition on several instruments (`Test.cpp`)

The statuses returned by `AcqrsD1_acquire` and `AcqrsD1_waitForEndOfAcquisition` for the
instrument `i` are `acquireStatus i` and `waitStatus i`. -/

/-- A driver call of `Acquire` of `Test.cpp`, with the index of the instrument. -/
inductive TestCall where
  | acquire (i : Nat)
  | waitForEndOfAcquisition (i : Nat)
  | stopAcquisition (i : Nat)
deriving DecidableEq, Repr

/-- The first loop of `Acquire`, lines 207-211, from instrument `i` on with `k` rounds to
go: the calls, and whether every `assert(status==VI_SUCCESS)` held. -/
def acquireAll (acquireStatus : Nat → Int) : Nat → Nat → List TestCall × Bool
  | 0, _ => ([], true)
  | k + 1, i =>
    if acquireStatus i = VI_SUCCESS then
      (TestCall.acquire i :: (acquireAll acquireStatus k (i + 1)).1,
        (acquireAll acquireStatus k (i + 1)).2)
    else ([TestCall.acquire i], false)

/-- The second loop, lines 212-216: each wait overwrites the global `status`. -/
def waitAll (waitStatus : Nat → Int) : Nat → Nat → Int → List TestCall × Int
  | 0, _, status => ([], status)
  | k + 1, i, _ =>
    (TestCall.waitForEndOfAcquisition i :: (waitAll waitStatus k (i + 1) (waitStatus i)).1,
      (waitAll waitStatus k (i + 1) (waitStatus i)).2)

/-- The third loop, lines 217-225: the test `status != VI_SUCCESS` reads the global
`status`, which no round of this loop assigns. -/
def stopAll (status : Int) : Nat → Nat → List TestCall
  | 0, _ => []
  | k + 1, i =>
    (if status ≠ VI_SUCCESS then [TestCall.stopAcquisition i] else []) ++
      stopAll status k (i + 1)

/-- The result of `Acquire` of `Test.cpp`: whether an assertion failed, the global `status`
and the driver calls. -/
structure TestAcquireResult where
  aborted : Bool
  status : Int
  calls : List TestCall
deriving DecidableEq, Repr

/-- The function `Acquire` of `Test.cpp`, lines 200-226, for `NumInstruments` instruments
and the value `status0` of the global `status` on entry. The array `InstrumentID` has 10
elements: with more instruments the function has no defined behaviour (`none`). -/
def testAcquire (NumInstruments : Nat) (status0 : Int) (acquireStatus waitStatus : Nat → Int) :
    Option TestAcquireResult :=
  if 10 < NumInstruments then none
  else if (acquireAll acquireStatus NumInstruments 0).2 = false then
    some { aborted := true, status := status0
           calls := (acquireAll acquireStatus NumInstruments 0).1 }
  else
    let status1 := if NumInstruments = 0 then status0 else VI_SUCCESS
    some { aborted := false
           status := (waitAll waitStatus NumInstruments 0 status1).2
           calls := (acquireAll acquireStatus NumInstruments 0).1 ++
             (waitAll waitStatus NumInstruments 0 status1).1 ++
             stopAll (waitAll waitStatus NumInstruments 0 status1).2 NumInstruments 0 }

/-! ## The output file of the RIS example (`RisAcquisitionVC.cpp`) -/

/-- The inner loop `for (k = of-1; k >= 0; k--)` of lines 465-466 for the sample `d`, with
the bins `k-1`, ..., `0` still to write; `none` when a bin or a sample does not exist. -/
def saveRow (ris_data : List RISData) (d : Nat) : Nat → Option (List ℚ)
  | 0 => some []
  | k + 1 =>
    match ris_data[k]? with
    | none => none
    | some bin =>
      match bin.waveformArray[d]? with
      | none => none
      | some v => (saveRow ris_data d k).map (fun rest => v :: rest)

/-- The outer loop `for (d = 0; d < returnedSamplesPerSeg; d++)` of lines 463-470, from the
sample `d` on with `n` rounds to go. -/
def saveRows (of : Nat) (ris_data : List RISData) : Nat → Nat → Option (List ℚ)
  | 0, _ => some []
  | n + 1, d =>
    match saveRow ris_data d of with
    | none => none
    | some row => (saveRows of ris_data n (d + 1)).map (fun rest => row ++ rest)

/-- What `saveData` writes that concerns the time axis: the time increment and the initial
time of the header, and the data lines. -/
structure SavedData where
  timeIncrement : ℚ
  initialTime : ℚ
  lines : List ℚ
deriving DecidableEq, Repr

/-- The function `saveData`, lines 450-475. The result is `none` when the function has no
defined behaviour: `ris_data[of-1]` does not exist, a sample read does not exist, or the
progress test `d % (returnedSamplesPerSeg / 10)` of line 468 divides by zero. -/
def saveData (p : RisParams) (returnedSamplesPerSeg : Int) (ris_data : List RISData) :
    Option SavedData :=
  if p.of < 1 then none
  else
    match ris_data[(p.of - 1).toNat]? with
    | none => none
    | some last =>
      if 0 < returnedSamplesPerSeg ∧ Int.tdiv returnedSamplesPerSeg 10 = 0 then none
      else
        (saveRows p.of.toNat ris_data returnedSamplesPerSeg.toNat 0).map
          (fun lines =>
            { timeIncrement := p.si / (p.of : ℚ), initialTime := last.c_bin, lines := lines })

/-! ## The buffer of the gated readout (`GetStartedPeakTDC.cpp`,
`GetStartedThresholdGatesSSR.cpp`) -/

/-- The constant `nbrSamplePerSeg` of line 172 (line 78 of the SSR example):
`(8 + lenGate) * nbrGates`. -/
def nbrSamplePerSeg (lenGate nbrGates : Nat) : Nat := (8 + lenGate) * nbrGates

/-- The constant `nbrBytesAlloc` of line 173 (line 79 of the SSR example):
`(8 + nbrSamplePerSeg) * nbrSegments`; the values are taken small enough for the `long`
arithmetic not to overflow. -/
def nbrBytesAlloc (lenGate nbrGates nbrSegments : Nat) : Nat :=
  (8 + nbrSamplePerSeg lenGate nbrGates) * nbrSegments

/-- A segment of a gated readout as the description has it: a segment header followed by
gate records, each a position and its payload. -/
structure GatedSegment where
  timeStampHi : Nat
  timeStampLo : Nat
  gates : List (Nat × List Byte)
deriving DecidableEq, Repr

/-- The gate records of a segment. -/
def gateRecs (gates : List (Nat × List Byte)) : List Rec :=
  gates.map (fun g => Rec.gate g.1 g.2)

/-- The records of a segment: the header, then the gates. -/
def GatedSegment.recs (sg : GatedSegment) : List Rec :=
  Rec.segment sg.timeStampHi sg.timeStampLo :: gateRecs sg.gates

/-- The records of a sequence of segments. -/
def gatedRecs : List GatedSegment → List Rec
  | [] => []
  | sg :: rest => sg.recs ++ gatedRecs rest

/-- A segment with `nbrGates` gates of `lenGate` payload bytes each, whose fields fit
their widths. -/
def GatedSegment.Regular (lenGate nbrGates : Nat) (sg : GatedSegment) : Prop :=
  sg.timeStampHi < 2 ^ 24 ∧ sg.timeStampLo < 2 ^ 32 ∧ sg.gates.length = nbrGates ∧
    ∀ g ∈ sg.gates, g.1 < 2 ^ 24 ∧ g.2.length = lenGate

instance (lenGate nbrGates : Nat) (sg : GatedSegment) :
    Decidable (sg.Regular lenGate nbrGates) := by
  unfold GatedSegment.Regular; infer_instance

/-- The state of the readout loop of the SSR example on entry, lines 137-139. -/
def ssrInit : SsrState := { dataP := 0, nSeg := 0, nGate := 0, printed := [] }

/-- A segment with one gate of one sample, for a concrete run. -/
def gatedDemoSegment : GatedSegment := ⟨1, 2, [(5, [7])]⟩

/-! ## Saving the averaged trace (`GetStartedAvgVC.cpp`)

The type `size_t` is unsigned with `W` bits (32 or 64); a `ViInt32` that meets a `size_t` in
an expression is converted to it. -/

/-- The conversion of an `int` to `size_t` of `W` bits. -/
def toSizeT (W : Nat) (x : Int) : Nat := (x % 2 ^ W).toNat

/-- The size of `dataArray`, line 188: `nbrSegments * (nbrSamples + 32)` elements. -/
def avgDataArraySize (W : Nat) (nbrSamples nbrSegments : Int) : Nat :=
  toSizeT W (nbrSegments * (nbrSamples + 32))

/-- The variable `totalSamples` after lines 214-216, for a data array of `size` elements. -/
def avgTotalSamples (W : Nat) (nbrSamples nbrSegments indexFirstPoint : Int) (size : Nat) :
    Nat :=
  let totalSamples := toSizeT W (nbrSamples * nbrSegments)
  if (totalSamples + toSizeT W indexFirstPoint) % 2 ^ W > size then
    (size + 2 ^ W - toSizeT W indexFirstPoint) % 2 ^ W
  else totalSamples

/-- The indices `dataDesc.indexFirstPoint + i` of `dataArray` read by the loop of lines
218-219, in order. -/
def avgSavedIndices (W : Nat) (nbrSamples nbrSegments indexFirstPoint : Int) (size : Nat) :
    List Nat :=
  (List.range (avgTotalSamples W nbrSamples nbrSegments indexFirstPoint size)).map
    (fun i => (toSizeT W indexFirstPoint + i) % 2 ^ W)

/-! ## Readout of several segments (`GetStarted16bitMultiSegment.cpp`, `Test.cpp`)

The values are those of `ViInt32` variables, taken small enough for the products not to
overflow. -/

/-- The number of elements of `adcArray`, line 190 (line 261 of `Test.cpp`):
`(nbrSamples + tbNextSegmentPad) * (nbrSegments + 1)`. -/
def adcArrayCount (nbrSamples nbrSegments tbNextSegmentPad : Int) : Int :=
  (nbrSamples + tbNextSegmentPad) * (nbrSegments + 1)

/-- The index `j*readPar.segmentOffset+i` of lines 205 and 211 (line 286 of `Test.cpp`). -/
def readoutIndex (segmentOffset j i : Int) : Int := j * segmentOffset + i

/-- The indices read by the inner loop `for (i = 0; i < returnedSamplesPerSeg; i++)` for
the segment `j`. -/
def readoutRow (segmentOffset : Int) (returnedSamplesPerSeg : Nat) (j : Nat) : List Int :=
  (List.range returnedSamplesPerSeg).map
    (fun (i : Nat) => readoutIndex segmentOffset (j : Int) (i : Int))

/-- The indices read by the loop `for (j = 0; j < returnedSegments; j++)` in its first `k`
rounds, in order. -/
def readoutRows (segmentOffset : Int) (returnedSamplesPerSeg : Nat) : Nat → List Int
  | 0 => []
  | k + 1 =>
    readoutRows segmentOffset returnedSamplesPerSeg k ++
      readoutRow segmentOffset returnedSamplesPerSeg k

/-- The indices of `adcArray` read by one pass of the output loops of `Readout`, with
`readPar.segmentOffset = nbrSamples` (line 179). -/
def readoutIndices (nbrSamples returnedSegments returnedSamplesPerSeg : Int) : List Int :=
  readoutRows nbrSamples returnedSamplesPerSeg.toNat returnedSegments.toNat

/-! ### Arithmetic of the bin index -/

theorem cTrunc_of_nonneg {q : ℚ} (h : 0 ≤ q) : cTrunc q = ⌊q⌋ := by
  unfold cTrunc
  rw [Rat.floor_def, Int.tdiv_eq_ediv (Rat.num_nonneg.mpr h) (by positivity)]

theorem binIndex_eq_floor {of : Int} {si : ℚ} (horPos : ℚ) (hof : 0 ≤ of) (hsi : 0 < si) :
    binIndex horPos of si = ⌊|horPos| * (of : ℚ) / si⌋ := by
  unfold binIndex
  apply cTrunc_of_nonneg
  have : (0 : ℚ) ≤ (of : ℚ) := by exact_mod_cast hof
  positivity

/-- The bin index is `k` exactly when `|horPos| * of` lies in `[k * si, (k + 1) * si)`. -/
theorem binIndex_eq_iff {of : Int} {si : ℚ} (horPos : ℚ) (k : Int) (hof : 0 ≤ of)
    (hsi : 0 < si) :
    binIndex horPos of si = k ↔
      (k : ℚ) * si ≤ |horPos| * (of : ℚ) ∧ |horPos| * (of : ℚ) < ((k : ℚ) + 1) * si := by
  rw [binIndex_eq_floor horPos hof hsi, Int.floor_eq_iff, le_div_iff₀ hsi, div_lt_iff₀ hsi]


/-! ### C2: range and monotonicity of the bin index over exact rationals -/

theorem initBins_length (p : RisParams) (uninit : Waveform) :
    (initBins p uninit).length = p.of.toNat := by
  simp [initBins]

theorem binIndex_range {of : Int} {si horPos : ℚ} (hof : 1 ≤ of) (hsi : 0 < si)
    (hh : |horPos| < si) : 0 ≤ binIndex horPos of si ∧ binIndex horPos of si < of := by
  have hof0 : 0 ≤ of := by omega
  have hofq : (0 : ℚ) < (of : ℚ) := by exact_mod_cast (show (0 : Int) < of by omega)
  have hfl := binIndex_eq_floor horPos hof0 hsi
  constructor
  · rw [hfl]
    apply Int.floor_nonneg.mpr
    positivity
  · rw [hfl, Int.floor_lt, div_lt_iff₀ hsi]
    calc |horPos| * (of : ℚ) < si * (of : ℚ) := mul_lt_mul_of_pos_right hh hofq
      _ = (of : ℚ) * si := by ring

/-- C2. For a fixed oversampling factor `of >= 1` and sampling interval `si > 0` the bin
index is monotonic in `|horPos|`: if `|h1| <= |h2|` then the index of `h1` is at most the
index of `h2`. -/
theorem ris_index_monotone (of : Int) (si h1 h2 : ℚ) (hof : 1 ≤ of) (hsi : 0 < si)
    (hle : |h1| ≤ |h2|) : binIndex h1 of si ≤ binIndex h2 of si := by
  have hof0 : 0 ≤ of := by omega
  have hofq : (0 : ℚ) ≤ (of : ℚ) := by exact_mod_cast hof0
  rw [binIndex_eq_floor h1 hof0 hsi, binIndex_eq_floor h2 hof0 hsi]
  apply Int.floor_le_floor
  apply div_le_div_of_nonneg_right _ hsi.le
  exact mul_le_mul_of_nonneg_right hle hofq

theorem ris_index_monotone_witness : binIndex (1 / 8) 2 1 ≤ binIndex (-7 / 8) 2 1 :=
  ris_index_monotone 2 1 (1 / 8) (-7 / 8) (by decide) (by norm_num)
    (by rw [abs_le]; constructor <;> norm_num [abs_div])


theorem binIndex_of_bounds {of : Int} {si : ℚ} {horPos : ℚ} {k : Int} (hof : 0 ≤ of)
    (hsi : 0 < si) (h1 : (k : ℚ) * si ≤ |horPos| * (of : ℚ))
    (h2 : |horPos| * (of : ℚ) < ((k : ℚ) + 1) * si) : binIndex horPos of si = k :=
  (binIndex_eq_iff horPos k hof hsi).mpr ⟨h1, h2⟩

/-! ### Evaluation of the double-precision arithmetic -/

theorem rnd_zero : rnd 0 = 0 := by simp [rnd]

/-- The rounding of a positive rational with numerator `n` and denominator `d`. -/
theorem rnd_pos_eval (q : ℚ) (n d m : Nat) (e : Int) (hq : 0 < q) (hn : q.num = (n : Int))
    (hd : q.den = d) (hm : dMant n d = m) (he : dExp n d = e) :
    rnd q = (m : ℚ) * 2 ^ e := by
  have hne : q ≠ 0 := ne_of_gt hq
  simp only [rnd, hne, if_false, hq, if_true, hn, hd, Int.natAbs_ofNat, hm, he]

/-- The rounding of a negative rational with numerator `-n` and denominator `d`. -/
theorem rnd_neg_eval (q : ℚ) (n d m : Nat) (e : Int) (hq : q < 0) (hn : q.num = -(n : Int))
    (hd : q.den = d) (hm : dMant n d = m) (he : dExp n d = e) :
    rnd q = -((m : ℚ) * 2 ^ e) := by
  have hne : q ≠ 0 := ne_of_lt hq
  have hnp : ¬ 0 < q := not_lt.mpr hq.le
  simp only [rnd, hne, if_false, hnp, hn, hd, Int.natAbs_neg, Int.natAbs_ofNat, hm, he]

theorem rnd_nonneg {q : ℚ} (h : 0 ≤ q) : 0 ≤ rnd q := by
  unfold rnd
  split_ifs with h0 h1
  · exact le_refl _
  · exact mul_nonneg (Nat.cast_nonneg _) (zpow_nonneg (by norm_num) _)
  · exact absurd (lt_of_le_of_ne h (Ne.symm h0)) h1

/-- For `of >= 0` and `si > 0` the index the program computes is not negative. -/
theorem binIndex64_nonneg {of : Int} {si : ℚ} (horPos : ℚ) (hof : 0 ≤ of) (hsi : 0 < si) :
    0 ≤ binIndex64 horPos of si := by
  unfold binIndex64 ddiv dmul
  have hofq : (0 : ℚ) ≤ (of : ℚ) := by exact_mod_cast hof
  have h1 : 0 ≤ rnd (|horPos| * (of : ℚ)) := rnd_nonneg (mul_nonneg (abs_nonneg _) hofq)
  have h2 : 0 ≤ rnd (rnd (|horPos| * (of : ℚ)) / si) := rnd_nonneg (div_nonneg h1 hsi.le)
  rw [cTrunc_of_nonneg h2]
  exact Int.floor_nonneg.mpr h2

set_option maxRecDepth 100000 in
theorem rnd_pos1_100 : rnd (1 / 100) = 5764607523034235 / 576460752303423488 := by
  rw [rnd_pos_eval _ 1 100 5764607523034235 (-59) (by norm_num) (by norm_num) (by norm_num)
    (by decide) (by decide)]
  norm_num

set_option maxRecDepth 100000 in
theorem rnd_hundredth_50 : rnd (144115188075855875 / 288230376151711744) = 1 / 2 := by
  rw [rnd_pos_eval _ 144115188075855875 288230376151711744 4503599627370496 (-53) (by norm_num) (by norm_num) (by norm_num)
    (by decide) (by decide)]
  norm_num

set_option maxRecDepth 100000 in
theorem rnd_pos1_2 : rnd (1 / 2) = 1 / 2 := by
  rw [rnd_pos_eval _ 1 2 4503599627370496 (-53) (by norm_num) (by norm_num) (by norm_num)
    (by decide) (by decide)]
  norm_num

set_option maxRecDepth 100000 in
theorem rnd_pos1_4 : rnd (1 / 4) = 1 / 4 := by
  rw [rnd_pos_eval _ 1 4 4503599627370496 (-54) (by norm_num) (by norm_num) (by norm_num)
    (by decide) (by decide)]
  norm_num

set_option maxRecDepth 100000 in
theorem rnd_neg1_2 : rnd (-(1 / 2)) = -(1 / 2) := by
  rw [rnd_neg_eval _ 1 2 4503599627370496 (-53) (by norm_num) (by norm_num) (by norm_num)
    (by decide) (by decide)]
  norm_num

set_option maxRecDepth 100000 in
theorem rnd_neg1_4 : rnd (-(1 / 4)) = -(1 / 4) := by
  rw [rnd_neg_eval _ 1 4 4503599627370496 (-54) (by norm_num) (by norm_num) (by norm_num)
    (by decide) (by decide)]
  norm_num

set_option maxRecDepth 100000 in
theorem rnd_pos3_2 : rnd (3 / 2) = 3 / 2 := by
  rw [rnd_pos_eval _ 3 2 6755399441055744 (-52) (by norm_num) (by norm_num) (by norm_num)
    (by decide) (by decide)]
  norm_num

set_option maxRecDepth 100000 in
theorem rnd_neg3_2 : rnd (-(3 / 2)) = -(3 / 2) := by
  rw [rnd_neg_eval _ 3 2 6755399441055744 (-52) (by norm_num) (by norm_num) (by norm_num)
    (by decide) (by decide)]
  norm_num

set_option maxRecDepth 100000 in
theorem rnd_neg3_4 : rnd (-(3 / 4)) = -(3 / 4) := by
  rw [rnd_neg_eval _ 3 4 6755399441055744 (-53) (by norm_num) (by norm_num) (by norm_num)
    (by decide) (by decide)]
  norm_num

set_option maxRecDepth 100000 in
theorem rnd_neg1_1 : rnd (-1) = -1 := by
  rw [rnd_neg_eval _ 1 1 4503599627370496 (-52) (by norm_num) (by norm_num) (by norm_num)
    (by decide) (by decide)]
  norm_num

set_option maxRecDepth 100000 in
theorem rnd_pos3_4 : rnd (3 / 4) = 3 / 4 := by
  rw [rnd_pos_eval _ 3 4 6755399441055744 (-53) (by norm_num) (by norm_num) (by norm_num)
    (by decide) (by decide)]
  norm_num

set_option maxRecDepth 100000 in
theorem rnd_pos1_8 : rnd (1 / 8) = 1 / 8 := by
  rw [rnd_pos_eval _ 1 8 4503599627370496 (-55) (by norm_num) (by norm_num) (by norm_num)
    (by decide) (by decide)]
  norm_num

set_option maxRecDepth 100000 in
theorem rnd_neg1_8 : rnd (-(1 / 8)) = -(1 / 8) := by
  rw [rnd_neg_eval _ 1 8 4503599627370496 (-55) (by norm_num) (by norm_num) (by norm_num)
    (by decide) (by decide)]
  norm_num

set_option maxRecDepth 100000 in
theorem rnd_pos7_4 : rnd (7 / 4) = 7 / 4 := by
  rw [rnd_pos_eval _ 7 4 7881299347898368 (-52) (by norm_num) (by norm_num) (by norm_num)
    (by decide) (by decide)]
  norm_num

set_option maxRecDepth 100000 in
theorem rnd_hundredth_25 : rnd (144115188075855875 / 576460752303423488) = 1 / 4 := by
  rw [rnd_pos_eval _ 144115188075855875 576460752303423488 4503599627370496 (-54) (by norm_num) (by norm_num) (by norm_num)
    (by decide) (by decide)]
  norm_num

set_option maxRecDepth 100000 in
theorem rnd_neg3_8 : rnd (-(3 / 8)) = -(3 / 8) := by
  rw [rnd_neg_eval _ 3 8 6755399441055744 (-54) (by norm_num) (by norm_num) (by norm_num)
    (by decide) (by decide)]
  norm_num

set_option maxRecDepth 100000 in
theorem rnd_neg5_8 : rnd (-(5 / 8)) = -(5 / 8) := by
  rw [rnd_neg_eval _ 5 8 5629499534213120 (-53) (by norm_num) (by norm_num) (by norm_num)
    (by decide) (by decide)]
  norm_num

set_option maxRecDepth 100000 in
theorem rnd_neg7_8 : rnd (-(7 / 8)) = -(7 / 8) := by
  rw [rnd_neg_eval _ 7 8 7881299347898368 (-53) (by norm_num) (by norm_num) (by norm_num)
    (by decide) (by decide)]
  norm_num

set_option maxRecDepth 100000 in
theorem rnd_pos7_8 : rnd (7 / 8) = 7 / 8 := by
  rw [rnd_pos_eval _ 7 8 7881299347898368 (-53) (by norm_num) (by norm_num) (by norm_num)
    (by decide) (by decide)]
  norm_num

set_option maxRecDepth 100000 in
theorem rnd_overflow_product : rnd (11605687868300439 / 38685626227668133590597632) = 1450710983537555 / 4835703278458516698824704 := by
  rw [rnd_pos_eval _ 11605687868300439 38685626227668133590597632 5802843934150220 (-84) (by norm_num) (by norm_num) (by norm_num)
    (by decide) (by decide)]
  norm_num

set_option maxRecDepth 100000 in
theorem rnd_overflow_quotient : rnd (23211375736600880 / 7737125245533627) = 3 := by
  rw [rnd_pos_eval _ 23211375736600880 7737125245533627 6755399441055744 (-51) (by norm_num) (by norm_num) (by norm_num)
    (by decide) (by decide)]
  norm_num

set_option maxRecDepth 100000 in
theorem rnd_hundredth : rnd (5764607523034235 / 576460752303423488) = 5764607523034235 / 576460752303423488 := by
  rw [rnd_pos_eval _ 5764607523034235 576460752303423488 5764607523034235 (-59) (by norm_num) (by norm_num) (by norm_num)
    (by decide) (by decide)]
  norm_num

set_option maxRecDepth 100000 in
theorem rnd_window_upper : rnd (-(282465768628677509 / 576460752303423488)) = -(2206763817411543 / 4503599627370496) := by
  rw [rnd_neg_eval _ 282465768628677509 576460752303423488 8827055269646172 (-54) (by norm_num) (by norm_num) (by norm_num)
    (by decide) (by decide)]
  norm_num

set_option maxRecDepth 100000 in
theorem rnd_window_lower : rnd (-(293994983674745979 / 576460752303423488)) = -(2296835809958953 / 4503599627370496) := by
  rw [rnd_neg_eval _ 293994983674745979 576460752303423488 4593671619917906 (-53) (by norm_num) (by norm_num) (by norm_num)
    (by decide) (by decide)]
  norm_num

set_option maxRecDepth 100000 in
theorem rnd_window_horPos : rnd (2206763817411543 / 4503599627370496) = 2206763817411543 / 4503599627370496 := by
  rw [rnd_pos_eval _ 2206763817411543 4503599627370496 8827055269646172 (-54) (by norm_num) (by norm_num) (by norm_num)
    (by decide) (by decide)]
  norm_num

set_option maxRecDepth 100000 in
theorem rnd_drift_index : rnd (1 / 576460752303423488) = 1 / 576460752303423488 := by
  rw [rnd_pos_eval _ 1 576460752303423488 4503599627370496 (-111) (by norm_num) (by norm_num) (by norm_num)
    (by decide) (by decide)]
  norm_num

set_option maxRecDepth 100000 in
theorem rnd_drift_distance : rnd (-(288230376151711743 / 1152921504606846976)) = -(1 / 4) := by
  rw [rnd_neg_eval _ 288230376151711743 1152921504606846976 9007199254740992 (-55) (by norm_num) (by norm_num) (by norm_num)
    (by decide) (by decide)]
  norm_num

/-- The truncation of a non-negative rational between `k` and `k + 1`. -/
theorem cTrunc_eq {q : ℚ} {k : Int} (h1 : (k : ℚ) ≤ q) (h2 : q < (k : ℚ) + 1) (h0 : 0 ≤ q) :
    cTrunc q = k := by
  rw [cTrunc_of_nonneg h0, Int.floor_eq_iff]
  exact ⟨h1, h2⟩

theorem binIndex64_demo_a : binIndex64 (-7 / 16) 2 1 = 0 := by
  have h : ddiv (dmul |(-7 / 16 : ℚ)| ((2 : Int) : ℚ)) 1 = 7 / 8 := by
    norm_num [ddiv, dmul, abs_div, rnd_pos7_8]
  unfold binIndex64
  rw [h]
  exact cTrunc_eq (by norm_num) (by norm_num) (by norm_num)

theorem binIndex64_demo_b : binIndex64 (-1 / 8) 2 1 = 0 := by
  have h : ddiv (dmul |(-1 / 8 : ℚ)| ((2 : Int) : ℚ)) 1 = 1 / 4 := by
    norm_num [ddiv, dmul, abs_div, rnd_pos1_4]
  unfold binIndex64
  rw [h]
  exact cTrunc_eq (by norm_num) (by norm_num) (by norm_num)

theorem binIndex64_demo_c : binIndex64 (-3 / 8) 2 1 = 0 := by
  have h : ddiv (dmul |(-3 / 8 : ℚ)| ((2 : Int) : ℚ)) 1 = 3 / 4 := by
    norm_num [ddiv, dmul, abs_div, rnd_pos3_4]
  unfold binIndex64
  rw [h]
  exact cTrunc_eq (by norm_num) (by norm_num) (by norm_num)

theorem binIndex64_demo_d : binIndex64 (-7 / 8) 2 1 = 1 := by
  have h : ddiv (dmul |(-7 / 8 : ℚ)| ((2 : Int) : ℚ)) 1 = 7 / 4 := by
    norm_num [ddiv, dmul, abs_div, rnd_pos7_4]
  unfold binIndex64
  rw [h]
  exact cTrunc_eq (by norm_num) (by norm_num) (by norm_num)

/-- The index the program computes for `risOverflowHorPos` is 3: the product
`|horPos| * 3` is rounded up and its quotient by the sampling interval rounds to `3.0`. -/
theorem binIndex64_overflow :
    binIndex64 risOverflowHorPos risOverflowParams.of risOverflowParams.si = 3 := by
  have h : ddiv (dmul |risOverflowHorPos| ((3 : Int) : ℚ)) (7737125245533627 / 2 ^ 86) = 3 := by
    norm_num [risOverflowHorPos, ddiv, dmul, abs_div, rnd_overflow_product,
      rnd_overflow_quotient]
  show cTrunc (ddiv (dmul |risOverflowHorPos| ((3 : Int) : ℚ)) (7737125245533627 / 2 ^ 86)) = 3
  rw [h]
  exact cTrunc_eq (by norm_num) (by norm_num) (by norm_num)

/-- Over exact rationals the index of `risOverflowHorPos` is 2. -/
theorem binIndex_overflow :
    binIndex risOverflowHorPos risOverflowParams.of risOverflowParams.si = 2 :=
  binIndex_of_bounds (by decide) (by norm_num [risOverflowParams])
    (by norm_num [risOverflowParams, risOverflowHorPos, abs_div])
    (by norm_num [risOverflowParams, risOverflowHorPos, abs_div])

theorem risDemo_initBins : initBins64 risDemoParams [] =
    [⟨1, [], -1 / 4, 0, -1 / 2⟩, ⟨1, [], -3 / 4, -1 / 2, -1⟩] := by
  have h50 : Int.tdiv 100 2 = 50 := by decide
  simp [risDemoParams, initBins64, initBin64, binCentre64, fc64, List.range_succ, h50,
    ddiv, dmul, dadd, dsub]
  norm_num [rnd_pos1_100, rnd_hundredth_50, rnd_pos1_2, rnd_pos1_4, rnd_neg1_2, rnd_neg1_4,
    rnd_pos3_2, rnd_neg3_2, rnd_neg3_4, rnd_neg1_1, rnd_zero]


theorem lt_length_of_getElem? {α : Type} {l : List α} {i : Nat} {a : α} (h : l[i]? = some a) :
    i < l.length := by
  rcases Nat.lt_or_ge i l.length with h1 | h1
  · exact h1
  · rw [List.getElem?_eq_none h1] at h; cases h


/-! ### The rounds of the RIS loop -/

/-- The four ways a round of the RIS loop can go. -/
theorem risBody_cases {p : RisParams} {s s1 : RisState} {horPos : ℚ} {wf : Waveform}
    (h : risBody p s horPos wf = some s1) :
    p.si ≠ 0 ∧ 0 ≤ binIndex64 horPos p.of p.si ∧
    ∃ bin, s.ris_data[(binIndex64 horPos p.of p.si).toNat]? = some bin ∧
      ((p.oa < 100 ∧ (horPos < bin.lower_bin ∨ horPos > bin.upper_bin) ∧
          s1 = { s with nb_iter := s.nb_iter + 1, skipped := s.skipped + 1 }) ∨
       (¬(p.oa < 100 ∧ (horPos < bin.lower_bin ∨ horPos > bin.upper_bin)) ∧
          bin.horPos < 1 ∧ |dsub bin.c_bin horPos| > |dsub bin.c_bin bin.horPos| ∧
          s1 = { s with nb_iter := s.nb_iter + 1 }) ∨
       (¬(p.oa < 100 ∧ (horPos < bin.lower_bin ∨ horPos > bin.upper_bin)) ∧
          bin.horPos < 1 ∧ ¬ |dsub bin.c_bin horPos| > |dsub bin.c_bin bin.horPos| ∧
          s1 = { s with nb_iter := s.nb_iter + 1
                        ris_data := storeBin s.ris_data (binIndex64 horPos p.of p.si).toNat
                          bin horPos wf }) ∨
       (¬(p.oa < 100 ∧ (horPos < bin.lower_bin ∨ horPos > bin.upper_bin)) ∧
          ¬ bin.horPos < 1 ∧
          s1 = { s with nb_iter := s.nb_iter + 1, nb_bin := s.nb_bin + 1
                        ris_data := storeBin s.ris_data (binIndex64 horPos p.of p.si).toNat
                          bin horPos wf })) := by
  unfold risBody at h
  by_cases hsi : p.si = 0
  · simp [hsi] at h
  · by_cases hneg : binIndex64 horPos p.of p.si < 0
    · simp [hsi, hneg] at h
    · rcases hb : s.ris_data[(binIndex64 horPos p.of p.si).toNat]? with _ | bin
      · simp [hsi, hneg, hb] at h
      · refine ⟨hsi, by omega, bin, rfl, ?_⟩
        simp only [hsi, hneg, hb, if_false] at h
        by_cases hrej : p.oa < 100 ∧ (horPos < bin.lower_bin ∨ horPos > bin.upper_bin)
        · rw [if_pos hrej] at h
          exact Or.inl ⟨hrej.1, hrej.2, (Option.some.inj h).symm⟩
        · rw [if_neg hrej] at h
          by_cases hfill : bin.horPos < 1
          · rw [if_pos hfill] at h
            by_cases hfar : |dsub bin.c_bin horPos| > |dsub bin.c_bin bin.horPos|
            · rw [if_pos hfar] at h
              exact Or.inr (Or.inl ⟨hrej, hfill, hfar, (Option.some.inj h).symm⟩)
            · rw [if_neg hfar] at h
              exact Or.inr (Or.inr (Or.inl ⟨hrej, hfill, hfar, (Option.some.inj h).symm⟩))
          · rw [if_neg hfill] at h
            exact Or.inr (Or.inr (Or.inr ⟨hrej, hfill, (Option.some.inj h).symm⟩))

/-- A round is defined as soon as `si` is not zero and the index selects a bin. -/
theorem risBody_isSome {p : RisParams} {s : RisState} {horPos : ℚ} (wf : Waveform)
    (hsi : p.si ≠ 0) (h0 : 0 ≤ binIndex64 horPos p.of p.si)
    (hlt : (binIndex64 horPos p.of p.si).toNat < s.ris_data.length) :
    ∃ s1, risBody p s horPos wf = some s1 := by
  unfold risBody
  have hneg : ¬ binIndex64 horPos p.of p.si < 0 := by omega
  simp only [hsi, hneg, if_false, List.getElem?_eq_getElem hlt]
  split_ifs <;> exact ⟨_, rfl⟩

/-- Induction over the rounds of the loop: a property of the used candidates and the state
that holds on entry and is kept by every round holds at every loop head. -/
theorem risLoop_atHead_induction (p : RisParams)
    (Inv : List (ℚ × Waveform) → RisState → Prop)
    (hstep : ∀ hist s horPos wf s1, Inv hist s → s.nb_bin < p.of →
      risBody p s horPos wf = some s1 → Inv (hist ++ [(horPos, wf)]) s1) :
    ∀ (acqs : List Acq) (hist : List (ℚ × Waveform)) (s0 s : RisState), Inv hist s0 →
      risLoop p s0 acqs = .atHead s → Inv (hist ++ candidates acqs) s := by
  intro acqs
  induction acqs with
  | nil =>
    intro hist s0 s h0 hrun
    simp only [risLoop, RisOutcome.atHead.injEq] at hrun
    subst hrun
    simpa [candidates] using h0
  | cons a rest ih =>
    intro hist s0 s h0 hrun
    unfold risLoop at hrun
    by_cases hnb : s0.nb_bin < p.of
    · rw [if_pos hnb] at hrun
      cases a with
      | timeout => simp at hrun
      | ok horPos wf =>
        simp only at hrun
        rcases hb : risBody p s0 horPos wf with _ | s1
        · simp [hb] at hrun
        · simp only [hb] at hrun
          have := ih (hist ++ [(horPos, wf)]) s1 s (hstep hist s0 horPos wf s1 h0 hnb hb) hrun
          simpa [candidates] using this
    · rw [if_neg hnb] at hrun
      simp at hrun

theorem initBins64_length (p : RisParams) (uninit : Waveform) :
    (initBins64 p uninit).length = p.of.toNat := by
  simp [initBins64]

theorem windowsOK64_init (p : RisParams) (uninit : Waveform) :
    WindowsOK64 p (risInit p uninit) := by
  refine ⟨initBins64_length p uninit, ?_⟩
  intro k bin hk
  simp only [risInit, initBins64, List.getElem?_map, List.getElem?_range, Option.map_eq_some'] at hk
  obtain ⟨a, ha, hb⟩ := hk
  have hak : a = k := by
    by_cases hlt : k < p.of.toNat
    · rw [List.getElem?_range hlt] at ha
      exact (Option.some.inj ha).symm
    · rw [List.getElem?_eq_none (by simpa using hlt)] at ha
      cases ha
  subst hak hb
  exact ⟨rfl, rfl, rfl⟩

theorem windowsOK64_storeBin {p : RisParams} {s : RisState} {i : Nat} {bin : RISData}
    (hw : WindowsOK64 p s) (hb : s.ris_data[i]? = some bin) (horPos : ℚ) (wf : Waveform)
    (nb it sk : Int) :
    WindowsOK64 p
      { ris_data := storeBin s.ris_data i bin horPos wf, nb_bin := nb, nb_iter := it,
        skipped := sk } := by
  refine ⟨by simpa [storeBin] using hw.1, ?_⟩
  intro k b hk
  simp only [storeBin] at hk
  by_cases hik : i = k
  · subst hik
    have hlt : i < s.ris_data.length := by
      rcases Nat.lt_or_ge i s.ris_data.length with h1 | h1
      · exact h1
      · rw [List.getElem?_eq_none h1] at hb; cases hb
    rw [List.getElem?_set_self hlt] at hk
    have := hw.2 i bin hb
    cases Option.some.inj hk
    exact this
  · rw [List.getElem?_set_ne hik] at hk
    exact hw.2 k b hk

theorem windowsOK64_step {p : RisParams} {s s1 : RisState} {horPos : ℚ} {wf : Waveform}
    (hw : WindowsOK64 p s) (h : risBody p s horPos wf = some s1) : WindowsOK64 p s1 := by
  obtain ⟨_, _, bin, hb, hc⟩ := risBody_cases h
  rcases hc with ⟨_, _, rfl⟩ | ⟨_, _, _, rfl⟩ | ⟨_, _, _, rfl⟩ | ⟨_, _, rfl⟩
  · exact hw
  · exact hw
  · exact windowsOK64_storeBin hw hb horPos wf _ _ _
  · exact windowsOK64_storeBin hw hb horPos wf _ _ _

theorem windowsOK64_atHead {p : RisParams} {uninit : Waveform} {acqs : List Acq} {s : RisState}
    (hrun : risLoop p (risInit p uninit) acqs = .atHead s) : WindowsOK64 p s :=
  risLoop_atHead_induction p (fun _ st => WindowsOK64 p st)
    (fun _ _ _ _ _ hw _ hb => windowsOK64_step hw hb) acqs [] _ _ (windowsOK64_init p uninit) hrun



/-! ### C1: the range of the bin index -/

/-- A round whose index is not below the number of bins has no defined behaviour. -/
theorem risBody_none_of_index {p : RisParams} {s : RisState} {horPos : ℚ} (wf : Waveform)
    (h : s.ris_data.length ≤ (binIndex64 horPos p.of p.si).toNat) :
    risBody p s horPos wf = none := by
  unfold risBody
  by_cases hsi : p.si = 0
  · simp only [hsi, if_true]
  · by_cases hneg : binIndex64 horPos p.of p.si < 0
    · simp only [hsi, hneg, if_false, if_true]
    · simp only [hsi, hneg, if_false, List.getElem?_eq_none_iff.mpr h]

/-- C1. The bin index of line 149. Over exact rationals, for an oversampling factor
`of >= 1`, a sampling interval `si > 0` and a reported `horPos` with `|horPos| < si`, the
index is the floor of `|horPos| * of / si` and lies in `[0, of-1]`. The program computes the
product and the quotient in double precision: its index is not negative, and
`ris_data[index]` is one of the `of` allocated bins, and the round of the loop is defined,
exactly when the index is at most `of-1`. This can fail: for the sampling interval
`1e-10`, three bins and `horPos` the double next below the sampling interval, negated, the
exact index is 2 while the program computes 3, `ris_data[3]` lies behind the three allocated
bins and the round has no defined behaviour. -/
theorem ris_index_in_range (p : RisParams) (uninit : Waveform) (horPos : ℚ)
    (hof : 1 ≤ p.of) (hsi : 0 < p.si) (hh : |horPos| < p.si) :
    (binIndex horPos p.of p.si = ⌊|horPos| * (p.of : ℚ) / p.si⌋ ∧
      0 ≤ binIndex horPos p.of p.si ∧ binIndex horPos p.of p.si ≤ p.of - 1) ∧
    0 ≤ binIndex64 horPos p.of p.si ∧
    (risInit p uninit).ris_data.length = p.of.toNat ∧
    ((∃ bin, (risInit p uninit).ris_data[(binIndex64 horPos p.of p.si).toNat]? = some bin) ↔
      binIndex64 horPos p.of p.si ≤ p.of - 1) ∧
    (∀ (s : RisState) (wf : Waveform), s.ris_data.length = p.of.toNat →
      ((∃ s1, risBody p s horPos wf = some s1) ↔ binIndex64 horPos p.of p.si ≤ p.of - 1)) ∧
    (1 ≤ risOverflowParams.of ∧ 0 < risOverflowParams.si ∧
      |risOverflowHorPos| < risOverflowParams.si ∧
      binIndex risOverflowHorPos risOverflowParams.of risOverflowParams.si = 2 ∧
      binIndex64 risOverflowHorPos risOverflowParams.of risOverflowParams.si = 3 ∧
      (risInit risOverflowParams uninit).ris_data.length = 3 ∧
      (risInit risOverflowParams uninit).ris_data[3]? = none ∧
      risBody risOverflowParams (risInit risOverflowParams uninit) risOverflowHorPos uninit =
        none) := by
  have hfl := binIndex_eq_floor horPos (show 0 ≤ p.of by omega) hsi
  obtain ⟨h0, h1⟩ := binIndex_range hof hsi hh
  have h64 := binIndex64_nonneg horPos (show 0 ≤ p.of by omega) hsi
  have hlen : (risInit p uninit).ris_data.length = p.of.toNat := initBins64_length p uninit
  have hlenO : (risInit risOverflowParams uninit).ris_data.length = 3 :=
    initBins64_length risOverflowParams uninit
  refine ⟨⟨hfl, h0, by omega⟩, h64, hlen, ?_, ?_, by decide, by norm_num [risOverflowParams],
    by norm_num [risOverflowParams, risOverflowHorPos, abs_div], binIndex_overflow,
    binIndex64_overflow, hlenO, List.getElem?_eq_none_iff.mpr (by omega), ?_⟩
  · constructor
    · rintro ⟨bin, hb⟩
      have := lt_length_of_getElem? hb
      omega
    · intro hle
      have hlt : (binIndex64 horPos p.of p.si).toNat < (risInit p uninit).ris_data.length := by
        omega
      exact ⟨_, List.getElem?_eq_getElem hlt⟩
  · intro s wf hs
    constructor
    · rintro ⟨s1, hs1⟩
      obtain ⟨_, _, bin, hb, _⟩ := risBody_cases hs1
      have := lt_length_of_getElem? hb
      omega
    · intro hle
      exact risBody_isSome wf (ne_of_gt hsi) h64 (by omega)
  · apply risBody_none_of_index
    rw [hlenO, binIndex64_overflow]
    decide

theorem ris_index_in_range_witness :
    (binIndex (-3 / 8) 2 1 = ⌊|(-3 / 8 : ℚ)| * ((2 : Int) : ℚ) / 1⌋ ∧
      0 ≤ binIndex (-3 / 8) 2 1 ∧ binIndex (-3 / 8) 2 1 ≤ 2 - 1) ∧
    0 ≤ binIndex64 (-3 / 8) 2 1 ∧
    (risInit ⟨1, 2, 100⟩ []).ris_data.length = (2 : Int).toNat ∧
    ((∃ bin, (risInit ⟨1, 2, 100⟩ []).ris_data[(binIndex64 (-3 / 8) 2 1).toNat]? = some bin) ↔
      binIndex64 (-3 / 8) 2 1 ≤ 2 - 1) :=
  ⟨(ris_index_in_range ⟨1, 2, 100⟩ [] (-3 / 8) (by decide) (by norm_num)
      (by norm_num [abs_lt])).1,
   (ris_index_in_range ⟨1, 2, 100⟩ [] (-3 / 8) (by decide) (by norm_num)
      (by norm_num [abs_lt])).2.1,
   (ris_index_in_range ⟨1, 2, 100⟩ [] (-3 / 8) (by decide) (by norm_num)
      (by norm_num [abs_lt])).2.2.1,
   (ris_index_in_range ⟨1, 2, 100⟩ [] (-3 / 8) (by decide) (by norm_num)
      (by norm_num [abs_lt])).2.2.2.1⟩

/-! ### C3: the acceptance window -/

/-- C3, as the code has it. At every head of the RIS loop, for a candidate whose index
selects one of the bins, the round is defined; the selected bin carries the centre
`c_bin = -si*(index+0.5)/of` and the limits `c_bin + fc` and `c_bin - fc` that the
initialisation computed in double precision, with `fc = 0.01*(oa/2)*si/of`; and the round
rejects the candidate (`skipped` is incremented while `ris_data` and `nb_bin` stay as they
are) if and only if `oa < 100` and `horPos` is below the stored lower limit or above the
stored upper limit; in every other case `skipped` is not incremented. -/
theorem ris_reject_iff (p : RisParams) (uninit : Waveform) (acqs : List Acq) (s : RisState)
    (horPos : ℚ) (wf : Waveform)
    (hrun : risLoop p (risInit p uninit) acqs = .atHead s) (hsi : p.si ≠ 0)
    (h0 : 0 ≤ binIndex64 horPos p.of p.si) (hlt : binIndex64 horPos p.of p.si < p.of) :
    ∃ s1 bin, risBody p s horPos wf = some s1 ∧
      s.ris_data[(binIndex64 horPos p.of p.si).toNat]? = some bin ∧
      bin.c_bin = binCentre64 p (binIndex64 horPos p.of p.si) ∧
      bin.upper_bin = dadd (binCentre64 p (binIndex64 horPos p.of p.si)) (fc64 p) ∧
      bin.lower_bin = dsub (binCentre64 p (binIndex64 horPos p.of p.si)) (fc64 p) ∧
      ((s1.skipped = s.skipped + 1 ∧ s1.ris_data = s.ris_data ∧ s1.nb_bin = s.nb_bin) ↔
        (p.oa < 100 ∧
          (horPos < dsub (binCentre64 p (binIndex64 horPos p.of p.si)) (fc64 p) ∨
           horPos > dadd (binCentre64 p (binIndex64 horPos p.of p.si)) (fc64 p)))) ∧
      (¬ (p.oa < 100 ∧
          (horPos < dsub (binCentre64 p (binIndex64 horPos p.of p.si)) (fc64 p) ∨
           horPos > dadd (binCentre64 p (binIndex64 horPos p.of p.si)) (fc64 p))) →
        s1.skipped = s.skipped) := by
  have hw := windowsOK64_atHead hrun
  have hlen : (binIndex64 horPos p.of p.si).toNat < s.ris_data.length := by
    rw [hw.1]; omega
  obtain ⟨s1, hs1⟩ := risBody_isSome wf hsi h0 hlen
  obtain ⟨_, _, bin, hb, hc⟩ := risBody_cases hs1
  obtain ⟨hcb, hub, hlb⟩ := hw.2 _ bin hb
  have hcast : (((binIndex64 horPos p.of p.si).toNat : Int)) = binIndex64 horPos p.of p.si :=
    Int.toNat_of_nonneg h0
  rw [hcast] at hcb hub hlb
  refine ⟨s1, bin, hs1, hb, hcb, hub, hlb, ?_⟩
  rw [← hub, ← hlb]
  rcases hc with ⟨h1, h2, rfl⟩ | ⟨h1, _, _, rfl⟩ | ⟨h1, _, _, rfl⟩ | ⟨h1, _, rfl⟩
  · exact ⟨⟨fun _ => ⟨h1, h2⟩, fun _ => ⟨rfl, rfl, rfl⟩⟩, fun hn => absurd ⟨h1, h2⟩ hn⟩
  · refine ⟨⟨fun hh => ?_, fun hh => absurd hh h1⟩, fun _ => rfl⟩
    have := hh.1
    simp only at this
    omega
  · refine ⟨⟨fun hh => ?_, fun hh => absurd hh h1⟩, fun _ => rfl⟩
    have := hh.1
    simp only at this
    omega
  · refine ⟨⟨fun hh => ?_, fun hh => absurd hh h1⟩, fun _ => rfl⟩
    have := hh.1
    simp only at this
    omega

theorem ris_reject_iff_witness :
    ∃ s1 bin, risBody ⟨1, 2, 50⟩ (risInit ⟨1, 2, 50⟩ []) (-7 / 16) [] = some s1 ∧
      (risInit ⟨1, 2, 50⟩ []).ris_data[(binIndex64 (-7 / 16) 2 1).toNat]? = some bin ∧
      bin.c_bin = binCentre64 ⟨1, 2, 50⟩ (binIndex64 (-7 / 16) 2 1) ∧
      bin.upper_bin = dadd (binCentre64 ⟨1, 2, 50⟩ (binIndex64 (-7 / 16) 2 1)) (fc64 ⟨1, 2, 50⟩) ∧
      bin.lower_bin = dsub (binCentre64 ⟨1, 2, 50⟩ (binIndex64 (-7 / 16) 2 1)) (fc64 ⟨1, 2, 50⟩) ∧
      ((s1.skipped = (risInit ⟨1, 2, 50⟩ []).skipped + 1 ∧
          s1.ris_data = (risInit ⟨1, 2, 50⟩ []).ris_data ∧
          s1.nb_bin = (risInit ⟨1, 2, 50⟩ []).nb_bin) ↔
        ((50 : Int) < 100 ∧
          ((-7 / 16 : ℚ) < dsub (binCentre64 ⟨1, 2, 50⟩ (binIndex64 (-7 / 16) 2 1))
              (fc64 ⟨1, 2, 50⟩) ∨
           (-7 / 16 : ℚ) > dadd (binCentre64 ⟨1, 2, 50⟩ (binIndex64 (-7 / 16) 2 1))
              (fc64 ⟨1, 2, 50⟩)))) ∧
      (¬ ((50 : Int) < 100 ∧
          ((-7 / 16 : ℚ) < dsub (binCentre64 ⟨1, 2, 50⟩ (binIndex64 (-7 / 16) 2 1))
              (fc64 ⟨1, 2, 50⟩) ∨
           (-7 / 16 : ℚ) > dadd (binCentre64 ⟨1, 2, 50⟩ (binIndex64 (-7 / 16) 2 1))
              (fc64 ⟨1, 2, 50⟩))) →
        s1.skipped = (risInit ⟨1, 2, 50⟩ []).skipped) :=
  ris_reject_iff ⟨1, 2, 50⟩ [] [] (risInit ⟨1, 2, 50⟩ []) (-7 / 16) [] rfl
    (by norm_num) (by rw [show (RisParams.mk 1 2 50).of = 2 from rfl,
      show (RisParams.mk 1 2 50).si = 1 from rfl, binIndex64_demo_a])
    (by rw [show (RisParams.mk 1 2 50).of = 2 from rfl,
      show (RisParams.mk 1 2 50).si = 1 from rfl, binIndex64_demo_a]; decide)

theorem binIndex64_window :
    binIndex64 risWindowHorPos risWindowParams.of risWindowParams.si = 0 := by
  have h : ddiv (dmul |risWindowHorPos| ((1 : Int) : ℚ)) 1 =
      2206763817411543 / 4503599627370496 := by
    norm_num [risWindowHorPos, ddiv, dmul, abs_div, rnd_window_horPos]
  show cTrunc (ddiv (dmul |risWindowHorPos| ((1 : Int) : ℚ)) 1) = 0
  rw [h]
  exact cTrunc_eq (by norm_num) (by norm_num) (by norm_num)

theorem fc64_window : fc64 risWindowParams = 5764607523034235 / 576460752303423488 := by
  have h1 : Int.tdiv 2 2 = 1 := by decide
  simp [risWindowParams, fc64, h1, ddiv, dmul]
  norm_num [rnd_pos1_100, rnd_hundredth]

theorem binCentre64_window : binCentre64 risWindowParams 0 = -1 / 2 := by
  simp [risWindowParams, binCentre64, ddiv, dmul, dadd]
  norm_num [rnd_pos1_2, rnd_neg1_2]

theorem risWindow_initBins (uninit : Waveform) : initBins64 risWindowParams uninit =
    [⟨1, uninit, -1 / 2, risWindowHorPos, -(2296835809958953 / 4503599627370496)⟩] := by
  have h1 : (risWindowParams.of).toNat = 1 := rfl
  have hr : List.range 1 = [0] := rfl
  have hc : binCentre64 risWindowParams ((0 : Nat) : Int) = -1 / 2 := binCentre64_window
  simp only [initBins64, h1, hr, List.map_cons, List.map_nil, initBin64, hc, fc64_window]
  simp only [dadd, dsub, risWindowHorPos]
  norm_num [rnd_window_upper, rnd_window_lower]

/-- C3 as stated fails by the rounding of the limits. With sampling interval 1, one bin and
accuracy 2 %, the centre is `-0.5` and the tolerance is the double nearest to `0.01`; the
stored upper limit is the double nearest to `-0.5 + 0.01`, which lies above the exact sum.
The candidate at that limit has the bin index 0, `oa < 100`, and its distance to the centre
exceeds the tolerance (both the value `1/100` and the double the program computes), yet the
round does not reject it: the candidate is stored and `skipped` stays 0. -/
theorem ris_reject_rounding_counterexample :
    risWindowParams.oa < 100 ∧
    binIndex64 risWindowHorPos risWindowParams.of risWindowParams.si = 0 ∧
    binIndex risWindowHorPos risWindowParams.of risWindowParams.si = 0 ∧
    |risWindowHorPos - binCentre risWindowParams 0| > fc risWindowParams ∧
    |risWindowHorPos - binCentre64 risWindowParams 0| > fc64 risWindowParams ∧
    risBody risWindowParams (risInit risWindowParams []) risWindowHorPos [7] =
      some { ris_data := [⟨risWindowHorPos, [7], -1 / 2, risWindowHorPos,
                -(2296835809958953 / 4503599627370496)⟩]
             nb_bin := 1, nb_iter := 1, skipped := 0 } := by
  refine ⟨by decide, binIndex64_window, ?_, ?_, ?_, ?_⟩
  · exact binIndex_of_bounds (by decide) (by norm_num [risWindowParams])
      (by norm_num [risWindowParams, risWindowHorPos, abs_div])
      (by norm_num [risWindowParams, risWindowHorPos, abs_div])
  · have h1 : Int.tdiv 2 2 = 1 := by decide
    simp [risWindowParams, risWindowHorPos, binCentre, fc, h1]
    norm_num [abs_div]
  · rw [binCentre64_window, fc64_window]
    norm_num [risWindowHorPos, abs_div]
  · have hsi : risWindowParams.si ≠ 0 := by norm_num [risWindowParams]
    simp only [risBody, hsi, if_false, binIndex64_window, risInit, risWindow_initBins]
    norm_num [risWindowParams, risWindowHorPos, storeBin]


/-! ### C4: decoding the byte image of a sequence of records -/

theorem word32_le32 (w : Nat) (hw : w < 2 ^ 32) :
    word32 (toByte w) (toByte (w / 256)) (toByte (w / 65536)) (toByte (w / 16777216)) = w := by
  simp only [word32, toByte]
  omega

theorem getElem?_append_offset {α : Type} (pre l : List α) (i : Nat) :
    (pre ++ l)[pre.length + i]? = l[i]? := by
  rw [List.getElem?_append_right (Nat.le_add_right _ _), Nat.add_sub_cancel_left]

theorem headerWords_at (pre rest : List Byte) (b0 b1 b2 b3 b4 b5 b6 b7 : Byte) :
    headerWords (pre ++ b0 :: b1 :: b2 :: b3 :: b4 :: b5 :: b6 :: b7 :: rest) pre.length =
      some (word32 b0 b1 b2 b3, word32 b4 b5 b6 b7) := by
  unfold headerWords
  have h0 := getElem?_append_offset pre (b0 :: b1 :: b2 :: b3 :: b4 :: b5 :: b6 :: b7 :: rest) 0
  rw [Nat.add_zero] at h0
  rw [h0]
  simp only [getElem?_append_offset]
  simp

theorem encodeRec_eq (r : Rec) (post : List Byte) :
    encodeRec r ++ post =
      toByte r.word0 :: toByte (r.word0 / 256) :: toByte (r.word0 / 65536) ::
      toByte (r.word0 / 16777216) :: toByte r.word1 :: toByte (r.word1 / 256) ::
      toByte (r.word1 / 65536) :: toByte (r.word1 / 16777216) :: (r.payload ++ post) := by
  simp [encodeRec, le32]

theorem encodeRec_length (r : Rec) : (encodeRec r).length = 8 + r.payload.length := by
  simp [encodeRec, le32]
  omega

theorem word0_lt (r : Rec) : r.word0 < 2 ^ 32 := by
  cases r <;> simp only [Rec.word0] <;> omega

theorem word1_lt {r : Rec} (h : r.WellFormed) : r.word1 < 2 ^ 32 := by
  cases r <;> simp only [Rec.word1, Rec.WellFormed] at * <;> omega

theorem tag_of_word0 (r : Rec) : (toByte (r.word0 / 16777216)).val = r.tag := by
  cases r <;> simp only [Rec.word0, Rec.tag, toByte] <;> omega

theorem peakAmplitude_word0 {a : Int} {u pos : Nat} (h : (Rec.peak a u pos).WellFormed) :
    peakAmplitude (Rec.peak a u pos).word0 = a := by
  simp only [Rec.WellFormed] at h
  simp only [peakAmplitude, Rec.word0]
  split_ifs <;> omega

/-- One round of the decoder on the image of a well-formed record. -/
theorem decodeStep_encodeRec (pre post : List Byte) (r : Rec) (hwf : r.WellFormed)
    (pr : List Printed) (rd : List Nat) :
    decodeStep (pre ++ (encodeRec r ++ post)) { dataP := pre.length, printed := pr, reads := rd } =
      .next { dataP := pre.length + (encodeRec r).length
              printed := pr ++ [r.printed]
              reads := rd ++ [pre.length + 3] ++ fieldOffsets pre.length } := by
  have hw0 := word32_le32 r.word0 (word0_lt r)
  have hw1 := word32_le32 r.word1 (word1_lt hwf)
  have htag := tag_of_word0 r
  rw [encodeRec_length, encodeRec_eq]
  unfold decodeStep
  simp only [headerWords_at, hw0, hw1]
  have h3 : (pre ++ toByte r.word0 :: toByte (r.word0 / 256) :: toByte (r.word0 / 65536) ::
      toByte (r.word0 / 16777216) :: toByte r.word1 :: toByte (r.word1 / 256) ::
      toByte (r.word1 / 65536) :: toByte (r.word1 / 16777216) ::
      (r.payload ++ post))[pre.length + 3]? = some (toByte (r.word0 / 16777216)) := by
    rw [getElem?_append_offset]
    rfl
  rw [h3]
  simp only [htag]
  cases r with
  | segment hi lo =>
    simp only [Rec.WellFormed] at hwf
    have : (Rec.segment hi lo).word0 % 16777216 = hi := by simp only [Rec.word0]; omega
    simp [Rec.tag, Rec.printed, Rec.word1, Rec.payload, this]
  | peak a u pos =>
    have := peakAmplitude_word0 hwf
    simp [Rec.tag, Rec.printed, Rec.word1, Rec.payload, this]
  | gate pos payload =>
    simp only [Rec.WellFormed] at hwf
    have : (Rec.gate pos payload).word0 % 16777216 = pos := by
      simp only [Rec.word0]; omega
    simp [Rec.tag, Rec.printed, Rec.word1, Rec.payload, this]
    omega

theorem encodeRecs_cons (r : Rec) (rest : List Rec) :
    encodeRecs (r :: rest) = encodeRec r ++ encodeRecs rest := rfl

/-- The decoding loop on the image of well-formed records, started at the first of them. -/
theorem decodeLoop_encodeRecs (recs : List Rec) (hwf : ∀ r ∈ recs, r.WellFormed) :
    ∀ (pre : List Byte) (pr : List Printed) (rd : List Nat) (fuel : Nat), recs.length < fuel →
      (decodeLoop (pre ++ encodeRecs recs) ((pre ++ encodeRecs recs).length : Int) fuel
          { dataP := pre.length, printed := pr, reads := rd }).status = .returned ∧
      (decodeLoop (pre ++ encodeRecs recs) ((pre ++ encodeRecs recs).length : Int) fuel
          { dataP := pre.length, printed := pr, reads := rd }).final.printed =
        pr ++ recs.map Rec.printed ∧
      (decodeLoop (pre ++ encodeRecs recs) ((pre ++ encodeRecs recs).length : Int) fuel
          { dataP := pre.length, printed := pr, reads := rd }).final.dataP =
        (pre ++ encodeRecs recs).length := by
  induction recs with
  | nil =>
    intro pre pr rd fuel hfuel
    obtain ⟨n, rfl⟩ : ∃ n, fuel = n + 1 := ⟨fuel - 1, by simp at hfuel; omega⟩
    simp [decodeLoop, encodeRecs]
  | cons r rest ih =>
    intro pre pr rd fuel hfuel
    obtain ⟨n, rfl⟩ : ∃ n, fuel = n + 1 := ⟨fuel - 1, by simp at hfuel; omega⟩
    have hr : r.WellFormed := hwf r (List.mem_cons_self _ _)
    have hrest : ∀ x ∈ rest, x.WellFormed := fun x hx => hwf x (List.mem_cons_of_mem _ hx)
    have hlt : ((pre.length : Nat) : Int) < ((pre ++ encodeRecs (r :: rest)).length : Int) := by
      rw [encodeRecs_cons, List.length_append, List.length_append, encodeRec_length]
      omega
    have hstep := decodeStep_encodeRec pre (encodeRecs rest) r hr pr rd
    have hih := ih hrest (pre ++ encodeRec r) (pr ++ [r.printed])
      (rd ++ [pre.length + 3] ++ fieldOffsets pre.length) n (by simp at hfuel; omega)
    have hdata : pre ++ encodeRecs (r :: rest) = (pre ++ encodeRec r) ++ encodeRecs rest := by
      rw [encodeRecs_cons, List.append_assoc]
    have hlen : (pre ++ encodeRec r).length = pre.length + (encodeRec r).length :=
      List.length_append _ _
    rw [hlen] at hih
    unfold decodeLoop
    simp only [hlt, if_true]
    rw [encodeRecs_cons, hstep]
    simp only
    rw [← List.append_assoc pre]
    simpa using hih

/-- C4, as the code has it. For every list of well-formed records (segment headers, peak
records, gate headers followed by their payload bytes of any content), `PrintoutData`
applied to the concatenation of their byte images, with `length` the total byte count,
returns after printing exactly one line per record, in order, of the same kind, with the
position and payload length of a gate and the time stamp of a segment as encoded, and with
the position of a peak divided by 16 and its amplitude divided by 16 toward zero. -/
theorem printout_roundtrip (recs : List Rec) (hwf : ∀ r ∈ recs, r.WellFormed) (fuel : Nat)
    (hfuel : recs.length < fuel) :
    (PrintoutData fuel (encodeRecs recs) ((encodeRecs recs).length : Int)).status = .returned ∧
    (PrintoutData fuel (encodeRecs recs) ((encodeRecs recs).length : Int)).final.printed =
      recs.map Rec.printed ∧
    (PrintoutData fuel (encodeRecs recs) ((encodeRecs recs).length : Int)).final.dataP =
      (encodeRecs recs).length := by
  have h := decodeLoop_encodeRecs recs hwf [] [] [] fuel hfuel
  simpa [PrintoutData] using h

theorem printout_roundtrip_witness :
    (PrintoutData 4 (encodeRecs [.segment 7 9, .gate 5 [1, 2, 3], .peak (-17) 3 100])
      ((encodeRecs [.segment 7 9, .gate 5 [1, 2, 3], .peak (-17) 3 100]).length : Int)).status
      = .returned ∧
    (PrintoutData 4 (encodeRecs [.segment 7 9, .gate 5 [1, 2, 3], .peak (-17) 3 100])
      ((encodeRecs [.segment 7 9, .gate 5 [1, 2, 3], .peak (-17) 3 100]).length : Int)).final.printed
      = [Rec.segment 7 9, .gate 5 [1, 2, 3], .peak (-17) 3 100].map Rec.printed ∧
    (PrintoutData 4 (encodeRecs [.segment 7 9, .gate 5 [1, 2, 3], .peak (-17) 3 100])
      ((encodeRecs [.segment 7 9, .gate 5 [1, 2, 3], .peak (-17) 3 100]).length : Int)).final.dataP
      = (encodeRecs [.segment 7 9, .gate 5 [1, 2, 3], .peak (-17) 3 100]).length :=
  printout_roundtrip [.segment 7 9, .gate 5 [1, 2, 3], .peak (-17) 3 100] (by decide) 4
    (by decide)

/-- C4 as stated fails at a peak record: for the record with amplitude 1 and position 1
the decoder prints position 0 and amplitude 0, the same line as for the record with
amplitude 0 and position 0, so the printed line does not carry the encoded peak fields. -/
theorem printout_roundtrip_peak_counterexample :
    Rec.WellFormed (.peak 1 0 1) ∧
    (PrintoutData 2 (encodeRecs [.peak 1 0 1]) 8).status = .returned ∧
    (PrintoutData 2 (encodeRecs [.peak 1 0 1]) 8).final.printed = [.peak 0 0] ∧
    (PrintoutData 2 (encodeRecs [.peak 1 0 1]) 8).final.printed ≠
      [Rec.peak 1 0 1].map Rec.asEncoded ∧
    (PrintoutData 2 (encodeRecs [.peak 1 0 1]) 8).final.printed =
      (PrintoutData 2 (encodeRecs [.peak 0 0 0]) 8).final.printed := by
  decide

/-! ### C5: the time-out path of the SAR loop -/

theorem driverCalls_append (a b : List SarEvent) :
    driverCalls (a ++ b) = driverCalls a ++ driverCalls b := by
  induction a with
  | nil => rfl
  | cons e rest ih => cases e <;> simp [driverCalls, ih]

theorem driverCalls_checkApiCall (c : DriverCall) (status : Int) :
    driverCalls (checkApiCall c status) = [] := by
  unfold checkApiCall
  split_ifs <;> rfl

/-- C5. In a round of the SAR loop, whatever the driver answers: if the first
`AcqrsD1_waitForEndOfAcquisition` returns a status other than `VI_SUCCESS`, the driver calls
of the round are one wait, one `AcqrsD1_forceTrig`, one more wait, then the readout and the
release of the bank, and a failure of the second wait is reported right after it; if the
first wait succeeds the calls are the wait, the readout and the release of the bank, with
no forced trigger. -/
theorem sar_timeout_path {σ : Type} (d : Driver σ) (st : σ) (acq : Int) :
    (firstWaitStatus d st ≠ VI_SUCCESS →
      driverCalls (sarIteration d st acq).1 =
        [.waitForEndOfAcquisition, .forceTrig, .waitForEndOfAcquisition, .readData, .freeBank] ∧
      (∃ rest, (sarIteration d st acq).1 =
        [SarEvent.call .waitForEndOfAcquisition,
          .report .waitForEndOfAcquisition (firstWaitStatus d st), .call .forceTrig] ++
        checkApiCall .forceTrig (forceTrigStatus d st) ++ [.call .waitForEndOfAcquisition] ++
        checkApiCall .waitForEndOfAcquisition (secondWaitStatus d st) ++
        .call .readData :: rest) ∧
      (secondWaitStatus d st ≠ VI_SUCCESS →
        checkApiCall .waitForEndOfAcquisition (secondWaitStatus d st) =
          [.report .waitForEndOfAcquisition (secondWaitStatus d st)])) ∧
    (firstWaitStatus d st = VI_SUCCESS →
      driverCalls (sarIteration d st acq).1 =
        [.waitForEndOfAcquisition, .readData, .freeBank]) := by
  constructor
  · intro h
    have h0 : (d.respond st .waitForEndOfAcquisition).1 ≠ 0 := h
    refine ⟨?_, ?_, ?_⟩
    · simp only [sarIteration, sarWait, VI_SUCCESS, h0, ne_eq, not_false_eq_true, if_true,
        driverCalls_append, driverCalls_checkApiCall]
      rfl
    · refine ⟨checkApiCall .readData (d.respond (sarWait d st).2 .readData).1 ++
        [SarEvent.fileWritten acq] ++ [SarEvent.call .freeBank] ++
        checkApiCall .freeBank
          (d.respond (d.respond (sarWait d st).2 .readData).2 .freeBank).1, ?_⟩
      simp only [sarIteration, sarWait, VI_SUCCESS, h0, ne_eq, not_false_eq_true, if_true,
        firstWaitStatus, forceTrigStatus, secondWaitStatus, checkApiCall]
      simp only [List.append_assoc, List.cons_append, List.nil_append, List.singleton_append]
    · intro h2
      have h2' : secondWaitStatus d st ≠ 0 := h2
      simp [checkApiCall, h2']
  · intro h
    have h0 : (d.respond st .waitForEndOfAcquisition).1 = 0 := h
    simp only [sarIteration, sarWait, VI_SUCCESS, h0, ne_eq, not_true_eq_false, if_false,
      driverCalls_append, driverCalls_checkApiCall]
    rfl

theorem sar_timeout_path_witness :
    driverCalls (sarIteration scriptedDriver [-1, 0, -1] 1).1 =
        [.waitForEndOfAcquisition, .forceTrig, .waitForEndOfAcquisition, .readData, .freeBank] ∧
    driverCalls (sarIteration scriptedDriver [0, 0, 0] 1).1 =
        [.waitForEndOfAcquisition, .readData, .freeBank] :=
  ⟨((sar_timeout_path scriptedDriver [-1, 0, -1] 1).1 (by decide)).1,
   (sar_timeout_path scriptedDriver [0, 0, 0] 1).2 (by decide)⟩

/-! ### C6: replacement of a filled bin -/

theorem risDemo_run1 :
    risLoop risDemoParams (risInit risDemoParams []) [.ok (-1 / 8) [1]] =
      .atHead risDemoState1 := by
  simp [risLoop, risInit, risDemo_initBins, risBody, storeBin, risDemoState1]
  simp [risDemoParams, binIndex64_demo_b]

theorem risDemo_run2 :
    risLoop risDemoParams (risInit risDemoParams []) [.ok (-1 / 8) [1], .ok (-3 / 8) [2]] =
      .atHead risDemoState2 := by
  simp [risLoop, risInit, risDemo_initBins, risBody, storeBin, risDemoState2]
  simp [risDemoParams, binIndex64_demo_b, binIndex64_demo_c]
  norm_num [dsub, rnd_pos1_8, rnd_neg1_8]


/-- The range check of the code, against the stored limits of the selected bin, is the
check `rejected64` against the limits of the initialisation. -/
theorem rejected64_iff_of_windowsOK64 {p : RisParams} {s : RisState} {horPos : ℚ} {bin : RISData}
    (hw : WindowsOK64 p s) (h0 : 0 ≤ binIndex64 horPos p.of p.si)
    (hb : s.ris_data[(binIndex64 horPos p.of p.si).toNat]? = some bin) :
    (p.oa < 100 ∧ (horPos < bin.lower_bin ∨ horPos > bin.upper_bin)) ↔ rejected64 p horPos := by
  obtain ⟨_, hub, hlb⟩ := hw.2 _ bin hb
  rw [Int.toNat_of_nonneg h0] at hub hlb
  unfold rejected64
  rw [hub, hlb]

/-- C6, as the code has it. At every head of the RIS loop, when a candidate that passes the
range check maps to a bin that is already filled (stored `horPos < 1.0`), the round is
defined, leaves `nb_bin` and `skipped` as they are, and replaces the stored `horPos` and
waveform of the bin if and only if the distance of the candidate to the centre of the bin,
as the program computes it, is not greater than that of the stored one:
`fabs(c_bin - newHorPos) <= fabs(c_bin - storedHorPos)` with both differences rounded to
double precision (a tie replaces, also a tie that only the rounding produces); otherwise
`ris_data` is left unchanged. -/
theorem ris_replace_rule (p : RisParams) (uninit : Waveform) (acqs : List Acq) (s : RisState)
    (horPos : ℚ) (wf : Waveform) (bin : RISData)
    (hrun : risLoop p (risInit p uninit) acqs = .atHead s) (hsi : p.si ≠ 0)
    (h0 : 0 ≤ binIndex64 horPos p.of p.si)
    (hbin : s.ris_data[(binIndex64 horPos p.of p.si).toNat]? = some bin)
    (hacc : ¬ rejected64 p horPos) (hfilled : bin.horPos < 1) :
    bin.c_bin = binCentre64 p (binIndex64 horPos p.of p.si) ∧
    ∃ s1, risBody p s horPos wf = some s1 ∧ s1.nb_bin = s.nb_bin ∧ s1.skipped = s.skipped ∧
      (|dsub bin.c_bin horPos| ≤ |dsub bin.c_bin bin.horPos| →
        s1.ris_data = s.ris_data.set (binIndex64 horPos p.of p.si).toNat
          { bin with horPos := horPos, waveformArray := wf }) ∧
      (¬ |dsub bin.c_bin horPos| ≤ |dsub bin.c_bin bin.horPos| → s1.ris_data = s.ris_data) := by
  have hw := windowsOK64_atHead hrun
  have hlen : (binIndex64 horPos p.of p.si).toNat < s.ris_data.length := by
    rcases Nat.lt_or_ge (binIndex64 horPos p.of p.si).toNat s.ris_data.length with h1 | h1
    · exact h1
    · rw [List.getElem?_eq_none h1] at hbin; cases hbin
  have hc := (hw.2 _ bin hbin).1
  rw [Int.toNat_of_nonneg h0] at hc
  refine ⟨hc, ?_⟩
  obtain ⟨s1, hs1⟩ := risBody_isSome wf hsi h0 hlen
  refine ⟨s1, hs1, ?_⟩
  obtain ⟨_, _, bin1, hb1, hcase⟩ := risBody_cases hs1
  rw [hbin] at hb1
  cases Option.some.inj hb1
  have hnrej := fun hh => hacc ((rejected64_iff_of_windowsOK64 hw h0 hbin).mp hh)
  rcases hcase with ⟨h1, h2, _⟩ | ⟨_, _, hfar, rfl⟩ | ⟨_, _, hfar, rfl⟩ | ⟨_, hnf, _⟩
  · exact absurd ⟨h1, h2⟩ hnrej
  · exact ⟨rfl, rfl, fun hle => absurd hfar (not_lt.mpr hle), fun _ => rfl⟩
  · exact ⟨rfl, rfl, fun _ => rfl, fun hn => absurd (not_lt.mp hfar) hn⟩
  · exact absurd hfilled hnf

theorem risDemo_not_rejected (horPos : ℚ) : ¬ rejected64 risDemoParams horPos := by
  intro h
  have := h.1
  simp [risDemoParams] at this

theorem ris_replace_rule_witness :
    (⟨-1 / 8, [1], -1 / 4, 0, -1 / 2⟩ : RISData).c_bin =
      binCentre64 risDemoParams (binIndex64 (-3 / 8) risDemoParams.of risDemoParams.si) ∧
    ∃ s1, risBody risDemoParams risDemoState1 (-3 / 8) [2] = some s1 ∧
      s1.nb_bin = risDemoState1.nb_bin ∧ s1.skipped = risDemoState1.skipped ∧
      (|dsub (⟨-1 / 8, [1], -1 / 4, 0, -1 / 2⟩ : RISData).c_bin (-3 / 8)| ≤
          |dsub (⟨-1 / 8, [1], -1 / 4, 0, -1 / 2⟩ : RISData).c_bin
            (⟨-1 / 8, [1], -1 / 4, 0, -1 / 2⟩ : RISData).horPos| →
        s1.ris_data = risDemoState1.ris_data.set
          (binIndex64 (-3 / 8) risDemoParams.of risDemoParams.si).toNat
          { (⟨-1 / 8, [1], -1 / 4, 0, -1 / 2⟩ : RISData) with
            horPos := -3 / 8, waveformArray := [2] }) ∧
      (¬ |dsub (⟨-1 / 8, [1], -1 / 4, 0, -1 / 2⟩ : RISData).c_bin (-3 / 8)| ≤
          |dsub (⟨-1 / 8, [1], -1 / 4, 0, -1 / 2⟩ : RISData).c_bin
            (⟨-1 / 8, [1], -1 / 4, 0, -1 / 2⟩ : RISData).horPos| →
        s1.ris_data = risDemoState1.ris_data) :=
  ris_replace_rule risDemoParams [] [.ok (-1 / 8) [1]] risDemoState1 (-3 / 8) [2]
    ⟨-1 / 8, [1], -1 / 4, 0, -1 / 2⟩ risDemo_run1 (by norm_num [risDemoParams])
    (by simp [risDemoParams, binIndex64_demo_c])
    (by simp [risDemoParams, binIndex64_demo_c, risDemoState1])
    (risDemo_not_rejected _) (by norm_num)

/-- C6 as stated fails at a tie. With sampling interval 1, two bins and accuracy 100, bin 0
(centre `-1/4`) holds `horPos = -1/8`; the candidate `horPos = -3/8` maps to bin 0, passes
the range check and is not closer to the centre than the stored one (both are `1/8` away,
exactly and as the program computes the distances), yet the round replaces the stored
`horPos` and waveform. -/
theorem ris_replace_tie_counterexample :
    risLoop risDemoParams (risInit risDemoParams []) [.ok (-1 / 8) [1]] =
      .atHead risDemoState1 ∧
    risDemoState1.ris_data[0]? = some ⟨-1 / 8, [1], -1 / 4, 0, -1 / 2⟩ ∧
    binIndex64 (-3 / 8) risDemoParams.of risDemoParams.si = 0 ∧
    ¬ rejected64 risDemoParams (-3 / 8) ∧
    ¬ (|(-1 / 4 : ℚ) - (-3 / 8)| < |(-1 / 4 : ℚ) - (-1 / 8)|) ∧
    ¬ (|dsub (-1 / 4) (-3 / 8)| < |dsub (-1 / 4) (-1 / 8)|) ∧
    risBody risDemoParams risDemoState1 (-3 / 8) [2] = some risDemoState2 ∧
    risDemoState2.ris_data[0]? = some ⟨-3 / 8, [2], -1 / 4, 0, -1 / 2⟩ ∧
    risDemoState2.ris_data ≠ risDemoState1.ris_data := by
  refine ⟨risDemo_run1, rfl, by simp [risDemoParams, binIndex64_demo_c],
    risDemo_not_rejected _, by norm_num, by norm_num [dsub, rnd_pos1_8, rnd_neg1_8], ?_, rfl,
    ?_⟩
  · simp [risBody, risDemoState1, risDemoState2, storeBin]
    simp [risDemoParams, binIndex64_demo_c]
    norm_num [dsub, rnd_pos1_8, rnd_neg1_8]
  · simp [risDemoState1, risDemoState2]


/-! ### C7: every filled bin holds its best-centred candidate -/

theorem mem_acceptedFor64 {p : RisParams} {k : Nat} {hist : List (ℚ × Waveform)}
    {c : ℚ × Waveform} :
    c ∈ acceptedFor64 p k hist ↔
      c ∈ hist ∧ binIndex64 c.1 p.of p.si = (k : Int) ∧ ¬ rejected64 p c.1 := by
  simp [acceptedFor64]

theorem mem_acceptedFor64_append {p : RisParams} {k : Nat} {hist : List (ℚ × Waveform)}
    {c d : ℚ × Waveform} :
    c ∈ acceptedFor64 p k (hist ++ [d]) ↔
      c ∈ acceptedFor64 p k hist ∨
        (c = d ∧ binIndex64 d.1 p.of p.si = (k : Int) ∧ ¬ rejected64 p d.1) := by
  simp only [mem_acceptedFor64, List.mem_append, List.mem_singleton]
  constructor
  · rintro ⟨h1 | h1, h2, h3⟩
    · exact Or.inl ⟨h1, h2, h3⟩
    · subst h1; exact Or.inr ⟨rfl, h2, h3⟩
  · rintro (⟨h1, h2, h3⟩ | ⟨rfl, h2, h3⟩)
    · exact ⟨Or.inl h1, h2, h3⟩
    · exact ⟨Or.inr rfl, h2, h3⟩

theorem storeBin_getElem?_self {bins : List RISData} {i : Nat} (bin : RISData) (horPos : ℚ)
    (wf : Waveform) (h : i < bins.length) :
    (storeBin bins i bin horPos wf)[i]? =
      some { bin with horPos := horPos, waveformArray := wf } := by
  simp [storeBin, List.getElem?_set_self h]

theorem storeBin_getElem?_ne {bins : List RISData} {i k : Nat} (bin : RISData) (horPos : ℚ)
    (wf : Waveform) (h : i ≠ k) : (storeBin bins i bin horPos wf)[k]? = bins[k]? := by
  simp [storeBin, List.getElem?_set_ne h]

/-- A bin other than the one the candidate maps to keeps its content and its accepted
candidates. -/
theorem binInv_other {p : RisParams} {hist : List (ℚ × Waveform)} {k : Nat} {b : RISData}
    {horPos : ℚ} {wf : Waveform}
    (hold : (b.horPos < 1 →
        (b.horPos, b.waveformArray) ∈ acceptedFor64 p k hist ∧
        ∀ c ∈ acceptedFor64 p k hist, |dsub b.c_bin b.horPos| ≤ |dsub b.c_bin c.1|) ∧
      (¬ b.horPos < 1 → ∀ c ∈ acceptedFor64 p k hist, 1 ≤ c.1))
    (hno : ¬ (binIndex64 horPos p.of p.si = (k : Int) ∧ ¬ rejected64 p horPos)) :
    (b.horPos < 1 →
        (b.horPos, b.waveformArray) ∈ acceptedFor64 p k (hist ++ [(horPos, wf)]) ∧
        ∀ c ∈ acceptedFor64 p k (hist ++ [(horPos, wf)]),
          |dsub b.c_bin b.horPos| ≤ |dsub b.c_bin c.1|) ∧
      (¬ b.horPos < 1 → ∀ c ∈ acceptedFor64 p k (hist ++ [(horPos, wf)]), 1 ≤ c.1) := by
  have hsame : ∀ c, c ∈ acceptedFor64 p k (hist ++ [(horPos, wf)]) → c ∈ acceptedFor64 p k hist := by
    intro c hc
    rcases mem_acceptedFor64_append.mp hc with h | ⟨_, h2, h3⟩
    · exact h
    · exact absurd ⟨h2, h3⟩ hno
  refine ⟨fun hb1 => ⟨mem_acceptedFor64_append.mpr (Or.inl (hold.1 hb1).1), fun c hc => ?_⟩,
    fun hb1 c hc => ?_⟩
  · exact (hold.1 hb1).2 c (hsame c hc)
  · exact hold.2 hb1 c (hsame c hc)

theorem binInv_step {p : RisParams} {hist : List (ℚ × Waveform)} {s s1 : RisState}
    {horPos : ℚ} {wf : Waveform} (hall : ∀ c ∈ hist, c.1 < 1) (hnew : horPos < 1)
    (hinv : BinInv p hist s)
    (hb : risBody p s horPos wf = some s1) : BinInv p (hist ++ [(horPos, wf)]) s1 := by
  obtain ⟨hw, hJ⟩ := hinv
  refine ⟨windowsOK64_step hw hb, ?_⟩
  obtain ⟨_, h0, bin, hbin, hcase⟩ := risBody_cases hb
  have hlen := lt_length_of_getElem? hbin
  have hrej := rejected64_iff_of_windowsOK64 hw h0 hbin
  have hcast : ((binIndex64 horPos p.of p.si).toNat : Int) = binIndex64 horPos p.of p.si :=
    Int.toNat_of_nonneg h0
  have hcb : bin.c_bin = binCentre64 p (binIndex64 horPos p.of p.si) := by
    have := (hw.2 _ bin hbin).1
    rwa [hcast] at this
  have hidx : ∀ k : Nat, binIndex64 horPos p.of p.si = (k : Int) →
      k = (binIndex64 horPos p.of p.si).toNat := by
    intro k hk
    omega
  intro k b hk
  rcases hcase with ⟨h1, h2, rfl⟩ | ⟨hnr, hfill, hfar, rfl⟩ | ⟨hnr, hfill, hfar, rfl⟩ |
    ⟨hnr, hnf, rfl⟩
  · exact binInv_other (hJ k b hk) (fun hh => hh.2 (hrej.mp ⟨h1, h2⟩))
  · by_cases hki : binIndex64 horPos p.of p.si = (k : Int)
    · have hk' := hidx k hki
      subst hk'
      simp only at hk
      rw [hbin] at hk
      cases Option.some.inj hk
      obtain ⟨j1, _⟩ := hJ _ bin hbin
      refine ⟨fun hb1 => ⟨mem_acceptedFor64_append.mpr (Or.inl (j1 hb1).1), fun c hc => ?_⟩,
        fun hb1 => absurd hfill hb1⟩
      rcases mem_acceptedFor64_append.mp hc with h | ⟨rfl, _, _⟩
      · exact (j1 hb1).2 c h
      · exact le_of_lt hfar
    · exact binInv_other (hJ k b hk) (fun hh => hki hh.1)
  · by_cases hki : binIndex64 horPos p.of p.si = (k : Int)
    · have hk' := hidx k hki
      subst hk'
      simp only at hk
      rw [storeBin_getElem?_self bin horPos wf hlen] at hk
      cases Option.some.inj hk
      obtain ⟨j1, _⟩ := hJ _ bin hbin
      have hnrej : ¬ rejected64 p horPos := fun hh => hnr (hrej.mpr hh)
      have hself : (horPos, wf) ∈ acceptedFor64 p (binIndex64 horPos p.of p.si).toNat
          (hist ++ [(horPos, wf)]) :=
        mem_acceptedFor64_append.mpr (Or.inr ⟨rfl, hki, hnrej⟩)
      have hold := j1 hfill
      refine ⟨fun _ => ⟨hself, fun c hc => ?_⟩, fun hb1 c _ => ?_⟩
      · rcases mem_acceptedFor64_append.mp hc with h | ⟨rfl, _, _⟩
        · exact le_trans (not_lt.mp hfar) (hold.2 c h)
        · exact le_refl _
      · exact absurd hnew hb1
    · rw [show ({ s with nb_iter := s.nb_iter + 1
                         ris_data := storeBin s.ris_data (binIndex64 horPos p.of p.si).toNat
                           bin horPos wf } : RisState).ris_data =
          storeBin s.ris_data (binIndex64 horPos p.of p.si).toNat bin horPos wf from rfl,
        storeBin_getElem?_ne bin horPos wf (fun hh => hki (by rw [← hh, hcast]))] at hk
      exact binInv_other (hJ k b hk) (fun hh => hki hh.1)
  · by_cases hki : binIndex64 horPos p.of p.si = (k : Int)
    · have hk' := hidx k hki
      subst hk'
      simp only at hk
      rw [storeBin_getElem?_self bin horPos wf hlen] at hk
      cases Option.some.inj hk
      obtain ⟨_, j2⟩ := hJ _ bin hbin
      have hnrej : ¬ rejected64 p horPos := fun hh => hnr (hrej.mpr hh)
      have hself : (horPos, wf) ∈ acceptedFor64 p (binIndex64 horPos p.of p.si).toNat
          (hist ++ [(horPos, wf)]) :=
        mem_acceptedFor64_append.mpr (Or.inr ⟨rfl, hki, hnrej⟩)
      refine ⟨fun hb1 => ⟨hself, fun c hc => ?_⟩, fun hb1 c hc => ?_⟩
      · rcases mem_acceptedFor64_append.mp hc with h | ⟨rfl, _, _⟩
        · have hc1 := j2 hnf c h
          have hc2 := hall c (mem_acceptedFor64.mp h).1
          exact absurd hc2 (not_lt.mpr hc1)
        · exact le_refl _
      · rcases mem_acceptedFor64_append.mp hc with h | ⟨rfl, _, _⟩
        · exact j2 hnf c h
        · simp only at hb1 ⊢
          exact not_lt.mp hb1
    · rw [show ({ s with nb_iter := s.nb_iter + 1, nb_bin := s.nb_bin + 1
                         ris_data := storeBin s.ris_data (binIndex64 horPos p.of p.si).toNat
                           bin horPos wf } : RisState).ris_data =
          storeBin s.ris_data (binIndex64 horPos p.of p.si).toNat bin horPos wf from rfl,
        storeBin_getElem?_ne bin horPos wf (fun hh => hki (by rw [← hh, hcast]))] at hk
      exact binInv_other (hJ k b hk) (fun hh => hki hh.1)

theorem binInv_init (p : RisParams) (uninit : Waveform) : BinInv p [] (risInit p uninit) := by
  refine ⟨windowsOK64_init p uninit, ?_⟩
  intro k bin hk
  have h1 : bin.horPos = 1 := by
    simp only [risInit, initBins64, List.getElem?_map, Option.map_eq_some'] at hk
    obtain ⟨a, _, hb⟩ := hk
    rw [← hb]
    rfl
  simp [acceptedFor64, h1]


/-- C7, as the code has it. Let every reported `horPos` be below the initial value `1.0`.
At every head of the RIS loop (so after every round), each bin that counts as filled (stored
`horPos < 1.0`, the test of line 161) has the centre `c_bin` that the initialisation
computed; its stored `horPos` and waveform are those of one of the candidates used so far
that the program mapped to this bin and that passed its range check; and its stored `horPos`
minimises over all such candidates the distance to the centre as the program computes it,
`fabs(c_bin - h)` with the difference rounded to double precision. -/
theorem ris_best_match (p : RisParams) (uninit : Waveform) (acqs : List Acq) (s : RisState)
    (k : Nat) (bin : RISData) (hlt1 : ∀ c ∈ candidates acqs, c.1 < 1)
    (hrun : risLoop p (risInit p uninit) acqs = .atHead s)
    (hk : s.ris_data[k]? = some bin) (hfilled : bin.horPos < 1) :
    bin.c_bin = binCentre64 p (k : Int) ∧
    (bin.horPos, bin.waveformArray) ∈ acceptedFor64 p k (candidates acqs) ∧
    ∀ c ∈ acceptedFor64 p k (candidates acqs),
      |dsub bin.c_bin bin.horPos| ≤ |dsub bin.c_bin c.1| := by
  have hinv := risLoop_atHead_induction p
    (fun hist st => (∀ c ∈ hist, c.1 < 1) → BinInv p hist st)
    (fun hist st horPos wf st1 hi _ hb hall =>
      binInv_step (fun c hc => hall c (List.mem_append_left _ hc))
        (hall (horPos, wf) (List.mem_append_right _ (List.mem_singleton.mpr rfl)))
        (hi (fun c hc => hall c (List.mem_append_left _ hc))) hb)
    acqs [] _ _ (fun _ => binInv_init p uninit) hrun
  rw [List.nil_append] at hinv
  have hinv2 := hinv hlt1
  exact ⟨(hinv2.1.2 k bin hk).1, (hinv2.2 k bin hk).1 hfilled⟩

theorem ris_best_match_witness :
    (⟨-3 / 8, [2], -1 / 4, 0, -1 / 2⟩ : RISData).c_bin =
      binCentre64 risDemoParams ((0 : Nat) : Int) ∧
    ((⟨-3 / 8, [2], -1 / 4, 0, -1 / 2⟩ : RISData).horPos,
        (⟨-3 / 8, [2], -1 / 4, 0, -1 / 2⟩ : RISData).waveformArray) ∈
      acceptedFor64 risDemoParams 0 (candidates [.ok (-1 / 8) [1], .ok (-3 / 8) [2]]) ∧
    ∀ c ∈ acceptedFor64 risDemoParams 0 (candidates [.ok (-1 / 8) [1], .ok (-3 / 8) [2]]),
      |dsub (⟨-3 / 8, [2], -1 / 4, 0, -1 / 2⟩ : RISData).c_bin
          (⟨-3 / 8, [2], -1 / 4, 0, -1 / 2⟩ : RISData).horPos| ≤
        |dsub (⟨-3 / 8, [2], -1 / 4, 0, -1 / 2⟩ : RISData).c_bin c.1| :=
  ris_best_match risDemoParams [] [.ok (-1 / 8) [1], .ok (-3 / 8) [2]] risDemoState2 0
    ⟨-3 / 8, [2], -1 / 4, 0, -1 / 2⟩
    (by
      intro c hc
      simp only [candidates, List.mem_cons, List.mem_singleton, List.not_mem_nil,
        or_false] at hc
      rcases hc with rfl | rfl <;> norm_num)
    risDemo_run2 rfl (by norm_num)

theorem binIndex64_drift : binIndex64 risDriftHorPos 2 1 = 0 := by
  have h : ddiv (dmul |risDriftHorPos| ((2 : Int) : ℚ)) 1 = 1 / 2 ^ 59 := by
    norm_num [risDriftHorPos, ddiv, dmul, abs_div, rnd_drift_index]
  unfold binIndex64
  rw [h]
  exact cTrunc_eq (by norm_num) (by norm_num) (by norm_num)

theorem binIndex64_zero : binIndex64 0 2 1 = 0 := by
  have h : ddiv (dmul |(0 : ℚ)| ((2 : Int) : ℚ)) 1 = 0 := by
    norm_num [ddiv, dmul, rnd_zero]
  unfold binIndex64
  rw [h]
  exact cTrunc_eq (by norm_num) (by norm_num) (by norm_num)

/-- C7 as stated fails by the rounding of the distances. With sampling interval 1, two bins
and accuracy 100, the candidates `horPos = -2^-60` and then `horPos = 0` both map to bin 0
(centre `-1/4`) and pass the range check. The first is strictly closer to the centre,
`1/4 - 2^-60` against `1/4`, but both differences round to `1/4` in double precision, so the
second replaces the first: the bin ends with `horPos = 0`, which does not minimise
`|c_bin - h|` over the candidates of the bin. -/
theorem ris_best_match_rounding_counterexample :
    risLoop risDemoParams (risInit risDemoParams [])
        [.ok risDriftHorPos [1], .ok 0 [2]] =
      .atHead { ris_data := [⟨0, [2], -1 / 4, 0, -1 / 2⟩, ⟨1, [], -3 / 4, -1 / 2, -1⟩]
                nb_bin := 1, nb_iter := 2, skipped := 0 } ∧
    binIndex64 risDriftHorPos risDemoParams.of risDemoParams.si = 0 ∧
    binIndex risDriftHorPos risDemoParams.of risDemoParams.si = 0 ∧
    ¬ rejected64 risDemoParams risDriftHorPos ∧ ¬ rejected risDemoParams risDriftHorPos ∧
    risDriftHorPos < 1 ∧
    |(-1 / 4 : ℚ) - risDriftHorPos| < |(-1 / 4 : ℚ) - 0| ∧
    dsub (-1 / 4) risDriftHorPos = -1 / 4 ∧ dsub (-1 / 4) 0 = -1 / 4 := by
  have hd1 : dsub (-(1 / 4)) risDriftHorPos = -(1 / 4) := by
    norm_num [risDriftHorPos, dsub, rnd_drift_distance]
  have hd2 : dsub (-(1 / 4)) 0 = -(1 / 4) := by
    norm_num [dsub, rnd_neg1_4]
  have hlt : risDriftHorPos < 1 := by norm_num [risDriftHorPos]
  have hd3 : dsub (-1 / 4) risDriftHorPos = -1 / 4 := by
    rw [show (-1 / 4 : ℚ) = -(1 / 4) by norm_num]
    exact hd1
  have hd4 : dsub (-1 / 4) 0 = -1 / 4 := by
    rw [show (-1 / 4 : ℚ) = -(1 / 4) by norm_num]
    exact hd2
  refine ⟨?_, by simp [risDemoParams, binIndex64_drift], ?_, risDemo_not_rejected _, ?_,
    hlt, by norm_num [risDriftHorPos, abs_div], ?_, ?_⟩
  · simp [risLoop, risInit, risDemo_initBins, risBody, storeBin]
    simp [risDemoParams, binIndex64_drift, binIndex64_zero, hlt, hd1, hd2, hd3, hd4]
  · exact binIndex_of_bounds (by decide) (by norm_num [risDemoParams])
      (by norm_num [risDemoParams, risDriftHorPos, abs_div])
      (by norm_num [risDemoParams, risDriftHorPos, abs_div])
  · intro h
    have := h.1
    simp [risDemoParams] at this
  · exact hd3
  · exact hd4


/-! ### C8: the count of filled bins and the exit of the loop -/

theorem filledCount_storeBin {bins : List RISData} {i : Nat} {bin : RISData}
    (hb : bins[i]? = some bin) (horPos : ℚ) (wf : Waveform) (hne : horPos ≠ 1) :
    filledCount (storeBin bins i bin horPos wf) =
      filledCount bins + (if bin.horPos ≠ 1 then 0 else 1) := by
  have hlt := lt_length_of_getElem? hb
  have hget : bins[i] = bin := by
    rw [List.getElem?_eq_getElem hlt] at hb
    exact Option.some.inj hb
  unfold filledCount storeBin
  rw [List.countP_set _ _ _ _ hlt, hget]
  have hle := List.boole_getElem_le_countP (fun b : RISData => decide (b.horPos ≠ 1)) bins i hlt
  rw [hget] at hle
  by_cases h1 : bin.horPos ≠ 1
  · simp only [h1, hne, ne_eq, not_false_eq_true, decide_True, if_true] at hle ⊢
    omega
  · simp only [h1, hne, ne_eq, not_false_eq_true, decide_True, decide_False, if_true,
      if_false] at hle ⊢
    simp

theorem countInv_init (p : RisParams) (uninit : Waveform) : CountInv p [] (risInit p uninit) := by
  refine ⟨windowsOK64_init p uninit, ?_, ?_⟩
  · have h0 : filledCount (initBins64 p uninit) = 0 := by
      unfold filledCount
      rw [List.countP_eq_zero]
      intro b hb
      simp only [initBins64, List.mem_map] at hb
      obtain ⟨k, _, rfl⟩ := hb
      simp [initBin64]
    simp [risInit, h0]
  · intro k bin hk
    have h1 : bin.horPos = 1 := by
      simp only [risInit, initBins64, List.getElem?_map, Option.map_eq_some'] at hk
      obtain ⟨a, _, hb⟩ := hk
      rw [← hb]
      rfl
    simp [h1]

theorem countInv_step {p : RisParams} {hist : List (ℚ × Waveform)} {s s1 : RisState}
    {horPos : ℚ} {wf : Waveform} (hlt1 : horPos < 1) (hinv : CountInv p hist s)
    (hb : risBody p s horPos wf = some s1) : CountInv p (hist ++ [(horPos, wf)]) s1 := by
  obtain ⟨hw, hnb, hbins⟩ := hinv
  refine ⟨windowsOK64_step hw hb, ?_⟩
  obtain ⟨_, h0, bin, hbin, hcase⟩ := risBody_cases hb
  have hlen := lt_length_of_getElem? hbin
  have hne : horPos ≠ 1 := ne_of_lt hlt1
  have hkeep : ∀ (k : Nat) (b : RISData), s.ris_data[k]? = some b →
      b.horPos ≤ 1 ∧ (b.horPos ≠ 1 → (b.horPos, b.waveformArray) ∈ hist ++ [(horPos, wf)]) :=
    fun k b hk => ⟨(hbins k b hk).1, fun h => List.mem_append_left _ ((hbins k b hk).2 h)⟩
  have hstore : ∀ (k : Nat) (b : RISData),
      (storeBin s.ris_data (binIndex64 horPos p.of p.si).toNat bin horPos wf)[k]? = some b →
      b.horPos ≤ 1 ∧ (b.horPos ≠ 1 → (b.horPos, b.waveformArray) ∈ hist ++ [(horPos, wf)]) := by
    intro k b hk
    by_cases hki : (binIndex64 horPos p.of p.si).toNat = k
    · subst hki
      rw [storeBin_getElem?_self bin horPos wf hlen] at hk
      cases Option.some.inj hk
      exact ⟨le_of_lt hlt1, fun _ => List.mem_append_right _ (List.mem_singleton.mpr rfl)⟩
    · rw [storeBin_getElem?_ne bin horPos wf hki] at hk
      exact hkeep k b hk
  rcases hcase with ⟨_, _, rfl⟩ | ⟨_, _, _, rfl⟩ | ⟨_, hfill, _, rfl⟩ | ⟨_, hnf, rfl⟩
  · exact ⟨hnb, hkeep⟩
  · exact ⟨hnb, hkeep⟩
  · refine ⟨?_, hstore⟩
    simp only
    rw [filledCount_storeBin hbin horPos wf hne, if_pos (ne_of_lt hfill), hnb]
    simp
  · refine ⟨?_, hstore⟩
    have h1 : bin.horPos = 1 := le_antisymm (hbins _ bin hbin).1 (not_lt.mp hnf)
    simp only
    rw [filledCount_storeBin hbin horPos wf hne, if_neg (not_not.mpr h1), hnb]
    push_cast
    ring

theorem nb_bin_le_step {p : RisParams} {s s1 : RisState} {horPos : ℚ} {wf : Waveform}
    (hb : risBody p s horPos wf = some s1) : s.nb_bin ≤ s1.nb_bin := by
  obtain ⟨_, _, bin, _, hcase⟩ := risBody_cases hb
  rcases hcase with ⟨_, _, rfl⟩ | ⟨_, _, _, rfl⟩ | ⟨_, _, _, rfl⟩ | ⟨_, _, rfl⟩ <;> simp

theorem risLoop_append (p : RisParams) (a1 a2 : List Acq) :
    ∀ s0 s : RisState, risLoop p s0 a1 = .atHead s →
      risLoop p s0 (a1 ++ a2) = risLoop p s a2 := by
  induction a1 with
  | nil =>
    intro s0 s h
    simp only [risLoop, RisOutcome.atHead.injEq] at h
    subst h
    rfl
  | cons a rest ih =>
    intro s0 s h
    cases a with
    | timeout =>
      simp only [risLoop] at h
      split_ifs at h
    | ok horPos wf =>
      simp only [risLoop, List.cons_append] at h ⊢
      by_cases hnb : s0.nb_bin < p.of
      · rw [if_pos hnb] at h ⊢
        rcases hb : risBody p s0 horPos wf with _ | s1
        · simp [hb] at h
        · simp only [hb] at h ⊢
          exact ih s1 s h
      · rw [if_neg hnb] at h
        simp at h

theorem nb_bin_le_atHead (p : RisParams) (acqs : List Acq) :
    ∀ s0 s : RisState, risLoop p s0 acqs = .atHead s → s0.nb_bin ≤ s.nb_bin := by
  induction acqs with
  | nil =>
    intro s0 s h
    simp only [risLoop, RisOutcome.atHead.injEq] at h
    subst h
    exact le_refl _
  | cons a rest ih =>
    intro s0 s h
    unfold risLoop at h
    by_cases hnb : s0.nb_bin < p.of
    · rw [if_pos hnb] at h
      cases a with
      | timeout => simp at h
      | ok horPos wf =>
        simp only at h
        rcases hb : risBody p s0 horPos wf with _ | s1
        · simp [hb] at h
        · simp only [hb] at h
          exact le_trans (nb_bin_le_step hb) (ih s1 s h)
    · rw [if_neg hnb] at h
      simp at h

/-- With a positive sampling interval and candidates whose computed index is below `of`,
the loop never leaves defined behaviour. -/
theorem risLoop_defined (p : RisParams) (hof : 1 ≤ p.of) (hsi : 0 < p.si) (acqs : List Acq) :
    ∀ s0 : RisState, WindowsOK64 p s0 →
      (∀ c ∈ candidates acqs, binIndex64 c.1 p.of p.si < p.of) →
      risLoop p s0 acqs ≠ .undefined := by
  induction acqs with
  | nil =>
    intro s0 _ _
    simp [risLoop]
  | cons a rest ih =>
    intro s0 hw hc
    unfold risLoop
    by_cases hnb : s0.nb_bin < p.of
    · rw [if_pos hnb]
      cases a with
      | timeout => simp
      | ok horPos wf =>
        simp only
        have h1 : binIndex64 horPos p.of p.si < p.of := hc (horPos, wf) (by simp [candidates])
        have h0 := binIndex64_nonneg horPos (show 0 ≤ p.of by omega) hsi
        have hlen : (binIndex64 horPos p.of p.si).toNat < s0.ris_data.length := by
          rw [hw.1]; omega
        obtain ⟨s1, hs1⟩ := risBody_isSome wf (ne_of_gt hsi) h0 hlen
        simp only [hs1]
        exact ih s1 (windowsOK64_step hw hs1)
          (fun c hcm => hc c (by simp only [candidates]; exact List.mem_cons_of_mem _ hcm))
    · rw [if_neg hnb]
      simp


theorem countInv_atHead {p : RisParams} {uninit : Waveform} {acqs : List Acq} {s : RisState}
    (hlt : ∀ c ∈ candidates acqs, c.1 < 1)
    (hrun : risLoop p (risInit p uninit) acqs = .atHead s) : CountInv p (candidates acqs) s := by
  have hinv := risLoop_atHead_induction p
    (fun hist st => (∀ c ∈ hist, c.1 < 1) → CountInv p hist st)
    (fun hist st horPos wf st1 hi _ hb hall =>
      countInv_step (hall (horPos, wf) (List.mem_append_right _ (List.mem_singleton.mpr rfl)))
        (hi (fun c hc => hall c (List.mem_append_left _ hc))) hb)
    acqs [] _ _ (fun _ => countInv_init p uninit) hrun
  rw [List.nil_append] at hinv
  exact hinv hlt

/-- The run on the candidate `risOverflowHorPos` leaves defined behaviour in its first
round. -/
theorem risOverflow_run (uninit wf : Waveform) :
    risLoop risOverflowParams (risInit risOverflowParams uninit)
      [.ok risOverflowHorPos wf] = .undefined := by
  have hnb : (risInit risOverflowParams uninit).nb_bin < risOverflowParams.of := by
    show (0 : Int) < 3
    decide
  have hlen : (risInit risOverflowParams uninit).ris_data.length = 3 :=
    initBins64_length risOverflowParams uninit
  have hnone : risBody risOverflowParams (risInit risOverflowParams uninit)
      risOverflowHorPos wf = none := by
    apply risBody_none_of_index
    rw [hlen, binIndex64_overflow]
    decide
  simp only [risLoop, hnb, if_true, hnone]

/-- C8. Let `of >= 1`, `si > 0` and let every reported `horPos` satisfy `horPos < 1.0`.
At every loop head the run reaches: `nb_bin` is the number of bins whose stored `horPos`
differs from the initial `1.0`; `nb_bin` does not exceed `of`, the number of bins; `nb_bin`
is not below its value at any earlier loop head; and if the loop condition `nb_bin < of`
fails there (the loop exits), every one of the `of` bins holds a `horPos` other than `1.0`
together with the waveform of one of the acquisitions. The run reaches every loop head, no
round leaving defined behaviour, when the index the program computes for every candidate is
below `of`. The condition `|horPos| < si` does not ensure that: for the sampling interval
`1e-10`, three bins and the candidate `risOverflowHorPos`, with `|horPos| < si` and
`horPos < 1.0`, the first round computes the index 3 and accesses `ris_data[3]` behind the
three allocated bins. -/
theorem ris_completion (p : RisParams) (uninit : Waveform) (acqs : List Acq) (hof : 1 ≤ p.of)
    (hsi : 0 < p.si) (hpos : ∀ c ∈ candidates acqs, c.1 < 1) :
    ((∀ c ∈ candidates acqs, binIndex64 c.1 p.of p.si < p.of) →
      risLoop p (risInit p uninit) acqs ≠ .undefined) ∧
    (∀ s, risLoop p (risInit p uninit) acqs = .atHead s →
      s.nb_bin = (filledCount s.ris_data : Int) ∧ s.nb_bin ≤ p.of ∧
      (s.ris_data.length : Int) = p.of ∧
      (∀ a1 a2 s0, acqs = a1 ++ a2 → risLoop p (risInit p uninit) a1 = .atHead s0 →
        s0.nb_bin ≤ s.nb_bin) ∧
      (¬ s.nb_bin < p.of → ∀ k : Nat, (k : Int) < p.of →
        ∃ bin, s.ris_data[k]? = some bin ∧ bin.horPos ≠ 1 ∧
          (bin.horPos, bin.waveformArray) ∈ candidates acqs)) ∧
    ((∀ c ∈ candidates [Acq.ok risOverflowHorPos uninit],
        |c.1| < risOverflowParams.si ∧ c.1 < 1) ∧
      risLoop risOverflowParams (risInit risOverflowParams uninit)
        [.ok risOverflowHorPos uninit] = .undefined) := by
  refine ⟨fun hidx => risLoop_defined p hof hsi acqs _ (windowsOK64_init p uninit) hidx, ?_,
    ?_, risOverflow_run uninit uninit⟩
  · intro s hrun
    obtain ⟨hw, hnb, hbins⟩ := countInv_atHead hpos hrun
    have hlen : (s.ris_data.length : Int) = p.of := by
      rw [hw.1]
      omega
    have hle : filledCount s.ris_data ≤ s.ris_data.length := List.countP_le_length _
    refine ⟨hnb, by omega, hlen, ?_, ?_⟩
    · intro a1 a2 s0 hsplit h1
      subst hsplit
      rw [risLoop_append p a1 a2 _ s0 h1] at hrun
      exact nb_bin_le_atHead p a2 s0 s hrun
    · intro hexit k hk
      have hall : filledCount s.ris_data = s.ris_data.length := by omega
      unfold filledCount at hall
      rw [List.countP_eq_length] at hall
      have hklt : k < s.ris_data.length := by omega
      refine ⟨s.ris_data[k], List.getElem?_eq_getElem hklt, ?_, ?_⟩
      · have := hall s.ris_data[k] (List.getElem_mem hklt)
        simpa using this
      · have hne : s.ris_data[k].horPos ≠ 1 := by
          have := hall s.ris_data[k] (List.getElem_mem hklt)
          simpa using this
        exact (hbins k _ (List.getElem?_eq_getElem hklt)).2 hne
  · intro c hc
    simp only [candidates, List.mem_singleton] at hc
    subst hc
    constructor
    · norm_num [risOverflowParams, risOverflowHorPos, abs_div]
    · norm_num [risOverflowHorPos]

theorem risDemo_run3 :
    risLoop risDemoParams (risInit risDemoParams [])
        [.ok (-1 / 8) [1], .ok (-3 / 8) [2], .ok (-7 / 8) [3]] =
      .atHead risDemoState3 := by
  simp [risLoop, risInit, risDemo_initBins, risBody, storeBin, risDemoState3]
  simp [risDemoParams, binIndex64_demo_b, binIndex64_demo_c, binIndex64_demo_d]
  norm_num [dsub, rnd_pos1_8, rnd_neg1_8]

theorem ris_completion_witness :
    risLoop risDemoParams (risInit risDemoParams [])
        [.ok (-1 / 8) [1], .ok (-3 / 8) [2], .ok (-7 / 8) [3]] = .atHead risDemoState3 ∧
    ¬ risDemoState3.nb_bin < risDemoParams.of ∧
    risLoop risDemoParams (risInit risDemoParams [])
        [.ok (-1 / 8) [1], .ok (-3 / 8) [2], .ok (-7 / 8) [3]] ≠ .undefined ∧
    ∀ s, risLoop risDemoParams (risInit risDemoParams [])
        [.ok (-1 / 8) [1], .ok (-3 / 8) [2], .ok (-7 / 8) [3]] = .atHead s →
      s.nb_bin = (filledCount s.ris_data : Int) ∧ s.nb_bin ≤ risDemoParams.of ∧
      (s.ris_data.length : Int) = risDemoParams.of ∧
      (∀ a1 a2 s0, [Acq.ok (-1 / 8) [1], .ok (-3 / 8) [2], .ok (-7 / 8) [3]] = a1 ++ a2 →
        risLoop risDemoParams (risInit risDemoParams []) a1 = .atHead s0 →
        s0.nb_bin ≤ s.nb_bin) ∧
      (¬ s.nb_bin < risDemoParams.of → ∀ k : Nat, (k : Int) < risDemoParams.of →
        ∃ bin, s.ris_data[k]? = some bin ∧ bin.horPos ≠ 1 ∧
          (bin.horPos, bin.waveformArray) ∈
            candidates [.ok (-1 / 8) [1], .ok (-3 / 8) [2], .ok (-7 / 8) [3]]) :=
  ⟨risDemo_run3, by decide,
    (ris_completion risDemoParams [] [.ok (-1 / 8) [1], .ok (-3 / 8) [2], .ok (-7 / 8) [3]]
      (by decide) (by norm_num [risDemoParams]) (by
        intro c hc
        simp only [candidates, List.mem_cons, List.mem_singleton, List.not_mem_nil,
          or_false] at hc
        rcases hc with rfl | rfl | rfl <;> norm_num)).1 (by
        intro c hc
        simp only [candidates, List.mem_cons, List.mem_singleton, List.not_mem_nil,
          or_false] at hc
        rcases hc with rfl | rfl | rfl <;>
          simp [risDemoParams, binIndex64_demo_b, binIndex64_demo_c, binIndex64_demo_d]),
    (ris_completion risDemoParams [] [.ok (-1 / 8) [1], .ok (-3 / 8) [2], .ok (-7 / 8) [3]]
      (by decide) (by norm_num [risDemoParams]) (by
        intro c hc
        simp only [candidates, List.mem_cons, List.mem_singleton, List.not_mem_nil,
          or_false] at hc
        rcases hc with rfl | rfl | rfl <;> norm_num)).2.1⟩


/-! ### C9: the advance of the cursor -/

theorem word32_lt (b0 b1 b2 b3 : Byte) : word32 b0 b1 b2 b3 < 2 ^ 32 := by
  have h0 := b0.isLt
  have h1 := b1.isLt
  have h2 := b2.isLt
  have h3 := b3.isLt
  simp only [word32]
  omega

theorem word32_tag (b0 b1 b2 b3 : Byte) : word32 b0 b1 b2 b3 / 2 ^ 24 = b3.val := by
  have h0 := b0.isLt
  have h1 := b1.isLt
  have h2 := b2.isLt
  simp only [word32]
  omega

theorem headerWords_of_bytes {data : List Byte} {c : Nat} {b0 b1 b2 b3 b4 b5 b6 b7 : Byte}
    (h0 : data[c]? = some b0) (h1 : data[c + 1]? = some b1) (h2 : data[c + 2]? = some b2)
    (h3 : data[c + 3]? = some b3) (h4 : data[c + 4]? = some b4) (h5 : data[c + 5]? = some b5)
    (h6 : data[c + 6]? = some b6) (h7 : data[c + 7]? = some b7) :
    headerWords data c = some (word32 b0 b1 b2 b3, word32 b4 b5 b6 b7) := by
  unfold headerWords
  rw [h0, h1, h2, h3, h4, h5, h6, h7]

/-- The byte at an address inside the buffer. -/
theorem byteAt_offset (base : Nat) (data : List Byte) (off i : Nat)
    (h : base + off + i < 2 ^ 32) :
    byteAt base data (ptrAdd (base + off) i) = data[off + i]? := by
  unfold byteAt ptrAdd
  rw [Nat.mod_eq_of_lt h, if_pos (by omega)]
  congr 1
  omega

theorem byteAt_offset_zero (base : Nat) (data : List Byte) (off : Nat) :
    byteAt base data (base + off) = data[off]? := by
  unfold byteAt
  rw [if_pos (by omega)]
  congr 1
  omega

/-- The header words at an address whose 8 bytes lie in a buffer below `2^32`. -/
theorem headerWordsAt_of_bytes {base : Nat} {data : List Byte} {off : Nat}
    {b0 b1 b2 b3 b4 b5 b6 b7 : Byte} (hfit : base + data.length < 2 ^ 32)
    (h0 : data[off]? = some b0) (h1 : data[off + 1]? = some b1) (h2 : data[off + 2]? = some b2)
    (h3 : data[off + 3]? = some b3) (h4 : data[off + 4]? = some b4)
    (h5 : data[off + 5]? = some b5) (h6 : data[off + 6]? = some b6)
    (h7 : data[off + 7]? = some b7) :
    headerWordsAt base data (base + off) =
      some (word32 b0 b1 b2 b3, word32 b4 b5 b6 b7) := by
  have hlen : off + 7 < data.length := by
    by_contra hge
    rw [List.getElem?_eq_none_iff.mpr (by omega)] at h7
    cases h7
  unfold headerWordsAt
  rw [byteAt_offset_zero, byteAt_offset _ _ _ 1 (by omega), byteAt_offset _ _ _ 2 (by omega),
    byteAt_offset _ _ _ 3 (by omega), byteAt_offset _ _ _ 4 (by omega),
    byteAt_offset _ _ _ 5 (by omega), byteAt_offset _ _ _ 6 (by omega),
    byteAt_offset _ _ _ 7 (by omega), h0, h1, h2, h3, h4, h5, h6, h7]

theorem ptrAdd_ptrAdd (a n m : Nat) : ptrAdd (ptrAdd a n) m = (a + n + m) % 2 ^ 32 := by
  unfold ptrAdd
  rw [Nat.add_mod, Nat.mod_mod, ← Nat.add_mod]

/-- A round on addresses at a record whose 8 header bytes lie in a buffer below `2^32`. -/
theorem decodeStep32_of_bytes (base : Nat) (data : List Byte) (s : PtrState) (off : Nat)
    (b0 b1 b2 b3 b4 b5 b6 b7 : Byte)
    (hs : s.dataP = base + off) (hfit : base + data.length < 2 ^ 32)
    (h0 : data[off]? = some b0) (h1 : data[off + 1]? = some b1)
    (h2 : data[off + 2]? = some b2) (h3 : data[off + 3]? = some b3)
    (h4 : data[off + 4]? = some b4) (h5 : data[off + 5]? = some b5)
    (h6 : data[off + 6]? = some b6) (h7 : data[off + 7]? = some b7) :
    byteAt base data (ptrAdd s.dataP 3) = some b3 ∧
    (b3.val = 0x04 → decodeStep32 base data s = .next
      { dataP := s.dataP + 8
        printed := s.printed ++
          [.segment (word32 b0 b1 b2 b3 % 2 ^ 24) (word32 b4 b5 b6 b7)] }) ∧
    (b3.val = 0x10 → decodeStep32 base data s = .next
      { dataP := s.dataP + 8
        printed := s.printed ++ [.peak (word32 b4 b5 b6 b7 / 16)
          (Int.tdiv (peakAmplitude (word32 b0 b1 b2 b3)) 16)] }) ∧
    (b3.val = 0x00 → decodeStep32 base data s = .next
      { dataP := (s.dataP + 8 + word32 b4 b5 b6 b7) % 2 ^ 32
        printed := s.printed ++
          [.gate (word32 b0 b1 b2 b3 % 2 ^ 24) (word32 b4 b5 b6 b7)] }) := by
  have hlen : off + 7 < data.length := by
    by_contra hge
    rw [List.getElem?_eq_none_iff.mpr (by omega)] at h7
    cases h7
  have hh := headerWordsAt_of_bytes hfit h0 h1 h2 h3 h4 h5 h6 h7
  have ht3 : byteAt base data (ptrAdd s.dataP 3) = some b3 := by
    rw [hs, byteAt_offset _ _ _ 3 (by omega), h3]
  have h8 : ptrAdd s.dataP 8 = s.dataP + 8 := by
    unfold ptrAdd
    exact Nat.mod_eq_of_lt (by omega)
  rw [← hs] at hh
  refine ⟨ht3, ?_, ?_, ?_⟩
  · intro ht
    unfold decodeStep32
    simp [ht3, hh, ht, h8]
  · intro ht
    unfold decodeStep32
    simp [ht3, hh, ht, h8]
  · intro ht
    unfold decodeStep32
    simp [ht3, hh, ht, ptrAdd_ptrAdd]

/-- C9, as the code has it on the build with 32-bit pointers. For a record whose 8 header
bytes `b0 .. b7` lie at the cursor in a buffer that ends below the address `2^32`, the tag
the decoder switches on is the byte `b3` at offset 3 (the top byte of the first word), and
one round of `PrintoutData` prints one line and advances the cursor by exactly 8 bytes for
a segment header (tag `0x04`) and for a peak record (tag `0x10`).  For a gate header (tag
`0x00`) the new cursor is `(cursor + 8 + length) mod 2^32`, where `length` is the second
header word `b4 .. b7` read as an unsigned 32-bit number: the advance is exactly
`8 + length` bytes when `cursor + 8 + length < 2^32`, in particular when the samples of the
gate lie inside the buffer, and otherwise the pointer wraps and stands `2^32` below. -/
theorem decode_cursor_advance (base : Nat) (data : List Byte) (s : PtrState) (off : Nat)
    (b0 b1 b2 b3 b4 b5 b6 b7 : Byte)
    (hs : s.dataP = base + off) (hfit : base + data.length < 2 ^ 32)
    (h0 : data[off]? = some b0) (h1 : data[off + 1]? = some b1)
    (h2 : data[off + 2]? = some b2) (h3 : data[off + 3]? = some b3)
    (h4 : data[off + 4]? = some b4) (h5 : data[off + 5]? = some b5)
    (h6 : data[off + 6]? = some b6) (h7 : data[off + 7]? = some b7) :
    word32 b4 b5 b6 b7 < 2 ^ 32 ∧ word32 b0 b1 b2 b3 / 2 ^ 24 = b3.val ∧
    byteAt base data (ptrAdd s.dataP 3) = some b3 ∧
    (b3.val = 0x04 → decodeStep32 base data s = .next
      { dataP := s.dataP + 8
        printed := s.printed ++
          [.segment (word32 b0 b1 b2 b3 % 2 ^ 24) (word32 b4 b5 b6 b7)] }) ∧
    (b3.val = 0x10 → decodeStep32 base data s = .next
      { dataP := s.dataP + 8
        printed := s.printed ++ [.peak (word32 b4 b5 b6 b7 / 16)
          (Int.tdiv (peakAmplitude (word32 b0 b1 b2 b3)) 16)] }) ∧
    (b3.val = 0x00 → decodeStep32 base data s = .next
      { dataP := (s.dataP + 8 + word32 b4 b5 b6 b7) % 2 ^ 32
        printed := s.printed ++
          [.gate (word32 b0 b1 b2 b3 % 2 ^ 24) (word32 b4 b5 b6 b7)] }) ∧
    (s.dataP + 8 + word32 b4 b5 b6 b7 < 2 ^ 32 →
      (s.dataP + 8 + word32 b4 b5 b6 b7) % 2 ^ 32 = s.dataP + 8 + word32 b4 b5 b6 b7) ∧
    (off + 8 + word32 b4 b5 b6 b7 ≤ data.length →
      (s.dataP + 8 + word32 b4 b5 b6 b7) % 2 ^ 32 = s.dataP + 8 + word32 b4 b5 b6 b7) ∧
    (2 ^ 32 ≤ s.dataP + 8 + word32 b4 b5 b6 b7 →
      (s.dataP + 8 + word32 b4 b5 b6 b7) % 2 ^ 32 + 2 ^ 32 =
        s.dataP + 8 + word32 b4 b5 b6 b7) := by
  have hlen : off + 7 < data.length := by
    by_contra hge
    rw [List.getElem?_eq_none_iff.mpr (by omega)] at h7
    cases h7
  have hw := word32_lt b4 b5 b6 b7
  obtain ⟨ht3, hseg, hpeak, hgate⟩ :=
    decodeStep32_of_bytes base data s off b0 b1 b2 b3 b4 b5 b6 b7 hs hfit h0 h1 h2 h3 h4 h5 h6 h7
  refine ⟨hw, word32_tag _ _ _ _, ht3, hseg, hpeak, hgate, ?_, ?_, ?_⟩
  · intro h
    exact Nat.mod_eq_of_lt h
  · intro h
    exact Nat.mod_eq_of_lt (by omega)
  · intro h
    omega

theorem decode_cursor_advance_witness :
    word32 3 0 0 0 < 2 ^ 32 ∧ word32 5 0 0 0 / 2 ^ 24 = (0 : Byte).val ∧
    decodeStep32 0x10000 [5, 0, 0, 0, 3, 0, 0, 0, 1, 2, 3] { dataP := 0x10000, printed := [] } =
      .next { dataP := (0x10000 + 8 + word32 3 0 0 0) % 2 ^ 32
              printed := [] ++ [.gate (word32 5 0 0 0 % 2 ^ 24) (word32 3 0 0 0)] } ∧
    (0x10000 + 8 + word32 3 0 0 0) % 2 ^ 32 = 0x10000 + 8 + word32 3 0 0 0 :=
  ⟨(decode_cursor_advance 0x10000 [5, 0, 0, 0, 3, 0, 0, 0, 1, 2, 3]
      { dataP := 0x10000, printed := [] } 0 5 0 0 0 3 0 0 0 rfl (by decide)
      rfl rfl rfl rfl rfl rfl rfl rfl).1,
   (decode_cursor_advance 0x10000 [5, 0, 0, 0, 3, 0, 0, 0, 1, 2, 3]
      { dataP := 0x10000, printed := [] } 0 5 0 0 0 3 0 0 0 rfl (by decide)
      rfl rfl rfl rfl rfl rfl rfl rfl).2.1,
   (decode_cursor_advance 0x10000 [5, 0, 0, 0, 3, 0, 0, 0, 1, 2, 3]
      { dataP := 0x10000, printed := [] } 0 5 0 0 0 3 0 0 0 rfl (by decide)
      rfl rfl rfl rfl rfl rfl rfl rfl).2.2.2.2.2.1 rfl,
   (decode_cursor_advance 0x10000 [5, 0, 0, 0, 3, 0, 0, 0, 1, 2, 3]
      { dataP := 0x10000, printed := [] } 0 5 0 0 0 3 0 0 0 rfl (by decide)
      rfl rfl rfl rfl rfl rfl rfl rfl).2.2.2.2.2.2.2.1 (by decide)⟩

/-- C9 as stated fails on the build with 32-bit pointers. The buffer at the address
`0x10000` starts with a gate header of length `0xFFFFFFF8`, all 8 header bytes inside the
buffer: the round prints the gate line and leaves the cursor where it was, it does not
advance it by `8 + length` bytes. -/
theorem decode_cursor_wrap_counterexample :
    wrapDemoData[3]? = some 0x00 ∧
    word32 0xF8 0xFF 0xFF 0xFF = 0xFFFFFFF8 ∧
    decodeStep32 0x10000 wrapDemoData { dataP := 0x10000, printed := [] } =
      .next { dataP := 0x10000, printed := [.gate 0 0xFFFFFFF8] } ∧
    0x10000 ≠ 0x10000 + 8 + word32 0xF8 0xFF 0xFF 0xFF := by
  refine ⟨rfl, rfl, ?_, by decide⟩
  decide

/-! ### C10: the reads of the decoder and the byte-length bound -/

theorem scIssue_calls {σ : Type} (d : ScDriver σ) (cs : List ScCall) :
    ∀ st : σ, (scIssue d st cs).1 = cs := by
  induction cs with
  | nil => intro st; rfl
  | cons c rest ih => intro st; simp [scIssue, ih]

theorem findDevices_none {σ : Type} (d : ScDriver σ) (st : σ)
    (h : (d.respond st .multiInstrAutoDefine).1.value < 1) :
    FindDevices d st = (-1, [.multiInstrAutoDefine], (d.respond st .multiInstrAutoDefine).2) := by
  simp [FindDevices, h]

theorem baseStrmLoadFPGA_take {σ : Type} (d : ScDriver σ) (st : σ) (instrID : Int) :
    ∃ info, (baseStrmLoadFPGA d st instrID).1 =
      [.configLogicDevice instrID 1, .configLogicDevice instrID 3] ++ info := by
  unfold baseStrmLoadFPGA
  by_cases h : (d.respond (d.respond st (.configLogicDevice instrID 1)).2
      (.configLogicDevice instrID 3)).1.status = VI_SUCCESS
  · exact ⟨[.getInstrumentInfo instrID, .getInstrumentInfo instrID,
      .getInstrumentInfo instrID], by simp [h]⟩
  · exact ⟨[], by simp [h]⟩

/-- C11, what the code does. When `AcqrsD1_multiInstrAutoDefine` reports fewer than one
instrument, `FindDevices` returns the handle `-1` and `main` goes on: in both examples the
discovery is followed by the two `Acqrs_configLogicDevice` calls of the firmware load, the
configuration calls and the start of the acquisition, all with the handle `-1`. -/
theorem sc240_no_device_continues {σ : Type} (d : ScDriver σ) (st : σ)
    (h : (d.respond st .multiInstrAutoDefine).1.value < 1) :
    (FindDevices d st).1 = -1 ∧
    (∃ info, (baseStrmMainStart d st).1 =
      [.multiInstrAutoDefine, .configLogicDevice (-1) 1, .configLogicDevice (-1) 3] ++ info ++
      [.configHorizontal (-1), .configVertical (-1) 1, .configTrigClass (-1),
        .configTrigSource (-1), .configMode (-1), .acquire (-1)]) ∧
    (streamerMainStart d st).1 =
      [.multiInstrAutoDefine, .configLogicDevice (-1) 1, .configLogicDevice (-1) 3,
        .configHorizontal (-1), .configVertical (-1) 1, .configVertical (-1) 2,
        .configTrigClass (-1), .configTrigSource (-1), .configMode (-1), .acquire (-1)] := by
  have hf := findDevices_none d st h
  refine ⟨by rw [hf], ?_, ?_⟩
  · obtain ⟨info, hinfo⟩ := baseStrmLoadFPGA_take d (d.respond st .multiInstrAutoDefine).2 (-1)
    refine ⟨info, ?_⟩
    simp only [baseStrmMainStart, hf, hinfo, baseStrmConfigure, scAcquire, scIssue_calls]
    simp
  · simp only [streamerMainStart, hf, streamerLoadFPGA, streamerConfigure, scAcquire,
      scIssue_calls]
    simp

theorem sc240_no_device_continues_witness :
    (FindDevices noInstrumentDriver ()).1 = -1 ∧
    (∃ info, (baseStrmMainStart noInstrumentDriver ()).1 =
      [.multiInstrAutoDefine, .configLogicDevice (-1) 1, .configLogicDevice (-1) 3] ++ info ++
      [.configHorizontal (-1), .configVertical (-1) 1, .configTrigClass (-1),
        .configTrigSource (-1), .configMode (-1), .acquire (-1)]) ∧
    (streamerMainStart noInstrumentDriver ()).1 =
      [.multiInstrAutoDefine, .configLogicDevice (-1) 1, .configLogicDevice (-1) 3,
        .configHorizontal (-1), .configVertical (-1) 1, .configVertical (-1) 2,
        .configTrigClass (-1), .configTrigSource (-1), .configMode (-1), .acquire (-1)] :=
  sc240_no_device_continues noInstrumentDriver () (by decide)

/-! ### C12, C13, C14: the command line of the RIS example -/

theorem digit_ne_minus {c : Char} (h : c.isDigit = true) : ('-' == c) = false := by
  rw [beq_eq_false_iff_ne]
  intro hc
  subst hc
  exact absurd h (by decide)

theorem digit_not_special {c : Char} (h : c.isDigit = true) :
    cIsSpace c = false ∧ c ≠ '-' ∧ c ≠ '+' := by
  have hd : 48 ≤ c.toNat ∧ c.toNat ≤ 57 := by
    simp only [Char.isDigit, Bool.and_eq_true, decide_eq_true_eq] at h
    exact ⟨h.1, h.2⟩
  refine ⟨?_, ?_, ?_⟩
  · simp only [cIsSpace, Bool.or_eq_false_iff, Bool.and_eq_false_iff, decide_eq_false_iff_not]
    omega
  · intro hc; subst hc; exact absurd h (by decide)
  · intro hc; subst hc; exact absurd h (by decide)

theorem strstr_digits (p : CString) :
    ∀ ds : CString, (∀ c ∈ ds, c.isDigit = true) → strstr ds ('-' :: p) = false := by
  intro ds
  induction ds with
  | nil => intro _; rfl
  | cons c t ih =>
    intro h
    have hc := digit_ne_minus (h c (List.mem_cons_self _ _))
    simp only [strstr, List.isPrefixOf, hc, Bool.false_and, Bool.false_or]
    exact ih (fun x hx => h x (List.mem_cons_of_mem _ hx))

theorem atoiDigits_eq (ds : CString) (h : ∀ c ∈ ds, c.isDigit = true) :
    ∀ acc : Nat, atoiDigits (acc : Int) ds =
      ((ds.foldl (fun a c => 10 * a + (c.toNat - 48)) acc : Nat) : Int) := by
  induction ds with
  | nil => intro acc; rfl
  | cons c t ih =>
    intro acc
    have hc := h c (List.mem_cons_self _ _)
    simp only [atoiDigits, hc, if_true, List.foldl_cons]
    have := ih (fun x hx => h x (List.mem_cons_of_mem _ hx)) (10 * acc + (c.toNat - 48))
    rw [← this]
    push_cast
    rfl

theorem cAtoi_decimal {ds : CString} (h : IsDecimal ds) : cAtoi ds = (decimalValue ds : Int) := by
  obtain ⟨hne, hd⟩ := h
  cases ds with
  | nil => exact absurd rfl hne
  | cons c t =>
    obtain ⟨h1, h2, h3⟩ := digit_not_special (hd c (List.mem_cons_self _ _))
    have := atoiDigits_eq (c :: t) hd 0
    simp only [cAtoi, h1, h2, h3, if_false]
    simpa [decimalValue] using this

theorem processArg_ns (atof : CString → ℚ) (g : RisGlobals) {ds : CString} (h : IsDecimal ds)
    (hv : 100 < decimalValue ds) :
    processArg cAtoi atof g ("-ns".toList ++ ds) =
      { g with nbrSamples := (decimalValue ds : Int) } := by
  have hne : ds.length ≠ 0 := by
    intro h0; exact h.1 (List.length_eq_zero.mp h0)
  have hs := strstr_digits
  have hlt : (100 : Int) < (decimalValue ds : Int) := by exact_mod_cast hv
  show processArg cAtoi atof g ('-' :: 'n' :: 's' :: ds) = _
  unfold processArg
  have h1 : strstr ('-' :: 'n' :: 's' :: ds) "-si".toList = false := by
    show strstr ('-' :: 'n' :: 's' :: ds) ['-', 's', 'i'] = false
    simp [strstr, List.isPrefixOf, hs _ ds h.2]
  have h2 : strstr ('-' :: 'n' :: 's' :: ds) "-ns".toList = true := by
    show strstr ('-' :: 'n' :: 's' :: ds) ['-', 'n', 's'] = true
    simp [strstr, List.isPrefixOf]
  simp only [h1, h2, List.drop_succ_cons, List.drop_zero, cAtoi_decimal h]
  simp [hne, hlt]

theorem processArg_of (atof : CString → ℚ) (g : RisGlobals) {ds : CString} (h : IsDecimal ds)
    (hv : 0 < decimalValue ds) :
    processArg cAtoi atof g ("-of".toList ++ ds) = { g with of := (decimalValue ds : Int) } := by
  have hne : ds.length ≠ 0 := by
    intro h0; exact h.1 (List.length_eq_zero.mp h0)
  have hs := strstr_digits
  have hlt : (0 : Int) < (decimalValue ds : Int) := by exact_mod_cast hv
  show processArg cAtoi atof g ('-' :: 'o' :: 'f' :: ds) = _
  unfold processArg
  have h1 : strstr ('-' :: 'o' :: 'f' :: ds) "-si".toList = false := by
    show strstr ('-' :: 'o' :: 'f' :: ds) ['-', 's', 'i'] = false
    simp [strstr, List.isPrefixOf, hs _ ds h.2]
  have h2 : strstr ('-' :: 'o' :: 'f' :: ds) "-ns".toList = false := by
    show strstr ('-' :: 'o' :: 'f' :: ds) ['-', 'n', 's'] = false
    simp [strstr, List.isPrefixOf, hs _ ds h.2]
  have h3 : strstr ('-' :: 'o' :: 'f' :: ds) "-of".toList = true := by
    show strstr ('-' :: 'o' :: 'f' :: ds) ['-', 'o', 'f'] = true
    simp [strstr, List.isPrefixOf]
  simp only [h1, h2, h3, List.drop_succ_cons, List.drop_zero, cAtoi_decimal h]
  simp [hne, hlt]

theorem processArg_oa (atof : CString → ℚ) (g : RisGlobals) {ds : CString} (h : IsDecimal ds)
    (hv : 0 < decimalValue ds) (hv2 : decimalValue ds ≤ 100) :
    processArg cAtoi atof g ("-oa".toList ++ ds) = { g with oa := (decimalValue ds : Int) } := by
  have hne : ds.length ≠ 0 := by
    intro h0; exact h.1 (List.length_eq_zero.mp h0)
  have hs := strstr_digits
  have hlt : (0 : Int) < (decimalValue ds : Int) := by exact_mod_cast hv
  have hle : ¬ (100 : Int) < (decimalValue ds : Int) := by
    have : (decimalValue ds : Int) ≤ 100 := by exact_mod_cast hv2
    omega
  show processArg cAtoi atof g ('-' :: 'o' :: 'a' :: ds) = _
  unfold processArg
  have h1 : strstr ('-' :: 'o' :: 'a' :: ds) "-si".toList = false := by
    show strstr ('-' :: 'o' :: 'a' :: ds) ['-', 's', 'i'] = false
    simp [strstr, List.isPrefixOf, hs _ ds h.2]
  have h2 : strstr ('-' :: 'o' :: 'a' :: ds) "-ns".toList = false := by
    show strstr ('-' :: 'o' :: 'a' :: ds) ['-', 'n', 's'] = false
    simp [strstr, List.isPrefixOf, hs _ ds h.2]
  have h3 : strstr ('-' :: 'o' :: 'a' :: ds) "-of".toList = false := by
    show strstr ('-' :: 'o' :: 'a' :: ds) ['-', 'o', 'f'] = false
    simp [strstr, List.isPrefixOf, hs _ ds h.2]
  have h4 : strstr ('-' :: 'o' :: 'a' :: ds) "-oa".toList = true := by
    show strstr ('-' :: 'o' :: 'a' :: ds) ['-', 'o', 'a'] = true
    simp [strstr, List.isPrefixOf]
  simp only [h1, h2, h3, h4, List.drop_succ_cons, List.drop_zero, cAtoi_decimal h]
  simp [hne, hlt, hle]

/-- Without `-h` as first argument, the loop applies `processArg` to the arguments from the
last to the first. -/
theorem checkArgsFrom_foldr (atoi : CString → Int) (atof : CString → ℚ) (prog : CString)
    (args : List CString) (hh : args.head? ≠ some "-h".toList) :
    ∀ (k : Nat), k ≤ args.length → ∀ g : RisGlobals,
      checkArgsFrom atoi atof (prog :: args) (k + 1) g =
        (VI_SUCCESS, (args.take k).foldr (fun a acc => processArg atoi atof acc a) g) := by
  intro k
  induction k with
  | zero => intro _ g; rfl
  | succ k ih =>
    intro hk g
    have hlt : k < args.length := hk
    have hget : (prog :: args).getD (k + 1) [] = args[k] := by
      simp [List.getD, List.getElem?_eq_getElem hlt]
    have hnh : ¬ (k + 1 = 1 ∧ (prog :: args).getD (k + 1) [] = "-h".toList) := by
      rintro ⟨h1, h2⟩
      have hk0 : k = 0 := by omega
      subst hk0
      apply hh
      rw [hget] at h2
      rw [← h2]
      cases args with
      | nil => simp at hlt
      | cons a t => rfl
    rw [checkArgsFrom, if_neg hnh, ih (by omega), hget, List.take_succ,
      List.getElem?_eq_getElem hlt, Option.toList_some, List.foldr_append]
    rfl

/-- The globals after a list of well-formed integer switches, processed from the last to
the first. -/
theorem switches_foldr (atof : CString → ℚ) (g : RisGlobals) (nsD ofD oaD : CString)
    (hns : IsDecimal nsD) (hof : IsDecimal ofD) (hoa : IsDecimal oaD)
    (hN : 100 < decimalValue nsD) (hF : 0 < decimalValue ofD)
    (hA : 0 < decimalValue oaD) (hA2 : decimalValue oaD ≤ 100) :
    ∀ args : List CString,
      (∀ a ∈ args, a = "-ns".toList ++ nsD ∨ a = "-of".toList ++ ofD ∨
        a = "-oa".toList ++ oaD) →
      ("-ns".toList ++ nsD ∈ args →
        (args.foldr (fun a acc => processArg cAtoi atof acc a) g).nbrSamples =
          (decimalValue nsD : Int)) ∧
      ("-of".toList ++ ofD ∈ args →
        (args.foldr (fun a acc => processArg cAtoi atof acc a) g).of =
          (decimalValue ofD : Int)) ∧
      ("-oa".toList ++ oaD ∈ args →
        (args.foldr (fun a acc => processArg cAtoi atof acc a) g).oa =
          (decimalValue oaD : Int)) ∧
      ("-ns".toList ++ nsD ∉ args →
        (args.foldr (fun a acc => processArg cAtoi atof acc a) g).nbrSamples = g.nbrSamples) ∧
      ("-of".toList ++ ofD ∉ args →
        (args.foldr (fun a acc => processArg cAtoi atof acc a) g).of = g.of) ∧
      ("-oa".toList ++ oaD ∉ args →
        (args.foldr (fun a acc => processArg cAtoi atof acc a) g).oa = g.oa) ∧
      (args.foldr (fun a acc => processArg cAtoi atof acc a) g).si = g.si ∧
      (args.foldr (fun a acc => processArg cAtoi atof acc a) g).OutputFile = g.OutputFile := by
  have d1 : "-ns".toList ++ nsD ≠ "-of".toList ++ ofD := by
    show '-' :: 'n' :: 's' :: nsD ≠ '-' :: 'o' :: 'f' :: ofD
    intro h; simp at h
  have d2 : "-ns".toList ++ nsD ≠ "-oa".toList ++ oaD := by
    show '-' :: 'n' :: 's' :: nsD ≠ '-' :: 'o' :: 'a' :: oaD
    intro h; simp at h
  have d3 : "-of".toList ++ ofD ≠ "-oa".toList ++ oaD := by
    show '-' :: 'o' :: 'f' :: ofD ≠ '-' :: 'o' :: 'a' :: oaD
    intro h; simp at h
  intro args
  induction args with
  | nil => intro _; simp
  | cons a rest ih =>
    intro hall
    obtain ⟨i1, i2, i3, i4, i5, i6, i7, i8⟩ := ih (fun x hx => hall x (List.mem_cons_of_mem _ hx))
    simp only [List.foldr_cons, List.mem_cons, not_or]
    rcases hall a (List.mem_cons_self _ _) with rfl | rfl | rfl
    · rw [processArg_ns atof _ hns hN]
      refine ⟨fun _ => rfl, ?_, ?_, ?_, ?_, ?_, i7, i8⟩
      · rintro (h | h)
        · exact absurd h.symm d1
        · exact i2 h
      · rintro (h | h)
        · exact absurd h.symm d2
        · exact i3 h
      · rintro ⟨h, _⟩; exact absurd rfl h
      · rintro ⟨_, h⟩; exact i5 h
      · rintro ⟨_, h⟩; exact i6 h
    · rw [processArg_of atof _ hof hF]
      refine ⟨?_, fun _ => rfl, ?_, ?_, ?_, ?_, i7, i8⟩
      · rintro (h | h)
        · exact absurd h d1
        · exact i1 h
      · rintro (h | h)
        · exact absurd h.symm d3
        · exact i3 h
      · rintro ⟨_, h⟩; exact i4 h
      · rintro ⟨h, _⟩; exact absurd rfl h
      · rintro ⟨_, h⟩; exact i6 h
    · rw [processArg_oa atof _ hoa hA hA2]
      refine ⟨?_, ?_, fun _ => rfl, ?_, ?_, ?_, i7, i8⟩
      · rintro (h | h)
        · exact absurd h d2
        · exact i1 h
      · rintro (h | h)
        · exact absurd h d3
        · exact i2 h
      · rintro ⟨_, h⟩; exact i4 h
      · rintro ⟨_, h⟩; exact i5 h
      · rintro ⟨h, _⟩; exact absurd rfl h

/-- C12, what the code does. The argument `-fmy-of-data` has the form `-f<name>` with the
non-empty name `my-of-data`, but it contains `-of`, which the chain of `strstr` tests looks
for before `-f`: the argument is handled as an `-of` switch with the value `atoi("y-of-data")`,
which is 0, and `CheckInputArguments` returns with all globals as they were, `OutputFile`
still being `RIS.data`. -/
theorem cli_output_file_misparsed (atof : CString → ℚ) :
    strstr "-fmy-of-data".toList "-of".toList = true ∧
    cAtoi ("-fmy-of-data".toList.drop 3) = 0 ∧
    CheckInputArguments cAtoi atof ["RisAcquisitionVC".toList, "-fmy-of-data".toList]
      risDefaults = (VI_SUCCESS, risDefaults) ∧
    risDefaults.OutputFile = "RIS.data".toList ∧
    risDefaults.OutputFile ≠ "my-of-data".toList := by
  refine ⟨by decide, by decide, rfl, rfl, by decide⟩

/-- C13. For every command line made only of the switches `-ns<N>`, `-of<F>`, `-oa<A>`,
in any order, where `<N>`, `<F>`, `<A>` are non-empty strings of decimal digits with values
`N > 100`, `F > 0`, `0 < A <= 100` that fit an `int`, `CheckInputArguments` returns
`VI_SUCCESS` with `nbrSamples = N`, `of = F`, `oa = A` for the switches that are present,
the initial value for those that are absent, and `si` and `OutputFile` unchanged. The
documented example `-si1e-8 -ns2000 -of5 -oa25 -fMyRIS.data` gives `nbrSamples = 2000`,
`of = 5`, `oa = 25`, `OutputFile = MyRIS.data` (and `si = atof("1e-8")`). -/
theorem cli_integer_switches (atof : CString → ℚ) (prog : CString) (args : List CString)
    (nsD ofD oaD : CString)
    (hns : IsDecimal nsD) (hof : IsDecimal ofD) (hoa : IsDecimal oaD)
    (hN : 100 < decimalValue nsD) (_hN2 : decimalValue nsD < 2 ^ 31)
    (hF : 0 < decimalValue ofD) (_hF2 : decimalValue ofD < 2 ^ 31)
    (hA : 0 < decimalValue oaD) (hA2 : decimalValue oaD ≤ 100)
    (hargs : ∀ a ∈ args, a = "-ns".toList ++ nsD ∨ a = "-of".toList ++ ofD ∨
      a = "-oa".toList ++ oaD) :
    (CheckInputArguments cAtoi atof (prog :: args) risDefaults).1 = VI_SUCCESS ∧
    ("-ns".toList ++ nsD ∈ args →
      (CheckInputArguments cAtoi atof (prog :: args) risDefaults).2.nbrSamples =
        (decimalValue nsD : Int)) ∧
    ("-of".toList ++ ofD ∈ args →
      (CheckInputArguments cAtoi atof (prog :: args) risDefaults).2.of =
        (decimalValue ofD : Int)) ∧
    ("-oa".toList ++ oaD ∈ args →
      (CheckInputArguments cAtoi atof (prog :: args) risDefaults).2.oa =
        (decimalValue oaD : Int)) ∧
    ("-ns".toList ++ nsD ∉ args →
      (CheckInputArguments cAtoi atof (prog :: args) risDefaults).2.nbrSamples = 1000) ∧
    ("-of".toList ++ ofD ∉ args →
      (CheckInputArguments cAtoi atof (prog :: args) risDefaults).2.of = 10) ∧
    ("-oa".toList ++ oaD ∉ args →
      (CheckInputArguments cAtoi atof (prog :: args) risDefaults).2.oa = 100) ∧
    (CheckInputArguments cAtoi atof (prog :: args) risDefaults).2.si = risDefaults.si ∧
    (CheckInputArguments cAtoi atof (prog :: args) risDefaults).2.OutputFile =
      risDefaults.OutputFile ∧
    CheckInputArguments cAtoi atof
      [prog, "-si1e-8".toList, "-ns2000".toList, "-of5".toList, "-oa25".toList,
        "-fMyRIS.data".toList] risDefaults =
      (VI_SUCCESS, { si := atof "1e-8".toList, nbrSamples := 2000, of := 5, oa := 25,
                     OutputFile := "MyRIS.data".toList }) := by
  have hh : args.head? ≠ some "-h".toList := by
    cases args with
    | nil => simp
    | cons a t =>
      intro h
      simp only [List.head?_cons, Option.some.injEq] at h
      rcases hargs a (List.mem_cons_self _ _) with h1 | h1 | h1
      · rw [h1] at h
        have h2 : '-' :: 'n' :: 's' :: nsD = ['-', 'h'] := h
        simp at h2
      · rw [h1] at h
        have h2 : '-' :: 'o' :: 'f' :: ofD = ['-', 'h'] := h
        simp at h2
      · rw [h1] at h
        have h2 : '-' :: 'o' :: 'a' :: oaD = ['-', 'h'] := h
        simp at h2
  have hrun : CheckInputArguments cAtoi atof (prog :: args) risDefaults =
      (VI_SUCCESS, args.foldr (fun a acc => processArg cAtoi atof acc a) risDefaults) := by
    have := checkArgsFrom_foldr cAtoi atof prog args hh args.length (le_refl _) risDefaults
    rw [List.take_length] at this
    exact this
  obtain ⟨i1, i2, i3, i4, i5, i6, i7, i8⟩ :=
    switches_foldr atof risDefaults nsD ofD oaD hns hof hoa hN hF hA hA2 args hargs
  rw [hrun]
  exact ⟨rfl, i1, i2, i3, i4, i5, i6, i7, i8, rfl⟩

theorem cli_integer_switches_witness :
    (CheckInputArguments cAtoi (fun _ => 0)
      ["RisAcquisitionVC".toList, "-oa25".toList, "-ns2000".toList] risDefaults).1
      = VI_SUCCESS ∧
    (CheckInputArguments cAtoi (fun _ => 0)
      ["RisAcquisitionVC".toList, "-oa25".toList, "-ns2000".toList] risDefaults).2.nbrSamples
      = (decimalValue "2000".toList : Int) ∧
    (CheckInputArguments cAtoi (fun _ => 0)
      ["RisAcquisitionVC".toList, "-oa25".toList, "-ns2000".toList] risDefaults).2.of = 10 ∧
    (CheckInputArguments cAtoi (fun _ => 0)
      ["RisAcquisitionVC".toList, "-oa25".toList, "-ns2000".toList] risDefaults).2.oa
      = (decimalValue "25".toList : Int) :=
  have h := cli_integer_switches (fun _ => 0) "RisAcquisitionVC".toList
    ["-oa25".toList, "-ns2000".toList] "2000".toList "5".toList "25".toList
    (by decide) (by decide) (by decide) (by decide) (by decide) (by decide) (by decide)
    (by decide) (by decide) (by decide)
  ⟨h.1, h.2.1 (by decide), h.2.2.2.2.2.1 (by decide), h.2.2.2.1 (by decide)⟩

theorem processArg_valid (atoi : CString → Int) (atof : CString → ℚ) (g : RisGlobals)
    (strP : CString) (h : g.Valid) : (processArg atoi atof g strP).Valid := by
  obtain ⟨h1, h2, h3, h4⟩ := h
  unfold processArg
  split_ifs <;> simp only [RisGlobals.Valid] <;> (try split_ifs) <;>
    refine ⟨?_, ?_, ?_, ?_⟩ <;> simp only at * <;> omega

theorem checkArgsFrom_valid (atoi : CString → Int) (atof : CString → ℚ) (argv : List CString) :
    ∀ (k : Nat) (g : RisGlobals), g.Valid → (checkArgsFrom atoi atof argv k g).2.Valid := by
  intro k
  induction k with
  | zero => intro g h; exact h
  | succ k ih =>
    intro g h
    cases k with
    | zero => exact h
    | succ k =>
      rw [checkArgsFrom]
      split_ifs
      · exact h
      · exact ih _ (processArg_valid atoi atof g _ h)

/-- The tests of `processArg` on an option name followed by decimal digits. -/
theorem strstr_option_digits (b c : Char) {ds : CString} (h : ∀ x ∈ ds, x.isDigit = true)
    (hb : b ≠ '-') (hc : c ≠ '-') (p q : Char) :
    strstr ('-' :: b :: c :: ds) ['-', p, q] = (p == b && q == c) := by
  have hb2 : ('-' == b) = false := by
    rw [beq_eq_false_iff_ne]; exact fun e => hb e.symm
  have hc2 : ('-' == c) = false := by
    rw [beq_eq_false_iff_ne]; exact fun e => hc e.symm
  simp [strstr, List.isPrefixOf, hb2, hc2, strstr_digits _ ds h]

/-- The three integers after one argument, from any globals. -/
theorem processArg_fields (atoi : CString → Int) (atof : CString → ℚ) (g : RisGlobals)
    (strP : CString) :
    (processArg atoi atof g strP).nbrSamples =
      (if strstr strP "-si".toList = false ∧ strstr strP "-ns".toList = true ∧
          (strP.drop 3).length ≠ 0 ∧ 100 < atoi (strP.drop 3)
        then atoi (strP.drop 3) else g.nbrSamples) ∧
    (processArg atoi atof g strP).of =
      (if strstr strP "-si".toList = false ∧ strstr strP "-ns".toList = false ∧
          strstr strP "-of".toList = true ∧
          (strP.drop 3).length ≠ 0 ∧ 0 < atoi (strP.drop 3)
        then atoi (strP.drop 3) else g.of) ∧
    (processArg atoi atof g strP).oa =
      (if strstr strP "-si".toList = false ∧ strstr strP "-ns".toList = false ∧
          strstr strP "-of".toList = false ∧ strstr strP "-oa".toList = true ∧
          (strP.drop 3).length ≠ 0
        then min (if 0 < atoi (strP.drop 3) then atoi (strP.drop 3) else g.oa) 100
        else g.oa) := by
  unfold processArg
  generalize strstr strP "-si".toList = b1
  generalize strstr strP "-ns".toList = b2
  generalize strstr strP "-of".toList = b3
  generalize strstr strP "-oa".toList = b4
  generalize strstr strP "-f".toList = b5
  generalize atoi (strP.drop 3) = v
  generalize (strP.drop 3).length = n
  generalize (strP.drop 2).length = m
  cases b1
  · cases b2
    · cases b3
      · cases b4
        · refine ⟨?_, ?_, ?_⟩ <;> simp <;> split_ifs <;> rfl
        · by_cases hn : n = 0
          · simp [hn]
          · by_cases hv : 0 < v
            · by_cases hv2 : 100 < v
              · simp [hn, hv, hv2]; omega
              · simp [hn, hv, hv2]; omega
            · by_cases ho : 100 < g.oa
              · simp [hn, hv, ho]; omega
              · simp [hn, hv, ho]; omega
      · by_cases hn : n = 0
        · simp [hn]
        · by_cases hv : 0 < v <;> simp [hn, hv]
    · by_cases hn : n = 0
      · simp [hn]
      · by_cases hv : 100 < v <;> simp [hn, hv]
  · refine ⟨?_, ?_, ?_⟩ <;> simp <;> split_ifs <;> rfl

/-- C14. For every argument vector, and whatever `atoi` and `atof` return, the globals
after `CheckInputArguments` satisfy `nbrSamples > 100`, `of >= 1` and `1 <= oa <= 100`.
One argument changes the three integers as follows, from any globals: `nbrSamples` becomes
the value of `atoi` when the argument is handled by the `-ns` branch and the value is above
100, `of` becomes the value of `atoi` when the argument is handled by the `-of` branch and
the value is positive, `oa` becomes, in the `-oa` branch, the value of `atoi` when positive
(else it stays), then at most 100; in every other case the previous value stays.  With the
library `atoi`, `-oa` followed by decimal digits above 100 gives 100, a value that does not
start a number reads as 0, and the arguments are handled from the last to the first. -/
theorem cli_parameters_valid (atoi : CString → Int) (atof : CString → ℚ)
    (argv : List CString) :
    (100 < (CheckInputArguments atoi atof argv risDefaults).2.nbrSamples ∧
      1 ≤ (CheckInputArguments atoi atof argv risDefaults).2.of ∧
      1 ≤ (CheckInputArguments atoi atof argv risDefaults).2.oa ∧
      (CheckInputArguments atoi atof argv risDefaults).2.oa ≤ 100) ∧
    (∀ (g : RisGlobals) (strP : CString),
      (processArg atoi atof g strP).nbrSamples =
        (if strstr strP "-si".toList = false ∧ strstr strP "-ns".toList = true ∧
            (strP.drop 3).length ≠ 0 ∧ 100 < atoi (strP.drop 3)
          then atoi (strP.drop 3) else g.nbrSamples) ∧
      (processArg atoi atof g strP).of =
        (if strstr strP "-si".toList = false ∧ strstr strP "-ns".toList = false ∧
            strstr strP "-of".toList = true ∧
            (strP.drop 3).length ≠ 0 ∧ 0 < atoi (strP.drop 3)
          then atoi (strP.drop 3) else g.of) ∧
      (processArg atoi atof g strP).oa =
        (if strstr strP "-si".toList = false ∧ strstr strP "-ns".toList = false ∧
            strstr strP "-of".toList = false ∧ strstr strP "-oa".toList = true ∧
            (strP.drop 3).length ≠ 0
          then min (if 0 < atoi (strP.drop 3) then atoi (strP.drop 3) else g.oa) 100
          else g.oa)) ∧
    (∀ (g : RisGlobals) (ds : CString), IsDecimal ds →
      processArg cAtoi atof g ("-ns".toList ++ ds) =
        (if 100 < decimalValue ds then { g with nbrSamples := (decimalValue ds : Int) }
          else g) ∧
      processArg cAtoi atof g ("-of".toList ++ ds) =
        (if 0 < decimalValue ds then { g with of := (decimalValue ds : Int) } else g) ∧
      processArg cAtoi atof g ("-oa".toList ++ ds) =
        { g with oa := min (if 0 < decimalValue ds then (decimalValue ds : Int) else g.oa) 100 } ∧
      (100 < decimalValue ds →
        processArg cAtoi atof g ("-oa".toList ++ ds) = { g with oa := 100 })) ∧
    (∀ (c : Char) (cs : CString), c.isDigit = false → cIsSpace c = false → c ≠ '-' →
      c ≠ '+' → cAtoi (c :: cs) = 0) ∧
    (CheckInputArguments cAtoi atof
        ["RisAcquisitionVC".toList, "-oa250".toList, "-oa30".toList] risDefaults).2 =
      { risDefaults with oa := 100 } ∧
    (CheckInputArguments cAtoi atof
        ["RisAcquisitionVC".toList, "-oa30".toList, "-oa250".toList] risDefaults).2 =
      { risDefaults with oa := 30 } ∧
    (CheckInputArguments cAtoi atof
        ["RisAcquisitionVC".toList, "-oaxyz".toList, "-ns7".toList, "-of-3".toList,
          "-oa0".toList, "-ns100".toList, "-of0".toList, "-oa-5".toList] risDefaults).2 =
      risDefaults ∧
    (CheckInputArguments cAtoi atof
        ["RisAcquisitionVC".toList, "-oa25".toList, "-ns2000".toList, "-of5".toList,
          "-oaxyz".toList, "-ns7".toList, "-of-3".toList] risDefaults).2 =
      { risDefaults with nbrSamples := 2000, of := 5, oa := 25 } := by
  refine ⟨?_, ?_, ?_, ?_, ?_, ?_, ?_, ?_⟩
  · exact checkArgsFrom_valid atoi atof argv argv.length risDefaults (by
      simp only [RisGlobals.Valid, risDefaults]; omega)
  · exact processArg_fields atoi atof
  · intro g ds hd
    have hne : ds.length ≠ 0 := by
      intro h0; exact hd.1 (List.length_eq_zero.mp h0)
    have hs := fun b c hb hc p q => strstr_option_digits b c hd.2 hb hc p q
    have e1 : ("-ns".toList ++ ds) = '-' :: 'n' :: 's' :: ds := rfl
    have e2 : ("-of".toList ++ ds) = '-' :: 'o' :: 'f' :: ds := rfl
    have e3 : ("-oa".toList ++ ds) = '-' :: 'o' :: 'a' :: ds := rfl
    have p1 : "-si".toList = ['-', 's', 'i'] := rfl
    have p2 : "-ns".toList = ['-', 'n', 's'] := rfl
    have p3 : "-of".toList = ['-', 'o', 'f'] := rfl
    have p4 : "-oa".toList = ['-', 'o', 'a'] := rfl
    rw [e1, e2, e3]
    unfold processArg
    rw [p1, p2, p3, p4]
    simp only [hs 'n' 's' (by decide) (by decide), hs 'o' 'f' (by decide) (by decide),
      hs 'o' 'a' (by decide) (by decide), List.drop_succ_cons, List.drop_zero,
      cAtoi_decimal hd]
    have c1 : (100 < (decimalValue ds : Int)) ↔ 100 < decimalValue ds := by norm_cast
    have c0 : (0 < (decimalValue ds : Int)) ↔ 0 < decimalValue ds := by norm_cast
    refine ⟨?_, ?_, ?_, ?_⟩
    · by_cases hv : 100 < decimalValue ds
      · simp [hne, hv, c1.mpr hv]
      · simp [hne, hv, mt c1.mp hv]
    · by_cases hv : 0 < decimalValue ds
      · simp [hne, hv, c0.mpr hv]
      · simp [hne, hv, mt c0.mp hv]
    · by_cases hv : 0 < decimalValue ds
      · by_cases hv2 : 100 < decimalValue ds
        · simp [hne, hv, c0.mpr hv, c1.mpr hv2, (c1.mpr hv2).le]
        · simp [hne, hv, c0.mpr hv, mt c1.mp hv2, not_lt.mp (mt c1.mp hv2)]
      · by_cases ho : 100 < g.oa
        · simp [hne, hv, mt c0.mp hv, ho, ho.le]
        · simp [hne, hv, mt c0.mp hv, ho, not_lt.mp ho]
    · intro hv
      have hv0 : 0 < decimalValue ds := by omega
      simp [hne, c0.mpr hv0, c1.mpr hv]
  · intro c cs h1 h2 h3 h4
    simp [cAtoi, atoiDigits, h1, h2, h3, h4]
  · rfl
  · rfl
  · rfl
  · rfl

theorem cli_parameters_valid_witness :
    IsDecimal "250".toList ∧ 100 < decimalValue "250".toList ∧
    processArg cAtoi (fun _ => 0) { risDefaults with oa := 30 }
        ("-oa".toList ++ "250".toList) =
      { risDefaults with oa := 100 } :=
  ⟨by decide, by decide,
    ((cli_parameters_valid cAtoi (fun _ => 0) []).2.2.1 { risDefaults with oa := 30 }
      "250".toList (by decide)).2.2.2 (by decide)⟩


/-! ### C15: a gate record in the readout loop of the SSR example -/

theorem and_mask24 (w : Nat) : w &&& 0x00FFFFFF = w % 2 ^ 24 :=
  Nat.and_pow_two_sub_one_eq_mod w 24

theorem ssrSampleLoop_eq (data : List Byte) (samplesP posGate : Nat) :
    ∀ (payload : List Byte) (n : Nat),
      (∀ j, j < payload.length → data[samplesP + n + j]? = payload[j]?) →
      posGate + n + payload.length ≤ 2 ^ 32 →
      ssrSampleLoop data samplesP posGate payload.length n =
        some (sampleLines (posGate + n) payload) := by
  intro payload
  induction payload with
  | nil => intro n _ _; rfl
  | cons b t ih =>
    intro n h hb
    have h0 : data[samplesP + n]? = some b := by
      have := h 0 (by simp)
      simpa using this
    have ht : ∀ j, j < t.length → data[samplesP + (n + 1) + j]? = t[j]? := by
      intro j hj
      have := h (j + 1) (by simp; omega)
      rw [List.getElem?_cons_succ] at this
      rw [← this]
      congr 1
      omega
    have hb' : posGate + (n + 1) + t.length ≤ 2 ^ 32 := by
      simp only [List.length_cons] at hb
      omega
    have hmod : (posGate + n) % 2 ^ 32 = posGate + n := by
      apply Nat.mod_eq_of_lt
      simp only [List.length_cons] at hb
      omega
    simp only [List.length_cons, ssrSampleLoop, h0, ih (n + 1) ht hb', Option.map_some', hmod,
      sampleLines]
    rfl

theorem tdiv16_toward_zero (a : Int) :
    (0 ≤ a → 16 * Int.tdiv a 16 ≤ a ∧ a < 16 * Int.tdiv a 16 + 16) ∧
    (a < 0 → a ≤ 16 * Int.tdiv a 16 ∧ 16 * Int.tdiv a 16 - 16 < a) := by
  constructor
  · intro h
    rw [Int.tdiv_eq_ediv h (by norm_num)]
    omega
  · intro h
    have h2 : Int.tdiv a 16 = -(Int.tdiv (-a) 16) := by
      rw [Int.neg_tdiv, neg_neg]
    rw [h2, Int.tdiv_eq_ediv (by omega) (by norm_num)]
    omega

/-- C16. For a peak record whose 8 header bytes lie in the buffer at the cursor (tag byte
`0x10`), with first word `w` and second word `pos`: the amplitude decoded by `PrintoutData`
is the two's-complement value of bits 0..19 of `w` (it lies in `[-2^19, 2^19 - 1]` and is
congruent to `w` modulo `2^20`), the tag is bits 24..31 of `w`, the position is the unsigned
32-bit word `pos`, and the line printed carries `pos div 16` and the amplitude divided by 16
rounded toward zero. -/
theorem peak_record_decoding (data : List Byte) (s : DecState)
    (b0 b1 b2 b3 b4 b5 b6 b7 : Byte)
    (h0 : data[s.dataP]? = some b0) (h1 : data[s.dataP + 1]? = some b1)
    (h2 : data[s.dataP + 2]? = some b2) (h3 : data[s.dataP + 3]? = some b3)
    (h4 : data[s.dataP + 4]? = some b4) (h5 : data[s.dataP + 5]? = some b5)
    (h6 : data[s.dataP + 6]? = some b6) (h7 : data[s.dataP + 7]? = some b7)
    (htag : b3.val = 0x10) :
    -(2 ^ 19) ≤ peakAmplitude (word32 b0 b1 b2 b3) ∧
    peakAmplitude (word32 b0 b1 b2 b3) ≤ 2 ^ 19 - 1 ∧
    peakAmplitude (word32 b0 b1 b2 b3) % 2 ^ 20 = ((word32 b0 b1 b2 b3 % 2 ^ 20 : Nat) : Int) ∧
    word32 b0 b1 b2 b3 / 2 ^ 24 % 2 ^ 8 = 0x10 ∧
    word32 b4 b5 b6 b7 < 2 ^ 32 ∧
    (∃ s1, decodeStep data s = .next s1 ∧ s1.dataP = s.dataP + 8 ∧
      s1.printed = s.printed ++ [.peak (word32 b4 b5 b6 b7 / 16)
        (Int.tdiv (peakAmplitude (word32 b0 b1 b2 b3)) 16)]) ∧
    (0 ≤ peakAmplitude (word32 b0 b1 b2 b3) →
      16 * Int.tdiv (peakAmplitude (word32 b0 b1 b2 b3)) 16 ≤ peakAmplitude (word32 b0 b1 b2 b3) ∧
      peakAmplitude (word32 b0 b1 b2 b3) <
        16 * Int.tdiv (peakAmplitude (word32 b0 b1 b2 b3)) 16 + 16) ∧
    (peakAmplitude (word32 b0 b1 b2 b3) < 0 →
      peakAmplitude (word32 b0 b1 b2 b3) ≤ 16 * Int.tdiv (peakAmplitude (word32 b0 b1 b2 b3)) 16 ∧
      16 * Int.tdiv (peakAmplitude (word32 b0 b1 b2 b3)) 16 - 16 <
        peakAmplitude (word32 b0 b1 b2 b3)) := by
  have hh := headerWords_of_bytes h0 h1 h2 h3 h4 h5 h6 h7
  have hamp : -(2 ^ 19) ≤ peakAmplitude (word32 b0 b1 b2 b3) ∧
      peakAmplitude (word32 b0 b1 b2 b3) ≤ 2 ^ 19 - 1 ∧
      peakAmplitude (word32 b0 b1 b2 b3) % 2 ^ 20 =
        ((word32 b0 b1 b2 b3 % 2 ^ 20 : Nat) : Int) := by
    unfold peakAmplitude
    split_ifs <;> omega
  have htagw : word32 b0 b1 b2 b3 / 2 ^ 24 % 2 ^ 8 = 0x10 := by
    rw [word32_tag, htag]
    rfl
  have hr := tdiv16_toward_zero (peakAmplitude (word32 b0 b1 b2 b3))
  refine ⟨hamp.1, hamp.2.1, hamp.2.2, htagw, word32_lt _ _ _ _, ?_, hr.1, hr.2⟩
  refine ⟨{ dataP := s.dataP + 8,
            printed := s.printed ++ [.peak (word32 b4 b5 b6 b7 / 16)
              (Int.tdiv (peakAmplitude (word32 b0 b1 b2 b3)) 16)],
            reads := s.reads ++ [s.dataP + 3] ++ fieldOffsets s.dataP }, ?_, rfl, rfl⟩
  unfold decodeStep
  simp [h3, hh, htag]

theorem peak_record_decoding_witness :
    -(2 ^ 19) ≤ peakAmplitude (word32 239 255 15 16) ∧
    peakAmplitude (word32 239 255 15 16) ≤ 2 ^ 19 - 1 ∧
    peakAmplitude (word32 239 255 15 16) % 2 ^ 20 = ((word32 239 255 15 16 % 2 ^ 20 : Nat) : Int) ∧
    word32 239 255 15 16 / 2 ^ 24 % 2 ^ 8 = 0x10 ∧
    word32 100 0 0 0 < 2 ^ 32 ∧
    (∃ s1, decodeStep [239, 255, 15, 16, 100, 0, 0, 0]
        { dataP := 0, printed := [], reads := [] } = .next s1 ∧ s1.dataP = 0 + 8 ∧
      s1.printed = [] ++ [.peak (word32 100 0 0 0 / 16)
        (Int.tdiv (peakAmplitude (word32 239 255 15 16)) 16)]) ∧
    (0 ≤ peakAmplitude (word32 239 255 15 16) →
      16 * Int.tdiv (peakAmplitude (word32 239 255 15 16)) 16 ≤
        peakAmplitude (word32 239 255 15 16) ∧
      peakAmplitude (word32 239 255 15 16) <
        16 * Int.tdiv (peakAmplitude (word32 239 255 15 16)) 16 + 16) ∧
    (peakAmplitude (word32 239 255 15 16) < 0 →
      peakAmplitude (word32 239 255 15 16) ≤
        16 * Int.tdiv (peakAmplitude (word32 239 255 15 16)) 16 ∧
      16 * Int.tdiv (peakAmplitude (word32 239 255 15 16)) 16 - 16 <
        peakAmplitude (word32 239 255 15 16)) :=
  peak_record_decoding [239, 255, 15, 16, 100, 0, 0, 0]
    { dataP := 0, printed := [], reads := [] } 239 255 15 16 100 0 0 0
    rfl rfl rfl rfl rfl rfl rfl rfl (by decide)

/-! ### C17: the selection of the device in the RIS example -/

theorem initInstruments_plain (n : Nat) :
    ∀ c ∈ initInstruments n, c.configuresOrAcquires = false := by
  induction n with
  | zero => intro c hc; simp [initInstruments] at hc
  | succ k ih =>
    intro c hc
    simp only [initInstruments, List.mem_append, List.mem_cons, List.mem_singleton,
      List.not_mem_nil, or_false] at hc
    rcases hc with hc | rfl | rfl
    · exact ih c hc
    · rfl
    · rfl

theorem clamp_eq_min (reported : Int) :
    (if reported > MAX_SUPPORTED_DEVICES then MAX_SUPPORTED_DEVICES else reported) =
      min reported MAX_SUPPORTED_DEVICES := by
  simp only [MAX_SUPPORTED_DEVICES, min_def]
  split_ifs <;> omega

theorem findAndSelect_none {AqD1 reported selection devType : Int} (h1 : reported < 1) :
    FindAndSelectDevices AqD1 reported selection devType =
      { status := -1, NumInstruments := reported, InstrIdx := 0,
        calls := [.getNbrInstruments] } := by
  simp [FindAndSelectDevices, h1]

theorem findAndSelect_range {AqD1 reported selection devType : Int} (h1 : ¬ reported < 1)
    (h2 : min reported MAX_SUPPORTED_DEVICES ≤ selection ∨ selection < 0) :
    FindAndSelectDevices AqD1 reported selection devType =
      { status := -1, NumInstruments := min reported MAX_SUPPORTED_DEVICES,
        InstrIdx := selection,
        calls := .getNbrInstruments ::
          initInstruments (min reported MAX_SUPPORTED_DEVICES).toNat } := by
  unfold FindAndSelectDevices
  rw [if_neg h1]
  simp only [clamp_eq_min]
  rw [if_pos h2]

theorem findAndSelect_type {AqD1 reported selection devType : Int} (h1 : ¬ reported < 1)
    (h2 : ¬ (min reported MAX_SUPPORTED_DEVICES ≤ selection ∨ selection < 0))
    (h3 : devType ≠ AqD1) :
    FindAndSelectDevices AqD1 reported selection devType =
      { status := -1, NumInstruments := min reported MAX_SUPPORTED_DEVICES,
        InstrIdx := selection,
        calls := .getNbrInstruments ::
          initInstruments (min reported MAX_SUPPORTED_DEVICES).toNat ++
            [.getDevTypeByIndex selection] } := by
  unfold FindAndSelectDevices
  rw [if_neg h1]
  simp only [clamp_eq_min]
  rw [if_neg h2, if_pos h3]

theorem findAndSelect_ok {AqD1 reported selection devType : Int} (h1 : ¬ reported < 1)
    (h2 : ¬ (min reported MAX_SUPPORTED_DEVICES ≤ selection ∨ selection < 0))
    (h3 : ¬ devType ≠ AqD1) :
    FindAndSelectDevices AqD1 reported selection devType =
      { status := VI_SUCCESS, NumInstruments := min reported MAX_SUPPORTED_DEVICES,
        InstrIdx := selection,
        calls := .getNbrInstruments ::
          initInstruments (min reported MAX_SUPPORTED_DEVICES).toNat ++
            [.getDevTypeByIndex selection] } := by
  unfold FindAndSelectDevices
  rw [if_neg h1]
  simp only [clamp_eq_min]
  rw [if_neg h2, if_neg h3]

/-- C17. `FindAndSelectDevices` returns `VI_SUCCESS` only if on return
`1 <= NumInstruments <= MAX_SUPPORTED_DEVICES` (10), `0 <= InstrIdx < NumInstruments` and
the type of the selected device is `AqD1`. When no instrument is reported, or the selection
is negative or not below the number of initialised instruments, or the device type is not
`AqD1`, it returns `-1`, and the only driver call `main` adds is `Acqrs_closeAll`: no call
of the configuration or of an acquisition is issued. After `VI_SUCCESS` the calls of
`Configure` follow. -/
theorem select_devices_valid (AqD1 reported selection devType : Int) (later : List RisCall) :
    ((FindAndSelectDevices AqD1 reported selection devType).status = VI_SUCCESS →
      (FindAndSelectDevices AqD1 reported selection devType).NumInstruments ≤
        MAX_SUPPORTED_DEVICES ∧
      1 ≤ (FindAndSelectDevices AqD1 reported selection devType).NumInstruments ∧
      0 ≤ (FindAndSelectDevices AqD1 reported selection devType).InstrIdx ∧
      (FindAndSelectDevices AqD1 reported selection devType).InstrIdx <
        (FindAndSelectDevices AqD1 reported selection devType).NumInstruments ∧
      (FindAndSelectDevices AqD1 reported selection devType).InstrIdx = selection ∧
      devType = AqD1 ∧
      risMainCalls AqD1 reported selection devType later =
        (FindAndSelectDevices AqD1 reported selection devType).calls ++ risConfigureCalls ++
          later) ∧
    ((reported < 1 ∨ selection < 0 ∨ min reported MAX_SUPPORTED_DEVICES ≤ selection ∨
        devType ≠ AqD1) →
      (FindAndSelectDevices AqD1 reported selection devType).status = -1 ∧
      risMainCalls AqD1 reported selection devType later =
        (FindAndSelectDevices AqD1 reported selection devType).calls ++ [.closeAll] ∧
      ∀ c ∈ risMainCalls AqD1 reported selection devType later,
        c.configuresOrAcquires = false) := by
  have hfail : ∀ r : SelectResult, FindAndSelectDevices AqD1 reported selection devType = r →
      r.status = -1 → (∀ c ∈ r.calls, c.configuresOrAcquires = false) →
      ((FindAndSelectDevices AqD1 reported selection devType).status = VI_SUCCESS → False) ∧
      ((FindAndSelectDevices AqD1 reported selection devType).status = -1 ∧
        risMainCalls AqD1 reported selection devType later =
          (FindAndSelectDevices AqD1 reported selection devType).calls ++ [.closeAll] ∧
        ∀ c ∈ risMainCalls AqD1 reported selection devType later,
          c.configuresOrAcquires = false) := by
    intro r hr hst hcalls
    have hmain : risMainCalls AqD1 reported selection devType later =
        r.calls ++ [.closeAll] := by
      unfold risMainCalls
      rw [hr, hst, if_pos (by decide)]
    rw [hmain, hr]
    refine ⟨fun h => ?_, hst, rfl, ?_⟩
    · rw [hst] at h
      exact absurd h (by decide)
    · intro c hc
      rcases List.mem_append.mp hc with h | h
      · exact hcalls c h
      · rw [List.mem_singleton.mp h]; rfl
  by_cases h1 : reported < 1
  · obtain ⟨ha, hb⟩ := hfail _ (findAndSelect_none h1) rfl (by
      intro c hc
      rw [List.mem_singleton.mp hc]; rfl)
    exact ⟨fun h => (ha h).elim, fun _ => hb⟩
  · by_cases h2 : min reported MAX_SUPPORTED_DEVICES ≤ selection ∨ selection < 0
    · obtain ⟨ha, hb⟩ := hfail _ (findAndSelect_range h1 h2) rfl (by
        intro c hc
        rcases List.mem_cons.mp hc with h | h
        · rw [h]; rfl
        · exact initInstruments_plain _ c h)
      exact ⟨fun h => (ha h).elim, fun _ => hb⟩
    · by_cases h3 : devType ≠ AqD1
      · obtain ⟨ha, hb⟩ := hfail _ (findAndSelect_type h1 h2 h3) rfl (by
          intro c hc
          rcases List.mem_append.mp hc with h | h
          · rcases List.mem_cons.mp h with h | h
            · rw [h]; rfl
            · exact initInstruments_plain _ c h
          · rw [List.mem_singleton.mp h]; rfl)
        exact ⟨fun h => (ha h).elim, fun _ => hb⟩
      · have hok := findAndSelect_ok h1 h2 h3
        have hmin1 : min reported MAX_SUPPORTED_DEVICES ≤ MAX_SUPPORTED_DEVICES :=
          min_le_right _ _
        have hmin2 : 1 ≤ min reported MAX_SUPPORTED_DEVICES := by
          simp only [MAX_SUPPORTED_DEVICES, min_def]
          split_ifs <;> omega
        have hs0 : 0 ≤ selection := by
          by_contra h
          exact h2 (Or.inr (by omega))
        have hs1 : selection < min reported MAX_SUPPORTED_DEVICES := by
          by_contra h
          exact h2 (Or.inl (by omega))
        refine ⟨fun _ => ?_, fun h => ?_⟩
        · unfold risMainCalls
          rw [hok]
          refine ⟨hmin1, hmin2, hs0, hs1, rfl, not_not.mp h3, ?_⟩
          rw [if_neg (by simp [VI_SUCCESS])]
        · exfalso
          rcases h with h | h | h | h
          · exact h1 h
          · exact h2 (Or.inr h)
          · exact h2 (Or.inl h)
          · exact h3 h

theorem select_devices_valid_witness :
    (FindAndSelectDevices 1 12 3 1).status = VI_SUCCESS ∧
    (FindAndSelectDevices 1 12 3 1).NumInstruments = 10 ∧
    (FindAndSelectDevices 1 12 3 1).InstrIdx = 3 ∧
    (FindAndSelectDevices 1 12 10 1).status = -1 ∧
    risMainCalls 1 12 10 1 [.acquire] =
      (FindAndSelectDevices 1 12 10 1).calls ++ [.closeAll] :=
  ⟨by decide, by decide, by decide,
    ((select_devices_valid 1 12 10 1 [.acquire]).2 (by decide)).1,
    ((select_devices_valid 1 12 10 1 [.acquire]).2 (by decide)).2.1⟩

/-! ### C18: type and time stamp of a frame header -/

theorem frameType_eq_div (w : Nat) (hw : w < 2 ^ 32) : frameType w = w / 2 ^ 24 := by
  unfold frameType
  rw [← Nat.shiftRight_eq_div_pow]
  apply Nat.eq_of_testBit_eq
  intro j
  rw [Nat.testBit_shiftRight, Nat.testBit_shiftRight, Nat.testBit_and]
  by_cases hj : j < 8
  · have hm : Nat.testBit 0xFF000000 (24 + j) = true := by
      interval_cases j <;> decide
    rw [hm, Bool.and_true]
  · have hwj : w.testBit (24 + j) = false := by
      apply Nat.testBit_lt_two_pow
      calc w < 2 ^ 32 := hw
        _ ≤ 2 ^ (24 + j) := Nat.pow_le_pow_right (by norm_num) (by omega)
    rw [hwj, Bool.false_and]

/-- C18. For every 32-bit header word `w` and low word `lo`, `WriteHeaders` writes the
frame type `t = w div 2^24`, which is at most 255, and the time stamp
`h * 0.016777216 + lo * 1e-9` with `h = w mod 2^24`, whose exact rational value is
`(h * 2^24 + lo) * 10^-9`; type and `h` partition the word: `w = t * 2^24 + h`. The same
holds for the Rx header. -/
theorem frame_header_decoding (w lo rw rlo : Nat) (hw : w < 2 ^ 32) (hrw : rw < 2 ^ 32) :
    (WriteHeaders w lo rw rlo).txFrameType = w / 2 ^ 24 ∧
    (WriteHeaders w lo rw rlo).txFrameType ≤ 255 ∧
    (WriteHeaders w lo rw rlo).txTimestamp =
      ((w % 2 ^ 24 : Nat) : ℚ) * (16777216 / 10 ^ 9) + (lo : ℚ) * (1 / 10 ^ 9) ∧
    (WriteHeaders w lo rw rlo).txTimestamp =
      (((w % 2 ^ 24) * 2 ^ 24 + lo : Nat) : ℚ) * (1 / 10 ^ 9) ∧
    w = (WriteHeaders w lo rw rlo).txFrameType * 2 ^ 24 + w % 2 ^ 24 ∧
    (WriteHeaders w lo rw rlo).rxFrameType = rw / 2 ^ 24 ∧
    (WriteHeaders w lo rw rlo).rxFrameType ≤ 255 ∧
    (WriteHeaders w lo rw rlo).rxTimestamp =
      (((rw % 2 ^ 24) * 2 ^ 24 + rlo : Nat) : ℚ) * (1 / 10 ^ 9) ∧
    rw = (WriteHeaders w lo rw rlo).rxFrameType * 2 ^ 24 + rw % 2 ^ 24 := by
  have ht : (WriteHeaders w lo rw rlo).txFrameType = w / 2 ^ 24 := frameType_eq_div w hw
  have hrt : (WriteHeaders w lo rw rlo).rxFrameType = rw / 2 ^ 24 := frameType_eq_div rw hrw
  have hts : (WriteHeaders w lo rw rlo).txTimestamp =
      ((w % 2 ^ 24 : Nat) : ℚ) * (16777216 / 10 ^ 9) + (lo : ℚ) * (1 / 10 ^ 9) := by
    simp only [WriteHeaders, frameTimestamp, and_mask24]
  have hrts : (WriteHeaders w lo rw rlo).rxTimestamp =
      ((rw % 2 ^ 24 : Nat) : ℚ) * (16777216 / 10 ^ 9) + (rlo : ℚ) * (1 / 10 ^ 9) := by
    simp only [WriteHeaders, frameTimestamp, and_mask24]
  refine ⟨ht, by rw [ht]; omega, hts, ?_, by rw [ht]; omega, hrt, by rw [hrt]; omega, ?_,
    by rw [hrt]; omega⟩
  · rw [hts]
    push_cast
    ring
  · rw [hrts]
    push_cast
    ring

theorem frame_header_decoding_witness :
    (WriteHeaders 0x02000005 7 0x01000000 0).txFrameType = 0x02000005 / 2 ^ 24 ∧
    (WriteHeaders 0x02000005 7 0x01000000 0).txFrameType ≤ 255 ∧
    (WriteHeaders 0x02000005 7 0x01000000 0).txTimestamp =
      ((0x02000005 % 2 ^ 24 : Nat) : ℚ) * (16777216 / 10 ^ 9) + ((7 : Nat) : ℚ) * (1 / 10 ^ 9) ∧
    (WriteHeaders 0x02000005 7 0x01000000 0).txTimestamp =
      (((0x02000005 % 2 ^ 24) * 2 ^ 24 + 7 : Nat) : ℚ) * (1 / 10 ^ 9) ∧
    0x02000005 = (WriteHeaders 0x02000005 7 0x01000000 0).txFrameType * 2 ^ 24 +
      0x02000005 % 2 ^ 24 ∧
    (WriteHeaders 0x02000005 7 0x01000000 0).rxFrameType = 0x01000000 / 2 ^ 24 ∧
    (WriteHeaders 0x02000005 7 0x01000000 0).rxFrameType ≤ 255 ∧
    (WriteHeaders 0x02000005 7 0x01000000 0).rxTimestamp =
      (((0x01000000 % 2 ^ 24) * 2 ^ 24 + 0 : Nat) : ℚ) * (1 / 10 ^ 9) ∧
    0x01000000 = (WriteHeaders 0x02000005 7 0x01000000 0).rxFrameType * 2 ^ 24 +
      0x01000000 % 2 ^ 24 :=
  frame_header_decoding 0x02000005 7 0x01000000 0 (by decide) (by decide)

/-! ### C19: the layout of the monitor block -/

/-- The walk of `ReadMonitorBlock` in closed form: the cursor positions at the three calls
of `WriteHeaders`, the final cursor, and the reads. -/
theorem monitorWalk_eq (N : Nat) :
    monitorWalk N =
      { txCurrentP := 4 + N / 4 + 4 + N / 2 + 4
        headers := [0, 4 + N / 4, 4 + N / 4 + 4 + N / 2]
        reads := headerReads 0 ++ rawReads N 4 ++ headerReads (4 + N / 4) ++
          accumReads N (4 + N / 4 + 4) ++ headerReads (4 + N / 4 + 4 + N / 2) ++
          parameterReads (4 + N / 4 + 4 + N / 2 + 4) } := by
  simp only [monitorWalk, MonitorWalk.writeHeaders, MonitorWalk.advance,
    MonitorWalk.rawSamples, MonitorWalk.accumSamples, MonitorWalk.parameters,
    List.nil_append, Nat.zero_add, List.singleton_append, List.cons_append]

theorem range_eq_cons (n : Nat) (h : 0 < n) : List.range n = 0 :: List.range' 1 (n - 1) := by
  obtain ⟨m, rfl⟩ : ∃ m, n = m + 1 := ⟨n - 1, by omega⟩
  rw [List.range_eq_range', List.range'_succ]
  rfl

theorem rawReads_eq (N cur : Nat) (h : 0 < N) :
    rawReads N cur = (List.range N).map (fun i => MonitorRead.rawSample (4 * cur + i)) := by
  rw [range_eq_cons N h]
  rfl

theorem accumReads_eq (N cur : Nat) (h : 0 < N) :
    accumReads N cur =
      (List.range N).map (fun i => MonitorRead.accumSample (4 * cur + 2 * i)) := by
  rw [range_eq_cons N h]
  rfl

theorem parameterReads_aux (n cur : Nat) (h : 0 < n) :
    MonitorRead.parameter (cur + 0) ::
        (List.range' 1 (n - 1)).map (fun i => MonitorRead.parameter (cur + i)) =
      (List.range n).map (fun i => MonitorRead.parameter (cur + i)) := by
  rw [range_eq_cons n h]
  rfl

theorem parameterReads_eq (cur : Nat) :
    parameterReads cur = (List.range 1024).map (fun i => MonitorRead.parameter (cur + i)) := by
  have h := parameterReads_aux 1024 cur (by norm_num)
  have e : (1024 - 1 : Nat) = 1023 := by norm_num
  rw [e] at h
  unfold parameterReads
  exact h

/-- The reads of the walk, in order. -/
theorem monitorReads_eq (N : Nat) (hpos : 0 < N) (h4 : N % 4 = 0) :
    monitorReads N =
      [.headerWord 0, .headerWord 1] ++
      (List.range N).map (fun i => MonitorRead.rawSample (16 + i)) ++
      [.headerWord (4 + N / 4), .headerWord (5 + N / 4)] ++
      (List.range N).map (fun i => MonitorRead.accumSample (32 + N + 2 * i)) ++
      [.headerWord (8 + N / 4 + N / 2), .headerWord (9 + N / 4 + N / 2)] ++
      (List.range 1024).map (fun i => MonitorRead.parameter (12 + N / 4 + N / 2 + i)) := by
  have e1 : 4 * (4 + N / 4 + 4) = 32 + N := by omega
  have e2 : 4 + N / 4 + 4 + N / 2 = 8 + N / 4 + N / 2 := by omega
  have e3 : 8 + N / 4 + N / 2 + 4 = 12 + N / 4 + N / 2 := by omega
  have e4 : 4 + N / 4 + 1 = 5 + N / 4 := by omega
  have e5 : 8 + N / 4 + N / 2 + 1 = 9 + N / 4 + N / 2 := by omega
  simp only [monitorReads, monitorWalk_eq, rawReads_eq N _ hpos, accumReads_eq N _ hpos,
    parameterReads_eq, headerReads, e1, e2, e3, e4, e5, Nat.reduceMul, Nat.reduceAdd]

theorem countP_map_const {α β : Type} (p : β → Bool) (f : α → β) (b : Bool) (l : List α)
    (h : ∀ a, p (f a) = b) : (l.map f).countP p = if b then l.length else 0 := by
  induction l with
  | nil => cases b <;> rfl
  | cons a t ih =>
    rw [List.map_cons, List.countP_cons, ih, h a]
    cases b <;> simp

/-- The number of reads of one kind in a list laid out as the monitor block. -/
theorem monitor_countP (p : MonitorRead → Bool) (a b c d : Bool) (n m : Nat)
    (h1 h2 h3 h4 h5 h6 : Nat) (f g k : Nat → Nat)
    (ha : ∀ x, p (.headerWord x) = a) (hb : ∀ x, p (.rawSample x) = b)
    (hc : ∀ x, p (.accumSample x) = c) (hd : ∀ x, p (.parameter x) = d) :
    List.countP p ([.headerWord h1, .headerWord h2] ++
      (List.range n).map (fun i => MonitorRead.rawSample (f i)) ++
      [.headerWord h3, .headerWord h4] ++
      (List.range n).map (fun i => MonitorRead.accumSample (g i)) ++
      [.headerWord h5, .headerWord h6] ++
      (List.range m).map (fun i => MonitorRead.parameter (k i))) =
    (if a then 6 else 0) + (if b then n else 0) + (if c then n else 0) +
      (if d then m else 0) := by
  have r1 := countP_map_const p (fun i => MonitorRead.rawSample (f i)) b (List.range n)
    (fun i => hb (f i))
  have r2 := countP_map_const p (fun i => MonitorRead.accumSample (g i)) c (List.range n)
    (fun i => hc (g i))
  have r3 := countP_map_const p (fun i => MonitorRead.parameter (k i)) d (List.range m)
    (fun i => hd (k i))
  rw [List.countP_append, List.countP_append, List.countP_append, List.countP_append,
    List.countP_append, r1, r2, r3]
  simp only [List.countP_cons, List.countP_nil, ha, List.length_range]
  cases a <;> cases b <;> cases c <;> cases d <;> simp <;> omega

/-- C19. In `ReadMonitorBlock` of the base streamer, for a number of samples per frame
that is a positive multiple of 4 (2048 in the example): `NbrLongs` is the sum of the
documented sections, `4 * NbrLongs = 16 + NbrSamples + 16 + 2 * NbrSamples + 16 + 4 * 1024`
bytes, and `NbrLongs = 2572` for 2048 samples.  The cursor walk `monitorWalk` calls
`WriteHeaders` with the cursor at the long offsets 0, `4 + NbrSamples/4` and
`8 + NbrSamples/4 + NbrSamples/2` (0, 516, 1544) and ends with the cursor 1024 longs before
the end of the buffer.  Its reads are, in order: the header words 0 and 1, the
`NbrSamples` raw sample bytes at the byte offsets `16 + i`, the two header words at
`4 + NbrSamples/4`, the `NbrSamples` accumulated samples at the byte offsets
`32 + NbrSamples + 2*i`, the two header words at `8 + NbrSamples/4 + NbrSamples/2`, and the
1024 parameter values at the long indices `12 + NbrSamples/4 + NbrSamples/2 + i`.  Among
the reads of the walk there are `NbrSamples` raw samples, `NbrSamples` accumulated
samples, 1024 parameter values and 6 header words, every read lies inside the `NbrLongs`
longs of the buffer, and the last read is the parameter value at the long index
`NbrLongs - 1`. -/
theorem monitor_block_layout (N : Nat) (hpos : 0 < N) (h4 : N % 4 = 0) :
    4 * NbrLongs N = 16 + N + 16 + 2 * N + 16 + 4 * 1024 ∧
    NbrLongs 2048 = 2572 ∧
    (monitorWalk N).headers = [0, 4 + N / 4, 8 + N / 4 + N / 2] ∧
    (monitorWalk 2048).headers = [0, 516, 1544] ∧
    (monitorWalk N).txCurrentP + 1024 = NbrLongs N ∧
    monitorReads N =
      [.headerWord 0, .headerWord 1] ++
      (List.range N).map (fun i => MonitorRead.rawSample (16 + i)) ++
      [.headerWord (4 + N / 4), .headerWord (5 + N / 4)] ++
      (List.range N).map (fun i => MonitorRead.accumSample (32 + N + 2 * i)) ++
      [.headerWord (8 + N / 4 + N / 2), .headerWord (9 + N / 4 + N / 2)] ++
      (List.range 1024).map (fun i => MonitorRead.parameter (12 + N / 4 + N / 2 + i)) ∧
    (monitorReads N).countP MonitorRead.isRawSample = N ∧
    (monitorReads N).countP MonitorRead.isAccumSample = N ∧
    (monitorReads N).countP MonitorRead.isParameter = 1024 ∧
    (monitorReads N).countP MonitorRead.isHeaderWord = 6 ∧
    (∀ r ∈ monitorReads N, r.lastByte < 4 * NbrLongs N) ∧
    (monitorReads N).getLast? = some (.parameter (NbrLongs N - 1)) := by
  refine ⟨?_, by decide, ?_, by rw [monitorWalk_eq], ?_, monitorReads_eq N hpos h4,
    ?_, ?_, ?_, ?_, ?_, ?_⟩
  · unfold NbrLongs
    omega
  · rw [monitorWalk_eq]
    simp only [List.cons.injEq, and_true, true_and]
    omega
  · rw [monitorWalk_eq]
    rfl
  · rw [monitorReads_eq N hpos h4, monitor_countP MonitorRead.isRawSample false true false false
      N 1024 _ _ _ _ _ _ _ _ _ (fun _ => rfl) (fun _ => rfl) (fun _ => rfl) (fun _ => rfl)]
    simp
  · rw [monitorReads_eq N hpos h4, monitor_countP MonitorRead.isAccumSample false false true false
      N 1024 _ _ _ _ _ _ _ _ _ (fun _ => rfl) (fun _ => rfl) (fun _ => rfl) (fun _ => rfl)]
    simp
  · rw [monitorReads_eq N hpos h4, monitor_countP MonitorRead.isParameter false false false true
      N 1024 _ _ _ _ _ _ _ _ _ (fun _ => rfl) (fun _ => rfl) (fun _ => rfl) (fun _ => rfl)]
    simp
  · rw [monitorReads_eq N hpos h4, monitor_countP MonitorRead.isHeaderWord true false false false
      N 1024 _ _ _ _ _ _ _ _ _ (fun _ => rfl) (fun _ => rfl) (fun _ => rfl) (fun _ => rfl)]
    simp
  · intro r hr
    rw [monitorReads_eq N hpos h4] at hr
    simp only [List.mem_append, List.mem_cons, List.mem_singleton, List.not_mem_nil, or_false,
      List.mem_map, List.mem_range] at hr
    unfold NbrLongs
    rcases hr with (((((rfl | rfl) | ⟨i, hi, rfl⟩) | (rfl | rfl)) |
      ⟨i, hi, rfl⟩) | (rfl | rfl)) | ⟨i, hi, rfl⟩ <;>
      simp only [MonitorRead.lastByte] <;> omega
  · rw [monitorReads_eq N hpos h4, List.getLast?_append_of_ne_nil _ (by simp),
      List.getLast?_eq_getElem?]
    simp only [List.length_map, List.length_range, List.getElem?_map]
    rw [List.getElem?_range (by norm_num : 1024 - 1 < 1024)]
    simp only [Option.map_some', NbrLongs]
    congr 2
    omega

theorem monitor_block_layout_witness :
    (monitorWalk 2048).headers = [0, 516, 1544] ∧
    (monitorReads 2048).countP MonitorRead.isRawSample = 2048 ∧
    (∀ r ∈ monitorReads 2048, r.lastByte < 4 * NbrLongs 2048) ∧
    (monitorReads 2048).getLast? = some (.parameter (NbrLongs 2048 - 1)) :=
  ⟨(monitor_block_layout 2048 (by decide) (by decide)).2.2.2.1,
   (monitor_block_layout 2048 (by decide) (by decide)).2.2.2.2.2.2.1,
   (monitor_block_layout 2048 (by decide) (by decide)).2.2.2.2.2.2.2.2.2.2.1,
   (monitor_block_layout 2048 (by decide) (by decide)).2.2.2.2.2.2.2.2.2.2.2⟩

/-! ### C20: termination of the decoder -/

/-- A round at a tag that no `case` matches changes neither cursor nor output. -/
theorem decodeStep32_unknown (base : Nat) (data : List Byte) (s : PtrState) (tag : Byte)
    (ht : byteAt base data (ptrAdd s.dataP 3) = some tag) (hk : ¬ KnownTag tag) :
    decodeStep32 base data s = .next s := by
  unfold KnownTag at hk
  push_neg at hk
  unfold decodeStep32
  simp only [ht, if_neg hk.1, if_neg hk.2.1, if_neg hk.2.2]

/-- A round that continues has read a tag byte; at one of the three tags the advance is at
least 8 bytes and the new cursor is the old one plus the advance, modulo `2^32`. -/
theorem decodeStep32_next (base : Nat) (data : List Byte) (s s1 : PtrState)
    (h : decodeStep32 base data s = .next s1) :
    ∃ tag, byteAt base data (ptrAdd s.dataP 3) = some tag ∧
      (KnownTag tag → 8 ≤ stepAdvance base data s.dataP ∧
        s1.dataP = (s.dataP + stepAdvance base data s.dataP) % 2 ^ 32) := by
  unfold decodeStep32 at h
  unfold stepAdvance
  rcases ht : byteAt base data (ptrAdd s.dataP 3) with _ | tag
  · simp only [ht] at h
    cases h
  · refine ⟨tag, rfl, ?_⟩
    intro hk
    have hcase : tag.val = 0 ∨ tag.val = 16 ∨ tag.val = 4 := hk
    simp only [ht] at h
    rcases hw : headerWordsAt base data s.dataP with _ | ⟨w0, w1⟩
    · simp only [hw] at h
      split_ifs at h
      omega
    · simp only [hw] at h ⊢
      split_ifs at h with h1 h2 h3
      · cases h
        simp only [h1, if_true, ptrAdd_ptrAdd]
        exact ⟨by omega, by rw [Nat.add_assoc]⟩
      · cases h
        simp only [h1, if_false, h2, true_or, if_true, ptrAdd]
        exact ⟨le_refl _, by simp⟩
      · cases h
        simp only [h1, if_false, h3, or_true, if_true, ptrAdd]
        exact ⟨le_refl _, by simp⟩
      · omega

/-- Rounds compose: while the run has not ended after `k` rounds, `k + m` rounds are `m`
rounds from the state reached. -/
theorem decodeLoop32_add (base : Nat) (data : List Byte) (e : Nat) (m : Nat) :
    ∀ (k : Nat) (s : PtrState), (decodeLoop32 base data e k s).status = .outOfFuel →
      decodeLoop32 base data e (k + m) s =
        decodeLoop32 base data e m (decodeLoop32 base data e k s).final := by
  intro k
  induction k with
  | zero =>
    intro s _
    simp only [Nat.zero_add, decodeLoop32]
  | succ k ih =>
    intro s h
    rw [show k + 1 + m = (k + m) + 1 by omega]
    simp only [decodeLoop32] at h ⊢
    by_cases hc : s.dataP < e
    · simp only [hc, if_true] at h ⊢
      rcases hd : decodeStep32 base data s with s1 | s1
      · simp only [hd] at h ⊢
        exact ih s1 h
      · simp only [hd] at h
        cases h
    · simp only [hc, if_false] at h
      cases h

/-- A run that has ended after `k` rounds is not changed by more fuel. -/
theorem decodeLoop32_done (base : Nat) (data : List Byte) (e : Nat) (m : Nat) :
    ∀ (k : Nat) (s : PtrState), (decodeLoop32 base data e k s).status ≠ .outOfFuel →
      decodeLoop32 base data e (k + m) s = decodeLoop32 base data e k s := by
  intro k
  induction k with
  | zero =>
    intro s h
    simp only [decodeLoop32] at h
    exact absurd rfl h
  | succ k ih =>
    intro s h
    rw [show k + 1 + m = (k + m) + 1 by omega]
    simp only [decodeLoop32] at h ⊢
    by_cases hc : s.dataP < e
    · simp only [hc, if_true] at h ⊢
      rcases hd : decodeStep32 base data s with s1 | s1
      · simp only [hd] at h ⊢
        exact ih s1 h
      · simp only [hd]
    · simp only [hc, if_false]

/-- A run still going after `n` rounds was still going after any smaller number. -/
theorem decodeLoop32_outOfFuel_of_le (base : Nat) (data : List Byte) (e : Nat) (s : PtrState)
    (k n : Nat) (hkn : k ≤ n) (h : (decodeLoop32 base data e n s).status = .outOfFuel) :
    (decodeLoop32 base data e k s).status = .outOfFuel := by
  by_contra hne
  have := decodeLoop32_done base data e (n - k) k s hne
  rw [show k + (n - k) = n by omega] at this
  rw [this] at h
  exact hne h

/-- The last of `k + 1` rounds of a run still going: the cursor was below `dataEndP` and the
round continued. -/
theorem decodeLoop32_last (base : Nat) (data : List Byte) (e : Nat) (s : PtrState) (k : Nat)
    (h : (decodeLoop32 base data e (k + 1) s).status = .outOfFuel) :
    (decodeLoop32 base data e k s).status = .outOfFuel ∧
    (decodeLoop32 base data e k s).final.dataP < e ∧
    decodeStep32 base data (decodeLoop32 base data e k s).final =
      .next (decodeLoop32 base data e (k + 1) s).final := by
  have hk := decodeLoop32_outOfFuel_of_le base data e s k (k + 1) (by omega) h
  have hadd := decodeLoop32_add base data e 1 k s hk
  rw [hadd] at h ⊢
  refine ⟨hk, ?_⟩
  generalize (decodeLoop32 base data e k s).final = sk at h ⊢
  simp only [decodeLoop32] at h ⊢
  by_cases hc : sk.dataP < e
  · simp only [hc, if_true] at h ⊢
    rcases hd : decodeStep32 base data sk with s1 | s1
    · simp only [hd, true_and]
    · simp only [hd] at h
      cases h
  · simp only [hc, if_false] at h
    cases h

/-- At a cursor below `dataEndP` whose tag has no `case` the loop runs for any number of
rounds without moving the cursor or printing. -/
theorem decodeLoop32_stuck (base : Nat) (data : List Byte) (e : Nat) (tag : Byte)
    (s : PtrState) (hc : s.dataP < e)
    (ht : byteAt base data (ptrAdd s.dataP 3) = some tag) (hk : ¬ KnownTag tag) :
    ∀ fuel : Nat, decodeLoop32 base data e fuel s = { status := .outOfFuel, final := s } := by
  intro fuel
  induction fuel with
  | zero => rfl
  | succ fuel ih =>
    simp only [decodeLoop32, hc, if_true, decodeStep32_unknown base data s tag ht hk]
    exact ih

/-- If no reached record has a foreign tag and no reached round wraps the pointer, a run
still going after `k` rounds has advanced the cursor by at least `8 * k` bytes. -/
theorem printout32_progress (base : Nat) (data : List Byte) (length : Int)
    (hno : ¬ ReachesUnknownTag32 base data length) (hnw : ¬ ReachesWrap32 base data length) :
    ∀ k : Nat, (PrintoutData32 k base data length).status = .outOfFuel →
      base + 8 * k ≤ (PrintoutData32 k base data length).final.dataP := by
  intro k
  induction k with
  | zero =>
    intro _
    simp only [PrintoutData32, decodeLoop32]
    omega
  | succ k ih =>
    intro h
    have hlast := decodeLoop32_last base data (dataEndP base length) _ k h
    obtain ⟨hk, hlt, hstep⟩ := hlast
    obtain ⟨tag, htag, hadv⟩ := decodeStep32_next base data _ _ hstep
    have hknown : KnownTag tag := by
      by_contra hn
      exact hno ⟨k, tag, hk, hlt, htag, hn⟩
    obtain ⟨h8, heq⟩ := hadv hknown
    have hw : (PrintoutData32 k base data length).final.dataP +
        stepAdvance base data (PrintoutData32 k base data length).final.dataP < 2 ^ 32 := by
      by_contra hge
      exact hnw ⟨k, hk, hlt, by omega⟩
    have hprev := ih hk
    unfold PrintoutData32 at hw hprev ⊢
    rw [heq, Nat.mod_eq_of_lt hw]
    omega

theorem dataEndP_eq (base : Nat) (length : Int) (h0 : 0 ≤ length)
    (h : (base : Int) + length < 2 ^ 32) : dataEndP base length = base + length.toNat := by
  unfold dataEndP
  rw [Int.emod_eq_of_lt (by omega) h]
  omega

/-- With 7 bytes of buffer after the byte-length bound, the buffer below the address
`2^32`, no foreign tag and no wrap of the pointer, no round reads outside the buffer. -/
theorem printout32_inside (base : Nat) (data : List Byte) (length : Int)
    (h0 : 0 ≤ length) (hbuf : length + 7 ≤ (data.length : Int))
    (hfit : base + data.length < 2 ^ 32)
    (hno : ¬ ReachesUnknownTag32 base data length) (hnw : ¬ ReachesWrap32 base data length) :
    ∀ k : Nat, (PrintoutData32 k base data length).status ≠ .outOfBuffer := by
  have hE := dataEndP_eq base length h0 (by omega)
  intro k
  induction k with
  | zero =>
    simp only [PrintoutData32, decodeLoop32, ne_eq, reduceCtorEq, not_false_eq_true]
  | succ k ih =>
    by_cases hk : (PrintoutData32 k base data length).status = .outOfFuel
    · have hp := printout32_progress base data length hno hnw k hk
      unfold PrintoutData32 at hk hp ⊢
      rw [decodeLoop32_add base data _ 1 k _ hk]
      generalize (decodeLoop32 base data (dataEndP base length) k
        { dataP := base, printed := [] }).final = sk at hp ⊢
      simp only [decodeLoop32]
      by_cases hc : sk.dataP < dataEndP base length
      · simp only [hc, if_true]
        rw [hE] at hc
        obtain ⟨off, hoff⟩ : ∃ off, sk.dataP = base + off := ⟨sk.dataP - base, by omega⟩
        have hlen : off + 7 < data.length := by omega
        have g : ∀ i, i ≤ 7 → ∃ b, data[off + i]? = some b := by
          intro i hi
          exact ⟨data[off + i], List.getElem?_eq_getElem (by omega)⟩
        obtain ⟨b0, h0⟩ : ∃ b, data[off]? = some b := g 0 (by omega)
        obtain ⟨b1, h1⟩ := g 1 (by omega)
        obtain ⟨b2, h2⟩ := g 2 (by omega)
        obtain ⟨b3, h3⟩ := g 3 (by omega)
        obtain ⟨b4, h4⟩ := g 4 (by omega)
        obtain ⟨b5, h5⟩ := g 5 (by omega)
        obtain ⟨b6, h6⟩ := g 6 (by omega)
        obtain ⟨b7, h7⟩ := g 7 (by omega)
        have hh := headerWordsAt_of_bytes hfit h0 h1 h2 h3 h4 h5 h6 h7
        have ht3 : byteAt base data (ptrAdd sk.dataP 3) = some b3 := by
          rw [hoff, byteAt_offset _ _ _ 3 (by omega), h3]
        rw [← hoff] at hh
        rcases hd : decodeStep32 base data sk with s1 | s1
        · simp only [hd, ne_eq, reduceCtorEq, not_false_eq_true]
        · exfalso
          unfold decodeStep32 at hd
          simp only [ht3, hh] at hd
          split_ifs at hd
      · simp only [hc, if_false, ne_eq, reduceCtorEq, not_false_eq_true]
    · unfold PrintoutData32 at hk ih ⊢
      rw [decodeLoop32_done base data _ 1 k _ hk]
      exact ih

/-- A round on the gate header of length `0xFFFFFFF8` prints the gate line and brings the
pointer back to the header. -/
theorem wrapDemo_step (pr : List Printed) :
    decodeStep32 0x10000 wrapDemoData { dataP := 0x10000, printed := pr } =
      .next { dataP := 0x10000, printed := pr ++ [.gate 0 0xFFFFFFF8] } := by
  have h := (decodeStep32_of_bytes 0x10000 wrapDemoData { dataP := 0x10000, printed := pr }
    0 0 0 0 0 0xF8 0xFF 0xFF 0xFF rfl (by decide) rfl rfl rfl rfl rfl rfl rfl rfl).2.2.2 rfl
  rw [h]
  have e1 : (0x10000 + 8 + 4294967288) % 2 ^ 32 = 0x10000 := by norm_num
  have e2 : word32 0 0 0 0 % 2 ^ 24 = 0 := by decide
  have e3 : word32 0xF8 0xFF 0xFF 0xFF = 0xFFFFFFF8 := by decide
  simp only [e2, e3, e1]

/-- A run whose rounds print a line and bring the pointer back to the same address below
`dataEndP` is still going after any number of rounds. -/
theorem decodeLoop32_cycle (base : Nat) (data : List Byte) (e a : Nat) (x : Printed)
    (ha : a < e)
    (hstep : ∀ pr : List Printed, decodeStep32 base data { dataP := a, printed := pr } =
      .next { dataP := a, printed := pr ++ [x] }) (fuel : Nat) :
    ∀ pr : List Printed,
      (decodeLoop32 base data e fuel { dataP := a, printed := pr }).status = .outOfFuel ∧
      (decodeLoop32 base data e fuel { dataP := a, printed := pr }).final.dataP = a := by
  induction fuel with
  | zero =>
    intro pr
    simp only [decodeLoop32, and_self]
  | succ fuel ih =>
    intro pr
    simp only [decodeLoop32, ha, if_true, hstep]
    exact ih _

/-- The run on the gate header of length `0xFFFFFFF8` stands at the start of the buffer
after any number of rounds. -/
theorem wrapDemo_run (e : Nat) (he : 0x10000 < e) (fuel : Nat) (pr : List Printed) :
    (decodeLoop32 0x10000 wrapDemoData e fuel
      { dataP := 0x10000, printed := pr }).status = .outOfFuel ∧
    (decodeLoop32 0x10000 wrapDemoData e fuel
      { dataP := 0x10000, printed := pr }).final.dataP = 0x10000 :=
  decodeLoop32_cycle 0x10000 wrapDemoData e 0x10000 (.gate 0 0xFFFFFFF8) he wrapDemo_step
    fuel pr

theorem wrapDemo_end : (0x10000 : Nat) < dataEndP 0x10000 8 := by decide

/-- C20, as the code has it on the build with 32-bit pointers. Termination of
`PrintoutData(data, length)` called with the address `base`. (1) A round at a cursor whose
byte at `cursor + 3` is none of `0x00`, `0x10`, `0x04` continues with the cursor and the
output unchanged. (2) If after `k` rounds the run stands below `dataEndP` at such a tag, it
is still running after `k + m` rounds for every `m`, in the same state. (3) Hence if a
record reached before the bound carries a foreign tag, the run has not ended after any
number of rounds. (4) If no reached record carries a foreign tag and no reached round
wraps the pointer (`cursor + 8 + length >= 2^32` at a gate header), the run ends within
`dataEndP / 8 + 2` rounds (it returns or reads outside the buffer). (5) When moreover
`length >= 0`, the buffer lies below the address `2^32` and extends at least 7 bytes past
`length`, so that no header read leaves it, the function returns. (6) Under the conditions
of (5) on the buffer, for a run in which no round wraps the pointer, the function returns
for some number of rounds if and only if no reached record carries a foreign tag. -/
theorem decoder_termination (base : Nat) (data : List Byte) (length : Int) :
    (∀ (s : PtrState) (tag : Byte), byteAt base data (ptrAdd s.dataP 3) = some tag →
      ¬ KnownTag tag → decodeStep32 base data s = .next s) ∧
    (∀ (k : Nat) (tag : Byte),
      (PrintoutData32 k base data length).status = .outOfFuel →
      (PrintoutData32 k base data length).final.dataP < dataEndP base length →
      byteAt base data (ptrAdd (PrintoutData32 k base data length).final.dataP 3) =
        some tag → ¬ KnownTag tag →
      ∀ m : Nat, PrintoutData32 (k + m) base data length =
        { status := .outOfFuel, final := (PrintoutData32 k base data length).final }) ∧
    (ReachesUnknownTag32 base data length →
      ∀ fuel : Nat, (PrintoutData32 fuel base data length).status = .outOfFuel) ∧
    (¬ ReachesUnknownTag32 base data length → ¬ ReachesWrap32 base data length →
      (PrintoutData32 (dataEndP base length / 8 + 2) base data length).status ≠
        .outOfFuel) ∧
    (0 ≤ length → length + 7 ≤ (data.length : Int) → base + data.length < 2 ^ 32 →
      ¬ ReachesUnknownTag32 base data length → ¬ ReachesWrap32 base data length →
      (PrintoutData32 (dataEndP base length / 8 + 2) base data length).status =
        .returned) ∧
    (0 ≤ length → length + 7 ≤ (data.length : Int) → base + data.length < 2 ^ 32 →
      ¬ ReachesWrap32 base data length →
      ((∃ fuel : Nat, (PrintoutData32 fuel base data length).status = .returned) ↔
        ¬ ReachesUnknownTag32 base data length)) := by
  have h2 : ∀ (k : Nat) (tag : Byte),
      (PrintoutData32 k base data length).status = .outOfFuel →
      (PrintoutData32 k base data length).final.dataP < dataEndP base length →
      byteAt base data (ptrAdd (PrintoutData32 k base data length).final.dataP 3) =
        some tag → ¬ KnownTag tag →
      ∀ m : Nat, PrintoutData32 (k + m) base data length =
        { status := .outOfFuel, final := (PrintoutData32 k base data length).final } := by
    intro k tag hk hlt htag hn m
    unfold PrintoutData32 at hk hlt htag ⊢
    rw [decodeLoop32_add base data _ m k _ hk]
    exact decodeLoop32_stuck base data _ tag _ hlt htag hn m
  have h3 : ReachesUnknownTag32 base data length →
      ∀ fuel : Nat, (PrintoutData32 fuel base data length).status = .outOfFuel := by
    rintro ⟨k, tag, hk, hlt, htag, hn⟩ fuel
    rcases le_total fuel k with hle | hle
    · exact decodeLoop32_outOfFuel_of_le base data _ _ fuel k hle hk
    · have := h2 k tag hk hlt htag hn (fuel - k)
      rw [show k + (fuel - k) = fuel by omega] at this
      rw [this]
  have h4 : ¬ ReachesUnknownTag32 base data length → ¬ ReachesWrap32 base data length →
      (PrintoutData32 (dataEndP base length / 8 + 2) base data length).status ≠
        .outOfFuel := by
    intro hno hnw h
    have hlast := decodeLoop32_last base data (dataEndP base length) _
      (dataEndP base length / 8 + 1) h
    have hprog := printout32_progress base data length hno hnw
      (dataEndP base length / 8 + 1) hlast.1
    have hlt := hlast.2.1
    unfold PrintoutData32 at hprog
    omega
  have h5 : 0 ≤ length → length + 7 ≤ (data.length : Int) → base + data.length < 2 ^ 32 →
      ¬ ReachesUnknownTag32 base data length → ¬ ReachesWrap32 base data length →
      (PrintoutData32 (dataEndP base length / 8 + 2) base data length).status =
        .returned := by
    intro h0 hbuf hfit hno hnw
    have ha := h4 hno hnw
    have hb := printout32_inside base data length h0 hbuf hfit hno hnw
      (dataEndP base length / 8 + 2)
    cases hs : (PrintoutData32 (dataEndP base length / 8 + 2) base data length).status
    · rfl
    · exact absurd hs ha
    · exact absurd hs hb
  refine ⟨?_, h2, h3, h4, h5, ?_⟩
  · intro s tag ht hk
    exact decodeStep32_unknown base data s tag ht hk
  · intro h0 hbuf hfit hnw
    constructor
    · rintro ⟨fuel, hf⟩ hr
      rw [h3 hr fuel] at hf
      cases hf
    · intro hno
      exact ⟨_, h5 h0 hbuf hfit hno hnw⟩

theorem decoder_termination_witness :
    (∀ fuel : Nat,
      (PrintoutData32 fuel 0x10000
        [0, 0, 0, 4, 0, 0, 0, 0, 0, 0, 0, 0x20, 0, 0, 0, 0, 0, 0, 0] 12).status
        = .outOfFuel) ∧
    ∀ m : Nat,
      PrintoutData32 (1 + m) 0x10000
          [0, 0, 0, 4, 0, 0, 0, 0, 0, 0, 0, 0x20, 0, 0, 0, 0, 0, 0, 0] 12 =
        { status := .outOfFuel
          final := (PrintoutData32 1 0x10000
            [0, 0, 0, 4, 0, 0, 0, 0, 0, 0, 0, 0x20, 0, 0, 0, 0, 0, 0, 0] 12).final } :=
  ⟨(decoder_termination 0x10000
      [0, 0, 0, 4, 0, 0, 0, 0, 0, 0, 0, 0x20, 0, 0, 0, 0, 0, 0, 0] 12).2.2.1
      ⟨1, 0x20, by decide, by decide, by decide, by decide⟩,
   (decoder_termination 0x10000
      [0, 0, 0, 4, 0, 0, 0, 0, 0, 0, 0, 0x20, 0, 0, 0, 0, 0, 0, 0] 12).2.1
      1 0x20 (by decide) (by decide) (by decide) (by decide)⟩

/-- C20 as stated fails on the build with 32-bit pointers. The buffer at the address
`0x10000` starts with a gate header of length `0xFFFFFFF8` and `length` is 8, with 8 more
bytes of buffer behind: every record the run reaches carries the tag `0x00`, one of the
three tags, and yet the run has not returned after any number of rounds, because each round
brings the pointer back to the same header. -/
theorem decoder_wrap_counterexample :
    ¬ ReachesUnknownTag32 0x10000 wrapDemoData 8 ∧
    (8 : Int) + 7 ≤ (wrapDemoData.length : Int) ∧
    (∀ fuel : Nat, (PrintoutData32 fuel 0x10000 wrapDemoData 8).status = .outOfFuel) ∧
    ∀ fuel : Nat, (PrintoutData32 fuel 0x10000 wrapDemoData 8).final.dataP = 0x10000 := by
  refine ⟨?_, by decide, fun fuel => (wrapDemo_run _ wrapDemo_end fuel []).1,
    fun fuel => (wrapDemo_run _ wrapDemo_end fuel []).2⟩
  rintro ⟨k, tag, _, _, htag, hn⟩
  have hd : (PrintoutData32 k 0x10000 wrapDemoData 8).final.dataP = 0x10000 :=
    (wrapDemo_run _ wrapDemo_end k []).2
  rw [hd] at htag
  have ht : tag = 0 := by
    have h0 : byteAt 0x10000 wrapDemoData (ptrAdd 0x10000 3) = some 0 := by decide
    rw [h0] at htag
    exact (Option.some.inj htag).symm
  apply hn
  rw [ht]
  exact Or.inl rfl

/-! ### C21, C23: the polling loops of the FFT example -/

/-- A polling loop entered with `ready` false and a budget `b` returns after `n <= b` reads,
`n >= 1` when `b > 0`; all reads but the last had the bit clear, the loop stopped before the
budget was used only on a read with the bit set, and the events are those prescribed. -/
theorem pollLoop_spec (regID mask ms : Nat) (regs : Nat → Nat) :
    ∀ (b : Nat) (s : PollState) (fuel : Nat), s.ready = false → s.timeout = (b : Int) →
      b < fuel →
      ∃ (s1 : PollState) (n : Nat), pollLoop regID mask ms regs fuel s = some s1 ∧
        n ≤ b ∧ (0 < b → 1 ≤ n) ∧ s1.nRead = s.nRead + n ∧ s1.timeout = (b : Int) - (n : Int) ∧
        (∀ i, i + 1 < n → regs (s.nRead + i) &&& mask = 0) ∧
        (s1.ready = true ↔ (0 < n ∧ regs (s.nRead + (n - 1)) &&& mask ≠ 0)) ∧
        (n < b → s1.ready = true) ∧
        s1.events = s.events ++ specPollTrace regID mask ms regs s.nRead n := by
  intro b
  induction b with
  | zero =>
    intro s fuel hr ht hf
    obtain ⟨f, rfl⟩ : ∃ f, fuel = f + 1 := ⟨fuel - 1, by omega⟩
    refine ⟨s, 0, ?_, le_refl _, by omega, by omega, by simpa using ht, by omega, ?_, by omega, ?_⟩
    · have : ¬ (s.timeout > 0) := by rw [ht]; simp
      simp [pollLoop, hr, this]
    · simp [hr]
    · simp [specPollTrace]
  | succ b ih =>
    intro s fuel hr ht hf
    obtain ⟨f, rfl⟩ : ∃ f, fuel = f + 1 := ⟨fuel - 1, by omega⟩
    have hpos : s.timeout > 0 := by rw [ht]; push_cast; omega
    have hloop : pollLoop regID mask ms regs (f + 1) s =
        pollLoop regID mask ms regs f (pollRound regID mask ms regs s) := by
      simp [pollLoop, hr, hpos]
    by_cases hbit : regs s.nRead &&& mask = 0
    · have hr1 : (pollRound regID mask ms regs s).ready = false := by
        simp [pollRound, hbit]
      have ht1 : (pollRound regID mask ms regs s).timeout = (b : Int) := by
        simp only [pollRound, ht]; push_cast; omega
      obtain ⟨s1, n, hrun, hn, hn1, hnr, hto, hclear, hready, hearly, hev⟩ :=
        ih (pollRound regID mask ms regs s) f hr1 ht1 (by omega)
      have hnr0 : (pollRound regID mask ms regs s).nRead = s.nRead + 1 := rfl
      rw [hnr0] at hnr hclear hready hev
      refine ⟨s1, n + 1, by rw [hloop, hrun], by omega, by omega, by omega, ?_, ?_, ?_, ?_, ?_⟩
      · rw [hto]; push_cast; omega
      · intro i hi
        rcases i with _ | i
        · simpa using hbit
        · have := hclear i (by omega)
          rwa [show s.nRead + (i + 1) = s.nRead + 1 + i by omega]
      · rw [hready]
        constructor
        · rintro ⟨h0, h1⟩
          refine ⟨by omega, ?_⟩
          rwa [show s.nRead + (n + 1 - 1) = s.nRead + 1 + (n - 1) by omega]
        · rintro ⟨_, h1⟩
          have h0 : 0 < n := by
            by_contra hn0
            have : n = 0 := by omega
            subst this
            exact h1 (by simpa using hbit)
          refine ⟨h0, ?_⟩
          rwa [show s.nRead + (n + 1 - 1) = s.nRead + 1 + (n - 1) by omega] at h1
      · intro h
        exact hearly (by omega)
      · rw [hev]
        simp [pollRound, specPollTrace, hbit, List.append_assoc]
    · have hr1 : (pollRound regID mask ms regs s).ready = true := by
        simp [pollRound, hbit]
      obtain ⟨g, rfl⟩ : ∃ g, f = g + 1 := ⟨f - 1, by omega⟩
      refine ⟨pollRound regID mask ms regs s, 1, ?_, by omega, by omega, rfl, ?_, ?_, ?_, ?_, ?_⟩
      · rw [hloop]
        simp [pollLoop, hr1]
      · simp only [pollRound, ht]; push_cast; omega
      · intro i hi; omega
      · simp [hr1, hbit]
      · intro _; exact hr1
      · simp [pollRound, specPollTrace, hbit]

/-- The prescribed events of a polling loop are reads and sleeps only. -/
theorem specPollTrace_no_printf (regID mask ms : Nat) (regs : Nat → Nat) (msg : String) :
    ∀ (n start : Nat), FpgaEvent.printf msg ∉ specPollTrace regID mask ms regs start n := by
  intro n
  induction n with
  | zero => intro start; simp [specPollTrace]
  | succ n ih =>
    intro start
    have := ih (start + 1)
    by_cases h : regs start &&& mask = 0 <;> simp [specPollTrace, h, this]

/-- The run of a polling loop from its initial state `timeout = 100`, `ready = false`: the
number `n` of reads, and when the budget is used up. -/
theorem pollLoop_run (regID mask ms : Nat) (regs : Nat → Nat) (init : List FpgaEvent)
    (fuel : Nat) (hfuel : 100 < fuel) :
    ∃ (s : PollState) (n : Nat),
      pollLoop regID mask ms regs fuel
        { timeout := 100, ready := false, nRead := 0, events := init } = some s ∧
      1 ≤ n ∧ n ≤ 100 ∧ s.nRead = n ∧ s.timeout = 100 - (n : Int) ∧
      (∀ i, i + 1 < n → regs i &&& mask = 0) ∧
      (n < 100 → regs (n - 1) &&& mask ≠ 0) ∧
      (s.ready = true ↔ regs (n - 1) &&& mask ≠ 0) ∧
      (s.timeout ≤ 0 ↔ ∀ i, i < 99 → regs i &&& mask = 0) ∧
      s.events = init ++ specPollTrace regID mask ms regs 0 n := by
  obtain ⟨s, n, hrun, hn, hn1, hnr, hto, hclear, hready, hearly, hev⟩ :=
    pollLoop_spec regID mask ms regs 100
      { timeout := 100, ready := false, nRead := 0, events := init } fuel rfl rfl hfuel
  simp only [Nat.zero_add] at hnr hclear hready hev
  have h1 : 1 ≤ n := hn1 (by omega)
  refine ⟨s, n, hrun, h1, hn, hnr, by simpa using hto, hclear, ?_, ?_, ?_, hev⟩
  · intro hlt
    exact ((hready.mp (hearly hlt))).2
  · rw [hready]
    constructor
    · exact fun h => h.2
    · exact fun h => ⟨by omega, h⟩
  · rw [hto]
    constructor
    · intro h i hi
      have : n = 100 := by push_cast at h; omega
      exact hclear i (by omega)
    · intro h
      by_contra hgt
      have hlt : n < 100 := by push_cast at hgt; omega
      have := (hready.mp (hearly hlt)).2
      exact this (h (n - 1) (by omega))

/-- C21. For every sequence `regs` of register values returned by `ReadFPGA`,
`WaitForSpectrum` and `InitFPGA` return (101 rounds of fuel suffice), and their polling loop
reads the status register `n` times with `1 <= n <= 100`: the reads are `regs 0`, ...,
`regs (n-1)` in this order, every read before the last had the ready bit clear (so no read
follows a read with the bit set), the loop stops before the 100th read only on a read with
the bit set, and each read with the bit clear is followed by exactly one sleep (10 ms in
`WaitForSpectrum`, 1 ms in `InitFPGA`), a read with the bit set by none. What follows the
loop is at most the time-out message, and in `InitFPGA` the write of `MainCtrlReg`. -/
theorem polling_budget (regs : Nat → Nat) (fuel : Nat) (hfuel : 100 < fuel) :
    (∃ (s : PollState) (n : Nat) (tail : List FpgaEvent),
      WaitForSpectrum fuel regs = some s ∧ 1 ≤ n ∧ n ≤ 100 ∧ s.nRead = n ∧
      (∀ i, i + 1 < n → regs i &&& 0x80000000 = 0) ∧
      (n < 100 → regs (n - 1) &&& 0x80000000 ≠ 0) ∧
      s.events = [FpgaEvent.printf "Processing data\n"] ++
        specPollTrace MainStatusReg 0x80000000 10 regs 0 n ++ tail ∧
      (tail = [] ∨ tail = [FpgaEvent.printf spectrumTimeoutMsg])) ∧
    (∃ (s : PollState) (n : Nat) (tail : List FpgaEvent),
      InitFPGA fuel regs = some s ∧ 1 ≤ n ∧ n ≤ 100 ∧ s.nRead = n ∧
      (∀ i, i + 1 < n → regs i &&& 0x00100000 = 0) ∧
      (n < 100 → regs (n - 1) &&& 0x00100000 ≠ 0) ∧
      s.events = initFPGAWrites ++ specPollTrace FPGAStatusReg 0x00100000 1 regs 0 n ++ tail ++
        [FpgaEvent.writeFPGA MainCtrlReg 1] ∧
      (tail = [] ∨ tail = [FpgaEvent.printf deClockTimeoutMsg])) := by
  constructor
  · obtain ⟨s, n, hrun, h1, hn, hnr, _, hclear, hstop, _, _, hev⟩ :=
      pollLoop_run MainStatusReg 0x80000000 10 regs [FpgaEvent.printf "Processing data\n"]
        fuel hfuel
    by_cases ht : s.timeout ≤ 0
    · refine ⟨reportTimeout spectrumTimeoutMsg s, n, [FpgaEvent.printf spectrumTimeoutMsg],
        ?_, h1, hn, ?_, hclear, hstop, ?_, Or.inr rfl⟩
      · simp only [WaitForSpectrum, hrun, Option.map_some']
      · simp only [reportTimeout, ht, if_true, hnr]
      · simp only [reportTimeout, ht, if_true, hev]
    · refine ⟨reportTimeout spectrumTimeoutMsg s, n, [], ?_, h1, hn, ?_, hclear, hstop, ?_,
        Or.inl rfl⟩
      · simp only [WaitForSpectrum, hrun, Option.map_some']
      · simp only [reportTimeout, ht, if_false, hnr]
      · simp only [reportTimeout, ht, if_false, hev, List.append_nil]
  · obtain ⟨s, n, hrun, h1, hn, hnr, _, hclear, hstop, _, _, hev⟩ :=
      pollLoop_run FPGAStatusReg 0x00100000 1 regs initFPGAWrites fuel hfuel
    have hI : InitFPGA fuel regs = some
        { reportTimeout deClockTimeoutMsg s with
          events := (reportTimeout deClockTimeoutMsg s).events ++
            [FpgaEvent.writeFPGA MainCtrlReg 1] } := by
      simp only [InitFPGA, hrun, Option.map_some']
    by_cases ht : s.timeout ≤ 0
    · refine ⟨_, n, [FpgaEvent.printf deClockTimeoutMsg], hI, h1, hn, ?_, hclear, hstop, ?_,
        Or.inr rfl⟩
      · simp only [reportTimeout, ht, if_true, hnr]
      · simp only [reportTimeout, ht, if_true, hev]
    · refine ⟨_, n, [], hI, h1, hn, ?_, hclear, hstop, ?_, Or.inl rfl⟩
      · simp only [reportTimeout, ht, if_false, hnr]
      · simp only [reportTimeout, ht, if_false, hev, List.append_nil]

theorem polling_budget_witness :
    ∃ (s : PollState) (n : Nat) (tail : List FpgaEvent),
      WaitForSpectrum 101 (fun _ => 0) = some s ∧ 1 ≤ n ∧ n ≤ 100 ∧ s.nRead = n ∧
      (∀ i, i + 1 < n → (fun _ => 0 : Nat → Nat) i &&& 0x80000000 = 0) ∧
      (n < 100 → (fun _ => 0 : Nat → Nat) (n - 1) &&& 0x80000000 ≠ 0) ∧
      s.events = [FpgaEvent.printf "Processing data\n"] ++
        specPollTrace MainStatusReg 0x80000000 10 (fun _ => 0) 0 n ++ tail ∧
      (tail = [] ∨ tail = [FpgaEvent.printf spectrumTimeoutMsg]) :=
  (polling_budget (fun _ => 0) 101 (by decide)).1

/-- C23. The time-out message of `WaitForSpectrum` (and likewise of the wait for the DE
clock in `InitFPGA`) is printed if and only if `timeout` has reached 0, that is, if and only
if none of the first 99 reads had the ready bit set. In particular, when the first 99 reads
have the bit clear and the 100th read has it set, the loop ends with `ready` true after 100
reads and the message is printed all the same: the message does not tell whether a read
had the bit set. -/
theorem timeout_message_last_read (regs : Nat → Nat) (fuel : Nat) (hfuel : 100 < fuel) :
    (∃ s : PollState, WaitForSpectrum fuel regs = some s ∧
      (FpgaEvent.printf spectrumTimeoutMsg ∈ s.events ↔
        ∀ i, i < 99 → regs i &&& 0x80000000 = 0) ∧
      ((∀ i, i < 99 → regs i &&& 0x80000000 = 0) → regs 99 &&& 0x80000000 ≠ 0 →
        s.nRead = 100 ∧ s.ready = true ∧ FpgaEvent.printf spectrumTimeoutMsg ∈ s.events)) ∧
    (∃ s : PollState, InitFPGA fuel regs = some s ∧
      (FpgaEvent.printf deClockTimeoutMsg ∈ s.events ↔
        ∀ i, i < 99 → regs i &&& 0x00100000 = 0) ∧
      ((∀ i, i < 99 → regs i &&& 0x00100000 = 0) → regs 99 &&& 0x00100000 ≠ 0 →
        s.nRead = 100 ∧ s.ready = true ∧ FpgaEvent.printf deClockTimeoutMsg ∈ s.events)) := by
  constructor
  · obtain ⟨s, n, hrun, h1, hn, hnr, hto, hclear, hstop, hready, hbudget, hev⟩ :=
      pollLoop_run MainStatusReg 0x80000000 10 regs [FpgaEvent.printf "Processing data\n"]
        fuel hfuel
    have hnp := specPollTrace_no_printf MainStatusReg 0x80000000 10 regs spectrumTimeoutMsg n 0
    have hmem : FpgaEvent.printf spectrumTimeoutMsg ∈ (reportTimeout spectrumTimeoutMsg s).events
        ↔ s.timeout ≤ 0 := by
      by_cases ht : s.timeout ≤ 0
      · simp [reportTimeout, ht]
      · simp only [spectrumTimeoutMsg] at hnp
        simp [reportTimeout, ht, hev, hnp, spectrumTimeoutMsg]
    refine ⟨reportTimeout spectrumTimeoutMsg s, ?_, hmem.trans hbudget, ?_⟩
    · simp only [WaitForSpectrum, hrun, Option.map_some']
    · intro hall hlast
      have ht : s.timeout ≤ 0 := hbudget.mpr hall
      have hn100 : n = 100 := by rw [hto] at ht; omega
      refine ⟨?_, ?_, hmem.mpr ht⟩
      · simp only [reportTimeout, ht, if_true, hnr, hn100]
      · have : s.ready = true := hready.mpr (by rw [hn100]; exact hlast)
        simp only [reportTimeout, ht, if_true, this]
  · obtain ⟨s, n, hrun, h1, hn, hnr, hto, hclear, hstop, hready, hbudget, hev⟩ :=
      pollLoop_run FPGAStatusReg 0x00100000 1 regs initFPGAWrites fuel hfuel
    have hnp := specPollTrace_no_printf FPGAStatusReg 0x00100000 1 regs deClockTimeoutMsg n 0
    have hI : InitFPGA fuel regs = some
        { reportTimeout deClockTimeoutMsg s with
          events := (reportTimeout deClockTimeoutMsg s).events ++
            [FpgaEvent.writeFPGA MainCtrlReg 1] } := by
      simp only [InitFPGA, hrun, Option.map_some']
    have hmem : FpgaEvent.printf deClockTimeoutMsg ∈
        (reportTimeout deClockTimeoutMsg s).events ++ [FpgaEvent.writeFPGA MainCtrlReg 1]
        ↔ s.timeout ≤ 0 := by
      by_cases ht : s.timeout ≤ 0
      · simp [reportTimeout, ht]
      · simp only [deClockTimeoutMsg] at hnp
        simp [reportTimeout, ht, hev, hnp, deClockTimeoutMsg, initFPGAWrites]
    refine ⟨_, hI, hmem.trans hbudget, ?_⟩
    intro hall hlast
    have ht : s.timeout ≤ 0 := hbudget.mpr hall
    have hn100 : n = 100 := by rw [hto] at ht; omega
    refine ⟨?_, ?_, hmem.mpr ht⟩
    · simp only [reportTimeout, ht, if_true, hnr, hn100]
    · have : s.ready = true := hready.mpr (by rw [hn100]; exact hlast)
      simp only [reportTimeout, ht, if_true, this]

theorem timeout_message_last_read_witness :
    ∃ s : PollState,
      WaitForSpectrum 101 (fun i => if i = 99 then 0x80000000 else 0) = some s ∧
      s.nRead = 100 ∧ s.ready = true ∧ FpgaEvent.printf spectrumTimeoutMsg ∈ s.events := by
  obtain ⟨s, hs, _, h⟩ :=
    (timeout_message_last_read (fun i => if i = 99 then 0x80000000 else 0) 101 (by decide)).1
  refine ⟨s, hs, h ?_ ?_⟩
  · intro i hi
    have : i ≠ 99 := by omega
    simp [this]
  · simp

/-! ### C22: the hard stop of the RIS acquisition -/

/-- The polling loop of `Acquire` entered with `done = 0` and the counter at `c` ends after
`n <= c` polls; every poll before the last answered 0, `done` is set exactly when the last
poll answered so, and when `done` is still 0 all `c` polls were made and answered 0. -/
theorem acquireLoop_spec (answers : Nat → Int) :
    ∀ (c : Nat) (s : AcqState) (fuel : Nat), s.done = 0 → s.errTimeoutCounter = (c : Int) →
      c < fuel →
      ∃ (s1 : AcqState) (n : Nat), acquireLoop answers fuel s = some s1 ∧ n ≤ c ∧
        s1.polls = s.polls + n ∧
        (∀ i, i + 1 < n → answers (s.polls + i) = 0) ∧
        (s1.done ≠ 0 → 0 < n ∧ answers (s.polls + (n - 1)) ≠ 0) ∧
        (s1.done = 0 → n = c ∧ ∀ i, i < c → answers (s.polls + i) = 0) := by
  intro c
  induction c with
  | zero =>
    intro s fuel hd hc hf
    obtain ⟨f, rfl⟩ : ∃ f, fuel = f + 1 := ⟨fuel - 1, by omega⟩
    refine ⟨{ s with errTimeoutCounter := s.errTimeoutCounter - 1 }, 0, ?_, le_refl _, rfl,
      by omega, ?_, ?_⟩
    · have : s.errTimeoutCounter = 0 := by simpa using hc
      simp [acquireLoop, hd, this]
    · intro h; exact absurd hd h
    · intro _; exact ⟨rfl, by omega⟩
  | succ c ih =>
    intro s fuel hd hc hf
    obtain ⟨f, rfl⟩ : ∃ f, fuel = f + 1 := ⟨fuel - 1, by omega⟩
    have hne : s.errTimeoutCounter ≠ 0 := by rw [hc]; push_cast; omega
    have hloop : acquireLoop answers (f + 1) s = acquireLoop answers f
        { done := answers s.polls
          errTimeoutCounter := s.errTimeoutCounter - 1
          polls := s.polls + 1 } := by
      simp [acquireLoop, hd, hne]
    by_cases ha : answers s.polls = 0
    · obtain ⟨s1, n, hrun, hn, hp, hzero, hdone, hnot⟩ :=
        ih { done := answers s.polls
             errTimeoutCounter := s.errTimeoutCounter - 1
             polls := s.polls + 1 } f ha (by simp only [hc]; push_cast; omega) (by omega)
      simp only at hp hzero hdone hnot
      refine ⟨s1, n + 1, by rw [hloop, hrun], by omega, by omega, ?_, ?_, ?_⟩
      · intro i hi
        rcases i with _ | i
        · simpa using ha
        · have := hzero i (by omega)
          rwa [show s.polls + (i + 1) = s.polls + 1 + i by omega]
      · intro h
        obtain ⟨h0, h1⟩ := hdone h
        refine ⟨by omega, ?_⟩
        rwa [show s.polls + (n + 1 - 1) = s.polls + 1 + (n - 1) by omega]
      · intro h
        obtain ⟨h0, h1⟩ := hnot h
        refine ⟨by omega, ?_⟩
        intro i hi
        rcases i with _ | i
        · simpa using ha
        · have := h1 i (by omega)
          rwa [show s.polls + (i + 1) = s.polls + 1 + i by omega]
    · obtain ⟨g, rfl⟩ : ∃ g, f = g + 1 := ⟨f - 1, by omega⟩
      refine ⟨{ done := answers s.polls
                errTimeoutCounter := s.errTimeoutCounter - 1
                polls := s.polls + 1 }, 1, ?_, by omega, rfl, by omega, ?_, ?_⟩
      · rw [hloop]
        simp [acquireLoop, ha]
      · intro _
        exact ⟨by omega, by simpa using ha⟩
      · intro h
        exact absurd h ha

/-- C22. For every sequence of answers of `AcqrsD1_acqDone`, `Acquire` returns (500001
evaluations of the loop condition suffice) after `n <= 500000` polls. It returns
`VI_SUCCESS` if and only if one of the first 500000 answers reports done; then the poll that
reported done was the last one, all polls before it answered 0, and
`AcqrsD1_stopAcquisition` is not called. Otherwise all 500000 polls were made,
`AcqrsD1_stopAcquisition` is called exactly once, after the polls, and -1 is returned; a
round of the RIS loop of `main` then ends with the call of `CloseDevices`, the run has left
the loop, and `saveData` is not called. -/
theorem ris_acquire_hard_stop (answers : Nat → Int) (fuel : Nat) (hfuel : 500000 < fuel) :
    ∃ (r : AcquireResult) (n : Nat), Acquire fuel answers = some r ∧ n ≤ 500000 ∧
      (r.status = VI_SUCCESS ↔ ∃ i, i < 500000 ∧ answers i ≠ 0) ∧
      (r.status = VI_SUCCESS →
        1 ≤ n ∧ answers (n - 1) ≠ 0 ∧ (∀ i, i + 1 < n → answers i = 0) ∧
        r.calls = RisCall.acquire :: List.replicate n RisCall.acqDone ∧
        r.calls.count RisCall.stopAcquisition = 0) ∧
      (r.status ≠ VI_SUCCESS →
        r.status = -1 ∧ n = 500000 ∧
        r.calls = RisCall.acquire :: List.replicate 500000 RisCall.acqDone ++
          [RisCall.stopAcquisition] ∧
        r.calls.count RisCall.stopAcquisition = 1 ∧
        ∀ (p : RisParams) (s : RisState) (horPos : ℚ) (wf : Waveform) (rest : List RisRound),
          s.nb_bin < p.of →
          risMainLoop fuel p s ({ answers := answers, horPos := horPos, wf := wf } :: rest) =
            some (r.calls.map RisMainEvent.driver ++ [.driver .closeAll], .acqError s) ∧
          RisMainEvent.saveData ∉
            r.calls.map RisMainEvent.driver ++ [RisMainEvent.driver RisCall.closeAll]) := by
  obtain ⟨s1, n, hrun, hn, hp, hzero, hdone, hnot⟩ :=
    acquireLoop_spec answers 500000 { done := 0, errTimeoutCounter := 500000, polls := 0 }
      fuel rfl rfl hfuel
  simp only [Nat.zero_add] at hp hzero hdone hnot
  have hA : Acquire fuel answers = some
      (if s1.done = 0 then
        { status := -1
          calls := RisCall.acquire :: List.replicate s1.polls RisCall.acqDone ++
            [RisCall.stopAcquisition] }
      else
        { status := VI_SUCCESS
          calls := RisCall.acquire :: List.replicate s1.polls RisCall.acqDone }) := by
    simp only [Acquire, hrun, Option.map_some']
  have hcount : ∀ m : Nat,
      (List.replicate m RisCall.acqDone).count RisCall.stopAcquisition = 0 := by
    intro m
    rw [List.count_replicate]
    simp
  by_cases hd : s1.done = 0
  · obtain ⟨hn500, hall⟩ := hnot hd
    simp only [hd, if_true] at hA
    refine ⟨_, n, hA, hn, ?_, ?_, ?_⟩
    · simp only [VI_SUCCESS]
      constructor
      · intro h; exact absurd h (by decide)
      · rintro ⟨i, hi, hne⟩
        exact absurd (hall i hi) hne
    · intro h
      simp only [VI_SUCCESS] at h
      exact absurd h (by decide)
    · intro _
      refine ⟨rfl, hn500, by rw [hp, hn500], ?_, ?_⟩
      · simp only [List.count_cons, List.count_append, hcount, List.count_nil]
        decide
      · intro p s horPos wf rest hlt
        constructor
        · simp only [risMainLoop, hlt, if_true, hA]
          simp
        · simp
  · obtain ⟨h0, hlast⟩ := hdone hd
    simp only [hd, if_false] at hA
    refine ⟨_, n, hA, hn, ?_, ?_, ?_⟩
    · constructor
      · intro _
        exact ⟨n - 1, by omega, hlast⟩
      · intro _; rfl
    · intro _
      refine ⟨h0, hlast, hzero, by rw [hp], ?_⟩
      simp only [List.count_cons, hcount]
      decide
    · intro h
      exact absurd rfl h

theorem ris_acquire_hard_stop_witness :
    ∃ (r : AcquireResult) (n : Nat), Acquire 500001 (fun _ => 0) = some r ∧ n ≤ 500000 ∧
      (r.status = VI_SUCCESS ↔ ∃ i, i < 500000 ∧ (fun _ => 0 : Nat → Int) i ≠ 0) ∧
      (r.status = VI_SUCCESS →
        1 ≤ n ∧ (fun _ => 0 : Nat → Int) (n - 1) ≠ 0 ∧
        (∀ i, i + 1 < n → (fun _ => 0 : Nat → Int) i = 0) ∧
        r.calls = RisCall.acquire :: List.replicate n RisCall.acqDone ∧
        r.calls.count RisCall.stopAcquisition = 0) ∧
      (r.status ≠ VI_SUCCESS →
        r.status = -1 ∧ n = 500000 ∧
        r.calls = RisCall.acquire :: List.replicate 500000 RisCall.acqDone ++
          [RisCall.stopAcquisition] ∧
        r.calls.count RisCall.stopAcquisition = 1 ∧
        ∀ (p : RisParams) (s : RisState) (horPos : ℚ) (wf : Waveform) (rest : List RisRound),
          s.nb_bin < p.of →
          risMainLoop 500001 p s
              ({ answers := fun _ => 0, horPos := horPos, wf := wf } :: rest) =
            some (r.calls.map RisMainEvent.driver ++ [.driver .closeAll], .acqError s) ∧
          RisMainEvent.saveData ∉
            r.calls.map RisMainEvent.driver ++ [RisMainEvent.driver RisCall.closeAll]) :=
  ris_acquire_hard_stop (fun _ => 0) 500001 (by decide)

/-! ### C24, C30: the acceptance windows and the bin index -/

theorem acquireAll_ok (acquireStatus : Nat → Int) :
    ∀ (k i : Nat), (∀ j, i ≤ j → j < i + k → acquireStatus j = VI_SUCCESS) →
      (acquireAll acquireStatus k i).2 = true ∧
      ∀ c ∈ (acquireAll acquireStatus k i).1, ∃ j, c = TestCall.acquire j := by
  intro k
  induction k with
  | zero => intro i _; simp [acquireAll]
  | succ k ih =>
    intro i h
    have hi := h i (le_refl _) (by omega)
    obtain ⟨h1, h2⟩ := ih (i + 1) (fun j hj1 hj2 => h j (by omega) (by omega))
    simp only [acquireAll, hi, if_true, h1, true_and]
    intro c hc
    rcases List.mem_cons.mp hc with rfl | hc
    · exact ⟨i, rfl⟩
    · exact h2 c hc

theorem waitAll_spec (waitStatus : Nat → Int) :
    ∀ (k i : Nat) (status : Int),
      (waitAll waitStatus k i status).2 = (if k = 0 then status else waitStatus (i + k - 1)) ∧
      ∀ c ∈ (waitAll waitStatus k i status).1, ∃ j, c = TestCall.waitForEndOfAcquisition j := by
  intro k
  induction k with
  | zero => intro i status; simp [waitAll]
  | succ k ih =>
    intro i status
    obtain ⟨h1, h2⟩ := ih (i + 1) (waitStatus i)
    refine ⟨?_, ?_⟩
    · simp only [waitAll, h1]
      by_cases hk : k = 0
      · subst hk; simp
      · simp only [hk, if_false, Nat.succ_ne_zero]
        rw [show i + 1 + k - 1 = i + (k + 1) - 1 by omega]
    · intro c hc
      simp only [waitAll] at hc
      rcases List.mem_cons.mp hc with rfl | hc
      · exact ⟨i, rfl⟩
      · exact h2 c hc

theorem stopAll_mem (status : Int) :
    ∀ (k i j : Nat), TestCall.stopAcquisition j ∈ stopAll status k i ↔
      (i ≤ j ∧ j < i + k ∧ status ≠ VI_SUCCESS) := by
  intro k
  induction k with
  | zero =>
    intro i j
    simp only [stopAll, List.not_mem_nil, false_iff]
    omega
  | succ k ih =>
    intro i j
    simp only [stopAll, List.mem_append, ih]
    by_cases hs : status = VI_SUCCESS
    · simp [hs]
    · simp only [ne_eq, hs, not_false_eq_true, if_true, List.mem_singleton,
        TestCall.stopAcquisition.injEq, and_true]
      omega

/-- C25. In `Acquire` of `Test.cpp`, for 1 to 10 instruments whose acquisitions all
started: every wait is called once, the global `status` on return is the status of the
wait of the last instrument, and `AcqrsD1_stopAcquisition` is issued for instrument `i` if
and only if the wait of the last instrument returned a status different from `VI_SUCCESS`,
whatever the wait of instrument `i` returned. So the acquisition of an instrument whose own
wait failed is not stopped when the last wait succeeded, and instruments whose wait
succeeded are stopped when the last wait failed. -/
theorem test_acquire_stop_last_status (N : Nat) (status0 : Int)
    (acquireStatus waitStatus : Nat → Int) (hN1 : 1 ≤ N) (hN : N ≤ 10)
    (hacq : ∀ i, i < N → acquireStatus i = VI_SUCCESS) :
    ∃ r : TestAcquireResult, testAcquire N status0 acquireStatus waitStatus = some r ∧
      r.aborted = false ∧ r.status = waitStatus (N - 1) ∧
      (∀ i, TestCall.stopAcquisition i ∈ r.calls ↔
        (i < N ∧ waitStatus (N - 1) ≠ VI_SUCCESS)) ∧
      ((∃ i, i < N ∧ waitStatus i ≠ VI_SUCCESS ∧ waitStatus (N - 1) = VI_SUCCESS) →
        ∃ i, i < N ∧ waitStatus i ≠ VI_SUCCESS ∧ TestCall.stopAcquisition i ∉ r.calls) := by
  obtain ⟨ha1, ha2⟩ := acquireAll_ok acquireStatus N 0 (fun j _ hj => hacq j (by omega))
  obtain ⟨hw1, hw2⟩ := waitAll_spec waitStatus N 0 (if N = 0 then status0 else VI_SUCCESS)
  have hN0 : N ≠ 0 := by omega
  simp only [hN0, if_false, Nat.zero_add] at hw1 hw2
  have hrun : testAcquire N status0 acquireStatus waitStatus = some
      { aborted := false
        status := (waitAll waitStatus N 0 VI_SUCCESS).2
        calls := (acquireAll acquireStatus N 0).1 ++ (waitAll waitStatus N 0 VI_SUCCESS).1 ++
          stopAll (waitAll waitStatus N 0 VI_SUCCESS).2 N 0 } := by
    simp [testAcquire, not_lt.mpr hN, ha1, hN0]
  have hmem : ∀ i, TestCall.stopAcquisition i ∈
      (acquireAll acquireStatus N 0).1 ++ (waitAll waitStatus N 0 VI_SUCCESS).1 ++
        stopAll (waitAll waitStatus N 0 VI_SUCCESS).2 N 0 ↔
      (i < N ∧ waitStatus (N - 1) ≠ VI_SUCCESS) := by
    intro i
    simp only [List.mem_append, stopAll_mem, hw1, Nat.zero_add, Nat.zero_le, true_and]
    constructor
    · rintro ((h | h) | h)
      · obtain ⟨j, hj⟩ := ha2 _ h
        cases hj
      · obtain ⟨j, hj⟩ := hw2 _ h
        cases hj
      · exact h
    · intro h
      exact Or.inr h
  refine ⟨_, hrun, rfl, hw1, hmem, ?_⟩
  rintro ⟨i, hi, hne, hlast⟩
  refine ⟨i, hi, hne, ?_⟩
  intro h
  exact ((hmem i).mp h).2 hlast

theorem test_acquire_stop_last_status_witness :
    ∃ r : TestAcquireResult,
      testAcquire 2 0 (fun _ => 0) (fun i => if i = 0 then -1 else 0) = some r ∧
      r.status = 0 ∧ TestCall.stopAcquisition 0 ∉ r.calls := by
  obtain ⟨r, hr, _, hst, hmem, _⟩ :=
    test_acquire_stop_last_status 2 0 (fun _ => 0) (fun i => if i = 0 then -1 else 0)
      (by decide) (by decide) (fun _ _ => rfl)
  refine ⟨r, hr, hst, ?_⟩
  intro h
  exact ((hmem 0).mp h).2 rfl

/-! ### C26: the order of the lines of the output file -/

/-- The row written for the sample `d`: the values of the bins `k-1`, ..., `0`. -/
theorem saveRow_spec (ris_data : List RISData) (d : Nat)
    (hwf : ∀ bin ∈ ris_data, d < bin.waveformArray.length) :
    ∀ k : Nat, k ≤ ris_data.length →
      ∃ row, saveRow ris_data d k = some row ∧ row.length = k ∧
        ∀ m, m < k → ∃ bin v, ris_data[k - 1 - m]? = some bin ∧
          bin.waveformArray[d]? = some v ∧ row[m]? = some v := by
  intro k
  induction k with
  | zero => intro _; exact ⟨[], rfl, rfl, fun m hm => absurd hm (by omega)⟩
  | succ k ih =>
    intro hk
    obtain ⟨row, hrow, hlen, hget⟩ := ih (by omega)
    have hklt : k < ris_data.length := by omega
    have hbin : ris_data[k]? = some ris_data[k] := List.getElem?_eq_getElem hklt
    have hd : d < (ris_data[k]).waveformArray.length :=
      hwf _ (List.getElem_mem hklt)
    have hv : (ris_data[k]).waveformArray[d]? = some ((ris_data[k]).waveformArray[d]) :=
      List.getElem?_eq_getElem hd
    refine ⟨(ris_data[k]).waveformArray[d] :: row, ?_, by simp [hlen], ?_⟩
    · simp only [saveRow, hbin, hv, hrow, Option.map_some']
    · intro m hm
      rcases m with _ | m
      · exact ⟨ris_data[k], _, by simp [hbin], hv, by simp⟩
      · obtain ⟨bin, v, h1, h2, h3⟩ := hget m (by omega)
        refine ⟨bin, v, ?_, h2, ?_⟩
        · rw [show k + 1 - 1 - (m + 1) = k - 1 - m by omega]; exact h1
        · simpa using h3

/-- The lines written from the sample `d` on: line `m` is the sample `d + m div of` of bin
`of - 1 - m mod of`. -/
theorem saveRows_spec (ris_data : List RISData) (of : Nat) (hof : 0 < of)
    (hlen : of ≤ ris_data.length) :
    ∀ (n d : Nat), (∀ bin ∈ ris_data, d + n ≤ bin.waveformArray.length) →
      ∃ lines, saveRows of ris_data n d = some lines ∧ lines.length = n * of ∧
        ∀ m, m < n * of → ∃ bin v, ris_data[of - 1 - m % of]? = some bin ∧
          bin.waveformArray[d + m / of]? = some v ∧ lines[m]? = some v := by
  intro n
  induction n with
  | zero =>
    intro d _
    exact ⟨[], rfl, by simp, fun m hm => absurd hm (by omega)⟩
  | succ n ih =>
    intro d hwf
    obtain ⟨row, hrow, hrlen, hrget⟩ :=
      saveRow_spec ris_data d (fun bin hb => by have := hwf bin hb; omega) of hlen
    obtain ⟨rest, hrest, hlen2, hget⟩ :=
      ih (d + 1) (fun bin hb => by have := hwf bin hb; omega)
    refine ⟨row ++ rest, ?_, ?_, ?_⟩
    · simp only [saveRows, hrow, hrest, Option.map_some']
    · rw [List.length_append, hrlen, hlen2]; ring
    · intro m hm
      by_cases hlt : m < of
      · obtain ⟨bin, v, h1, h2, h3⟩ := hrget m hlt
        refine ⟨bin, v, ?_, ?_, ?_⟩
        · rw [Nat.mod_eq_of_lt hlt]; exact h1
        · rw [Nat.div_eq_of_lt hlt]; exact h2
        · rw [List.getElem?_append_left (by omega)]; exact h3
      · obtain ⟨m1, rfl⟩ : ∃ m1, m = m1 + of := ⟨m - of, by omega⟩
        have hm1 : m1 < n * of := by
          have : (n + 1) * of = n * of + of := by ring
          omega
        obtain ⟨bin, v, h1, h2, h3⟩ := hget m1 hm1
        refine ⟨bin, v, ?_, ?_, ?_⟩
        · rw [Nat.add_mod_right]; exact h1
        · rw [Nat.add_div_right _ hof]
          rw [show d + (m1 / of + 1) = d + 1 + m1 / of by omega]; exact h2
        · rw [List.getElem?_append_right (by omega), hrlen]
          rw [show m1 + of - of = m1 by omega]; exact h3

/-- The time of line `n`, counted from the centre of the last bin in steps of `si/of`, is
`(n div of) * si` plus the centre of bin `of - 1 - n mod of`. -/
theorem line_time (p : RisParams) (O n : Nat) (hO : 0 < O) (hof : p.of = (O : Int)) :
    binCentre p ((O - 1 : Nat) : Int) + (n : ℚ) * (p.si / (p.of : ℚ)) =
      ((n / O : Nat) : ℚ) * p.si + binCentre p ((O - 1 - n % O : Nat) : Int) := by
  have hr : n % O < O := Nat.mod_lt n hO
  have hn : (n : ℚ) = (O : ℚ) * ((n / O : Nat) : ℚ) + ((n % O : Nat) : ℚ) := by
    exact_mod_cast (Nat.div_add_mod n O).symm
  have hk : (((O - 1 - n % O : Nat) : Int) : ℚ) = (O : ℚ) - 1 - ((n % O : Nat) : ℚ) := by
    have : O - 1 - n % O + n % O + 1 = O := by omega
    have h2 : ((O - 1 - n % O : Nat) : ℚ) + ((n % O : Nat) : ℚ) + 1 = (O : ℚ) := by
      exact_mod_cast this
    push_cast
    linarith
  have hl : (((O - 1 : Nat) : Int) : ℚ) = (O : ℚ) - 1 := by
    have : O - 1 + 1 = O := by omega
    have h2 : ((O - 1 : Nat) : ℚ) + 1 = (O : ℚ) := by exact_mod_cast this
    push_cast
    linarith
  have hOq : (0 : ℚ) < (O : ℚ) := by exact_mod_cast hO
  unfold binCentre
  rw [hk, hl, hof]
  push_cast
  rw [hn]
  field_simp
  ring

/-- C26. For a state of the RIS loop with its `of >= 1` bins, `si > 0`, and all returned
samples present in every bin.  With 1 to 9 returned samples per segment `saveData` has no
defined result: the progress test of line 468 computes `d % (returnedSamplesPerSeg / 10)`,
a division by zero in the first round of the loop.  With no returned sample or at least
10: `saveData` writes the time increment `si/of`, the initial time `c_bin` of bin `of-1`,
and `returnedSamplesPerSeg * of` data lines; line `n` (from 0) is the sample `n div of` of
bin `of-1-(n mod of)`, and the times `t0 + n*si/of` of consecutive lines increase by
`si/of > 0`.  When the bins carry the ideal centres `c_k = -si*(k+0.5)/of`, the time of
line `n` equals `(n div of)*si` plus the centre of its bin. -/
theorem ris_output_interleaving (p : RisParams) (s : RisState) (returnedSamplesPerSeg : Int)
    (hlen : s.ris_data.length = p.of.toNat) (hof : 1 ≤ p.of) (hsi : 0 < p.si)
    (hwf : ∀ bin ∈ s.ris_data, returnedSamplesPerSeg ≤ (bin.waveformArray.length : Int)) :
    (0 < returnedSamplesPerSeg → returnedSamplesPerSeg < 10 →
      saveData p returnedSamplesPerSeg s.ris_data = none) ∧
    (returnedSamplesPerSeg = 0 ∨ 10 ≤ returnedSamplesPerSeg →
    ∃ (f : SavedData) (last : RISData),
      saveData p returnedSamplesPerSeg s.ris_data = some f ∧
      s.ris_data[p.of.toNat - 1]? = some last ∧
      f.timeIncrement = p.si / (p.of : ℚ) ∧
      f.initialTime = last.c_bin ∧
      (WindowsOK p s → f.initialTime = binCentre p (p.of - 1)) ∧
      (f.lines.length : Int) = returnedSamplesPerSeg * p.of ∧
      ∀ n : Nat, (n : Int) < returnedSamplesPerSeg * p.of →
        ∃ bin v, s.ris_data[p.of.toNat - 1 - n % p.of.toNat]? = some bin ∧
          bin.waveformArray[n / p.of.toNat]? = some v ∧ f.lines[n]? = some v ∧
          f.initialTime + (n : ℚ) * f.timeIncrement <
            f.initialTime + ((n + 1 : Nat) : ℚ) * f.timeIncrement ∧
          (WindowsOK p s →
            bin.c_bin = binCentre p ((p.of.toNat - 1 - n % p.of.toNat : Nat) : Int) ∧
            f.initialTime + (n : ℚ) * f.timeIncrement =
              ((n / p.of.toNat : Nat) : ℚ) * p.si + bin.c_bin)) := by
  have hO : p.of = ((p.of.toNat : Nat) : Int) := (Int.toNat_of_nonneg (by omega)).symm
  have hOpos : 0 < p.of.toNat := by omega
  have hlastIdx : (p.of - 1).toNat = p.of.toNat - 1 := by omega
  have hlastLt : p.of.toNat - 1 < s.ris_data.length := by omega
  have hlast : s.ris_data[(p.of - 1).toNat]? = some (s.ris_data[p.of.toNat - 1]) := by
    rw [hlastIdx]; exact List.getElem?_eq_getElem hlastLt
  refine ⟨?_, ?_⟩
  · intro h0 h10
    have hz : Int.tdiv returnedSamplesPerSeg 10 = 0 := by
      rw [Int.tdiv_eq_ediv (by omega) (by norm_num)]
      omega
    simp only [saveData, not_lt.mpr hof, if_false, hlast, h0, hz, and_self, if_true]
  intro hr
  have hR : returnedSamplesPerSeg = ((returnedSamplesPerSeg.toNat : Nat) : Int) :=
    (Int.toNat_of_nonneg (by omega)).symm
  have hlastC : WindowsOK p s → (s.ris_data[p.of.toNat - 1]).c_bin =
      binCentre p ((p.of.toNat - 1 : Nat) : Int) :=
    fun hW => (hW.2 _ _ (List.getElem?_eq_getElem hlastLt)).1
  have hdiv : ¬ (0 < returnedSamplesPerSeg ∧ Int.tdiv returnedSamplesPerSeg 10 = 0) := by
    rcases hr with hr | hr
    · rw [hr]; decide
    · rw [Int.tdiv_eq_ediv (by omega) (by norm_num)]
      omega
  obtain ⟨lines, hlines, hll, hget⟩ :=
    saveRows_spec s.ris_data p.of.toNat hOpos (by omega) returnedSamplesPerSeg.toNat 0
      (fun bin hb => by have := hwf bin hb; omega)
  have hInc : 0 < p.si / (p.of : ℚ) :=
    div_pos hsi (by exact_mod_cast (by omega : (0 : Int) < p.of))
  refine ⟨{ timeIncrement := p.si / (p.of : ℚ)
            initialTime := (s.ris_data[p.of.toNat - 1]).c_bin
            lines := lines }, s.ris_data[p.of.toNat - 1], ?_,
    List.getElem?_eq_getElem hlastLt, rfl, rfl, ?_, ?_, ?_⟩
  · simp only [saveData, not_lt.mpr hof, if_false, hlast, hdiv, hlines, Option.map_some']
  · intro hW
    show (s.ris_data[p.of.toNat - 1]).c_bin = binCentre p (p.of - 1)
    rw [hlastC hW]
    congr 1
    omega
  · show ((lines.length : Nat) : Int) = returnedSamplesPerSeg * p.of
    rw [hll, hR, hO]
    push_cast
    simp
  · intro n hn
    have hn1 : n < returnedSamplesPerSeg.toNat * p.of.toNat := by
      rw [hR, hO] at hn
      exact_mod_cast hn
    obtain ⟨bin, v, h1, h2, h3⟩ := hget n hn1
    rw [Nat.zero_add] at h2
    refine ⟨bin, v, h1, h2, h3, ?_, ?_⟩
    · show (s.ris_data[p.of.toNat - 1]).c_bin + (n : ℚ) * (p.si / (p.of : ℚ)) <
        (s.ris_data[p.of.toNat - 1]).c_bin + ((n + 1 : Nat) : ℚ) * (p.si / (p.of : ℚ))
      push_cast
      linarith
    · intro hW
      have hc := (hW.2 _ _ h1).1
      refine ⟨hc, ?_⟩
      show (s.ris_data[p.of.toNat - 1]).c_bin + (n : ℚ) * (p.si / (p.of : ℚ)) = _
      rw [hlastC hW, hc]
      exact line_time p p.of.toNat n hOpos hO

theorem windowsOK_initBins (p : RisParams) (uninit : Waveform) (a b c : Int) :
    WindowsOK p { ris_data := initBins p uninit, nb_bin := a, nb_iter := b, skipped := c } := by
  refine ⟨initBins_length p uninit, ?_⟩
  intro k bin hk
  simp only [initBins, List.getElem?_map] at hk
  rcases hr : (List.range p.of.toNat)[k]? with _ | j
  · rw [hr] at hk; cases hk
  · rw [hr] at hk
    have hj : j = k := by
      have hlt : k < (List.range p.of.toNat).length := by
        by_contra hge
        rw [List.getElem?_eq_none_iff.mpr (by omega)] at hr
        cases hr
      rw [List.getElem?_eq_getElem hlt, List.getElem_range] at hr
      exact (Option.some.inj hr).symm
    subst hj
    simp only [Option.map_some', Option.some.injEq] at hk
    subst hk
    exact ⟨rfl, rfl, rfl⟩

theorem initBins_waveform (p : RisParams) (uninit : Waveform) :
    ∀ bin ∈ initBins p uninit, bin.waveformArray = uninit := by
  intro bin hb
  simp only [initBins, List.mem_map] at hb
  obtain ⟨k, _, rfl⟩ := hb
  rfl

theorem ris_output_interleaving_witness :
    saveData risDemoParams 5 (initBins risDemoParams [0, 1, 2, 3, 4, 5, 6, 7, 8, 9]) = none ∧
    ∃ (f : SavedData) (last : RISData),
      saveData risDemoParams 10 (initBins risDemoParams [0, 1, 2, 3, 4, 5, 6, 7, 8, 9]) =
        some f ∧
      (initBins risDemoParams [0, 1, 2, 3, 4, 5, 6, 7, 8, 9])[risDemoParams.of.toNat - 1]? =
        some last ∧
      f.timeIncrement = risDemoParams.si / (risDemoParams.of : ℚ) ∧
      f.initialTime = last.c_bin ∧
      f.initialTime = binCentre risDemoParams (risDemoParams.of - 1) ∧
      (f.lines.length : Int) = 10 * risDemoParams.of := by
  refine ⟨(ris_output_interleaving risDemoParams
      { ris_data := initBins risDemoParams [0, 1, 2, 3, 4, 5, 6, 7, 8, 9], nb_bin := 0,
        nb_iter := 0, skipped := 0 }
      5 (initBins_length _ _) (by decide) (by norm_num [risDemoParams])
      (fun bin hb => by rw [initBins_waveform _ _ bin hb]; decide)).1 (by decide) (by decide),
    ?_⟩
  obtain ⟨f, last, h1, h2, h3, h4, h5, h6, _⟩ :=
    (ris_output_interleaving risDemoParams
      { ris_data := initBins risDemoParams [0, 1, 2, 3, 4, 5, 6, 7, 8, 9], nb_bin := 0,
        nb_iter := 0, skipped := 0 }
      10 (initBins_length _ _) (by decide) (by norm_num [risDemoParams])
      (fun bin hb => by rw [initBins_waveform _ _ bin hb]; decide)).2 (Or.inr (by decide))
  exact ⟨f, last, h1, h2, h3, h4, h5 (windowsOK_initBins _ _ 0 0 0), h6⟩

/-! ### C27: the size of the buffer of the gated readout -/

theorem encodeRecs_append (a b : List Rec) :
    encodeRecs (a ++ b) = encodeRecs a ++ encodeRecs b := by
  induction a with
  | nil => rfl
  | cons r rest ih =>
    rw [List.cons_append, encodeRecs_cons, ih, encodeRecs_cons, List.append_assoc]

theorem gateRecs_length (lenGate : Nat) :
    ∀ gates : List (Nat × List Byte), (∀ g ∈ gates, g.2.length = lenGate) →
      (encodeRecs (gateRecs gates)).length = (8 + lenGate) * gates.length := by
  intro gates
  induction gates with
  | nil => intro _; simp [gateRecs, encodeRecs]
  | cons g gs ih =>
    intro h
    have hg := h g (List.mem_cons_self _ _)
    have := ih (fun x hx => h x (List.mem_cons_of_mem _ hx))
    simp only [gateRecs, List.map_cons, encodeRecs, List.length_append, encodeRec_length,
      Rec.payload, hg, List.length_cons] at this ⊢
    rw [this]
    ring

/-- The encoded size of regular segments is the allocation of the examples. -/
theorem gatedRecs_length (lenGate nbrGates : Nat) :
    ∀ segs : List GatedSegment, (∀ sg ∈ segs, sg.Regular lenGate nbrGates) →
      (encodeRecs (gatedRecs segs)).length = nbrBytesAlloc lenGate nbrGates segs.length := by
  intro segs
  induction segs with
  | nil => intro _; simp [gatedRecs, encodeRecs, nbrBytesAlloc]
  | cons sg rest ih =>
    intro h
    obtain ⟨_, _, hn, hg⟩ := h sg (List.mem_cons_self _ _)
    have hrest := ih (fun x hx => h x (List.mem_cons_of_mem _ hx))
    have hgl := gateRecs_length lenGate sg.gates (fun g hgm => (hg g hgm).2)
    have hcons : gatedRecs (sg :: rest) =
        Rec.segment sg.timeStampHi sg.timeStampLo :: (gateRecs sg.gates ++ gatedRecs rest) := rfl
    rw [hcons, encodeRecs_cons, encodeRecs_append]
    simp only [List.length_append, encodeRec_length, Rec.payload, List.length_nil, hgl, hrest,
      hn, nbrBytesAlloc, nbrSamplePerSeg, List.length_cons]
    ring

theorem gatedRecs_wellFormed (lenGate nbrGates : Nat) (hlen : lenGate < 2 ^ 32) :
    ∀ segs : List GatedSegment, (∀ sg ∈ segs, sg.Regular lenGate nbrGates) →
      ∀ r ∈ gatedRecs segs, r.WellFormed := by
  intro segs
  induction segs with
  | nil => intro _ r hr; simp [gatedRecs] at hr
  | cons sg rest ih =>
    intro h r hr
    obtain ⟨hhi, hlo, _, hg⟩ := h sg (List.mem_cons_self _ _)
    simp only [gatedRecs, GatedSegment.recs, List.cons_append, List.mem_cons, List.mem_append,
      gateRecs, List.mem_map] at hr
    rcases hr with rfl | ⟨g, hgm, rfl⟩ | hr
    · exact ⟨hhi, hlo⟩
    · obtain ⟨h1, h2⟩ := hg g hgm
      exact ⟨h1, by rw [h2]; exact hlen⟩
    · exact ih (fun x hx => h x (List.mem_cons_of_mem _ hx)) r hr

/-- A gate record at the cursor: the body of the inner loop of the SSR readout moves the
cursor over the header and the payload. -/
theorem ssrGateBody_encodeRec (pre tail : List Byte) (pos : Nat) (payload : List Byte)
    (s : SsrState) (hs : s.dataP = pre.length) (hpl : payload.length < 2 ^ 31) :
    ∃ s1, ssrGateBody (pre ++ (encodeRec (Rec.gate pos payload) ++ tail)) s = some s1 ∧
      s1.dataP = pre.length + (encodeRec (Rec.gate pos payload)).length := by
  have hw0 := word32_le32 (Rec.gate pos payload).word0 (word0_lt _)
  have hw1 := word32_le32 (Rec.gate pos payload).word1
    (by simp only [Rec.word1]; omega)
  have hhdr := headerWords_at pre ((Rec.gate pos payload).payload ++ tail)
    (toByte (Rec.gate pos payload).word0) (toByte ((Rec.gate pos payload).word0 / 256))
    (toByte ((Rec.gate pos payload).word0 / 65536))
    (toByte ((Rec.gate pos payload).word0 / 16777216))
    (toByte (Rec.gate pos payload).word1) (toByte ((Rec.gate pos payload).word1 / 256))
    (toByte ((Rec.gate pos payload).word1 / 65536))
    (toByte ((Rec.gate pos payload).word1 / 16777216))
  rw [hw0, hw1, ← encodeRec_eq] at hhdr
  have hp : (Rec.gate pos payload).word0 % 2 ^ 24 < 2 ^ 24 := Nat.mod_lt _ (by norm_num)
  have hsamples := ssrSampleLoop_eq (pre ++ (encodeRec (Rec.gate pos payload) ++ tail))
    (pre.length + 8) ((Rec.gate pos payload).word0 % 2 ^ 24) payload 0
    (by
      intro j hj
      have h1 : pre.length + 8 + 0 + j = pre.length + (8 + j) := by omega
      rw [h1, getElem?_append_offset, encodeRec_eq]
      simp only [show 8 + j = j + 1 + 1 + 1 + 1 + 1 + 1 + 1 + 1 by omega,
        List.getElem?_cons_succ, Rec.payload]
      exact List.getElem?_append_left hj)
    (by omega)
  have hbody : ssrGateBody (pre ++ (encodeRec (Rec.gate pos payload) ++ tail)) s =
      some { dataP := pre.length + 8 + payload.length
             nSeg := s.nSeg
             nGate := s.nGate + 1
             printed := s.printed ++
               [SsrLine.gate s.nGate payload.length ((Rec.gate pos payload).word0 % 2 ^ 24)] ++
               sampleLines ((Rec.gate pos payload).word0 % 2 ^ 24 + 0) payload } := by
    unfold ssrGateBody
    rw [hs, hhdr]
    simp only [and_mask24]
    rw [show (Rec.gate pos payload).word1 = payload.length from rfl, hsamples]
  refine ⟨_, hbody, ?_⟩
  simp only [encodeRec_length, Rec.payload]
  omega

/-- The tag byte of a record at the cursor. -/
theorem tag_encodeRec (pre tail : List Byte) (r : Rec) :
    ∃ tag : Byte, (pre ++ (encodeRec r ++ tail))[pre.length + 3]? = some tag ∧
      tag.val = r.tag := by
  refine ⟨toByte (r.word0 / 16777216), ?_, tag_of_word0 r⟩
  rw [getElem?_append_offset, encodeRec_eq]
  rfl

/-- The inner loop of the SSR readout moves the cursor over a run of gate records that
ends at or before `dataEnd`. -/
theorem ssrGateLoop_gates (dataEnd : Int) :
    ∀ (gates : List (Nat × List Byte)) (pre tail : List Byte) (s : SsrState) (fuel : Nat),
      s.dataP = pre.length → (∀ g ∈ gates, g.2.length < 2 ^ 31) →
      ((pre.length + (encodeRecs (gateRecs gates)).length : Nat) : Int) ≤ dataEnd →
      ∃ s1, s1.dataP = pre.length + (encodeRecs (gateRecs gates)).length ∧
        ssrGateLoop (pre ++ (encodeRecs (gateRecs gates) ++ tail)) dataEnd
            (gates.length + fuel) s =
          ssrGateLoop (pre ++ (encodeRecs (gateRecs gates) ++ tail)) dataEnd fuel s1 := by
  intro gates
  induction gates with
  | nil =>
    intro pre tail s fuel hs _ _
    exact ⟨s, by simp [gateRecs, encodeRecs, hs], by simp⟩
  | cons g gs ih =>
    intro pre tail s fuel hs hpl hend
    have hcons : encodeRecs (gateRecs (g :: gs)) =
        encodeRec (Rec.gate g.1 g.2) ++ encodeRecs (gateRecs gs) := rfl
    rw [hcons] at hend ⊢
    have hdata : pre ++ ((encodeRec (Rec.gate g.1 g.2) ++ encodeRecs (gateRecs gs)) ++ tail) =
        pre ++ (encodeRec (Rec.gate g.1 g.2) ++ (encodeRecs (gateRecs gs) ++ tail)) := by
      rw [List.append_assoc]
    have hdata2 : pre ++ ((encodeRec (Rec.gate g.1 g.2) ++ encodeRecs (gateRecs gs)) ++ tail) =
        (pre ++ encodeRec (Rec.gate g.1 g.2)) ++ (encodeRecs (gateRecs gs) ++ tail) := by
      simp only [List.append_assoc]
    obtain ⟨tag, htag, htagv⟩ :=
      tag_encodeRec pre (encodeRecs (gateRecs gs) ++ tail) (Rec.gate g.1 g.2)
    obtain ⟨s1, hbody, hs1⟩ := ssrGateBody_encodeRec pre (encodeRecs (gateRecs gs) ++ tail)
      g.1 g.2 s hs (hpl g (List.mem_cons_self _ _))
    have hlen8 := encodeRec_length (Rec.gate g.1 g.2)
    have hlt : (s.dataP : Int) < dataEnd := by
      rw [hs]
      simp only [List.length_append] at hend
      push_cast at hend ⊢
      omega
    obtain ⟨s2, hs2, hloop⟩ := ih (pre ++ encodeRec (Rec.gate g.1 g.2)) tail s1 fuel
      (by rw [hs1, List.length_append])
      (fun x hx => hpl x (List.mem_cons_of_mem _ hx))
      (by
        simp only [List.length_append] at hend ⊢
        push_cast at hend ⊢
        omega)
    refine ⟨s2, ?_, ?_⟩
    · rw [hs2]
      simp only [List.length_append]
      omega
    · rw [hdata2, ← hloop]
      rw [show (g :: gs).length + fuel = (gs.length + fuel) + 1 by simp; omega]
      rw [ssrGateLoop]
      rw [← hdata2, hdata, hs, htag]
      simp only [htagv, Rec.tag, true_and]
      rw [← hs]
      simp only [hlt, if_true, hbody]

theorem ssrGateLoop_outside (data : List Byte) (dataEnd : Int) (s : SsrState) (fuel : Nat)
    (h : data[s.dataP + 3]? = none) : ssrGateLoop data dataEnd (fuel + 1) s = .outside := by
  simp only [ssrGateLoop, h]

theorem ssrGateLoop_done (data : List Byte) (dataEnd : Int) (s : SsrState) (fuel : Nat)
    (tag : Byte) (h : data[s.dataP + 3]? = some tag)
    (hno : ¬ (tag.val = 0x00 ∧ (s.dataP : Int) < dataEnd)) :
    ssrGateLoop data dataEnd (fuel + 1) s = .done s := by
  simp only [ssrGateLoop, h, hno, if_false]

theorem ssrSegmentLoop_outside (data : List Byte) (dataEnd : Int) (s : SsrState) (fuel : Nat)
    (h : data[s.dataP + 3]? = none) : ssrSegmentLoop data dataEnd (fuel + 1) s = .outside := by
  simp only [ssrSegmentLoop, h]

theorem ssrSegmentLoop_done (data : List Byte) (dataEnd : Int) (s : SsrState) (fuel : Nat)
    (tag : Byte) (h : data[s.dataP + 3]? = some tag)
    (hno : ¬ (tag.val = 0x04 ∧ (s.dataP : Int) < dataEnd)) :
    ssrSegmentLoop data dataEnd (fuel + 1) s = .done s := by
  simp only [ssrSegmentLoop, h, hno, if_false]

/-- The readout loop of the SSR example on the image of regular segments that ends at
`dataEnd`, followed by the bytes `tail`: with fewer than 4 bytes after the image the loop
reads outside the buffer, with 4 or more it ends with the cursor at `dataEnd`. -/
theorem ssrSegmentLoop_segments (lenGate nbrGates : Nat) (hlen : lenGate < 2 ^ 31)
    (tail : List Byte) :
    ∀ (segs : List GatedSegment) (pre : List Byte) (s : SsrState) (fuel : Nat),
      (∀ sg ∈ segs, sg.Regular lenGate nbrGates) → s.dataP = pre.length →
      segs.length + nbrGates + 1 < fuel →
      (tail.length < 4 →
        ssrSegmentLoop (pre ++ (encodeRecs (gatedRecs segs) ++ tail))
          ((pre.length + (encodeRecs (gatedRecs segs)).length : Nat) : Int) fuel s =
            .outside) ∧
      (4 ≤ tail.length →
        ∃ s1, ssrSegmentLoop (pre ++ (encodeRecs (gatedRecs segs) ++ tail))
          ((pre.length + (encodeRecs (gatedRecs segs)).length : Nat) : Int) fuel s =
            .done s1 ∧
          s1.dataP = pre.length + (encodeRecs (gatedRecs segs)).length) := by
  intro segs
  induction segs with
  | nil =>
    intro pre s fuel _ hs hfuel
    obtain ⟨f, rfl⟩ : ∃ f, fuel = f + 1 := ⟨fuel - 1, by omega⟩
    have hdata : pre ++ (encodeRecs (gatedRecs []) ++ tail) = pre ++ tail := rfl
    have hE : (encodeRecs (gatedRecs [])).length = 0 := rfl
    rw [hdata, hE]
    have hidx : (pre ++ tail)[s.dataP + 3]? = tail[3]? := by
      rw [hs]; exact getElem?_append_offset pre tail 3
    constructor
    · intro ht
      apply ssrSegmentLoop_outside
      rw [hidx]
      exact List.getElem?_eq_none (by omega)
    · intro ht
      have h3 : 3 < tail.length := by omega
      refine ⟨s, ?_, by rw [hs]; rfl⟩
      apply ssrSegmentLoop_done _ _ _ _ tail[3]
      · rw [hidx]
        exact List.getElem?_eq_getElem (by omega)
      · rw [hs]
        rintro ⟨_, h⟩
        simp at h
  | cons sg rest ih =>
    intro pre s fuel hreg hs hfuel
    obtain ⟨f, rfl⟩ : ∃ f, fuel = f + 1 := ⟨fuel - 1, by omega⟩
    obtain ⟨_, _, hn, hg⟩ := hreg sg (List.mem_cons_self _ _)
    have hregRest : ∀ x ∈ rest, x.Regular lenGate nbrGates :=
      fun x hx => hreg x (List.mem_cons_of_mem _ hx)
    have hcons : encodeRecs (gatedRecs (sg :: rest)) =
        encodeRec (Rec.segment sg.timeStampHi sg.timeStampLo) ++
          (encodeRecs (gateRecs sg.gates) ++ encodeRecs (gatedRecs rest)) := by
      have : gatedRecs (sg :: rest) = Rec.segment sg.timeStampHi sg.timeStampLo ::
          (gateRecs sg.gates ++ gatedRecs rest) := rfl
      rw [this, encodeRecs_cons, encodeRecs_append]
    rw [hcons]
    have hH := encodeRec_length (Rec.segment sg.timeStampHi sg.timeStampLo)
    simp only [Rec.payload, List.length_nil, Nat.add_zero] at hH
    generalize hHdef : encodeRec (Rec.segment sg.timeStampHi sg.timeStampLo) = H at hH
    generalize hGdef : encodeRecs (gateRecs sg.gates) = G
    generalize hRdef : encodeRecs (gatedRecs rest) = R
    generalize hDdef : pre ++ ((H ++ (G ++ R)) ++ tail) = D
    generalize hEdef : ((pre.length + (H ++ (G ++ R)).length : Nat) : Int) = E
    have hElen : E = ((pre.length + 8 + G.length + R.length : Nat) : Int) := by
      rw [← hEdef]
      simp only [List.length_append, hH]
      congr 1
      omega
    have hD1 : D = pre ++ (H ++ ((G ++ R) ++ tail)) := by
      rw [← hDdef]; simp only [List.append_assoc]
    have hD2 : D = (pre ++ H) ++ (G ++ (R ++ tail)) := by
      rw [← hDdef]; simp only [List.append_assoc]
    have hD3 : D = (pre ++ H ++ G) ++ (R ++ tail) := by
      rw [← hDdef]; simp only [List.append_assoc]
    -- the segment header at the cursor
    obtain ⟨tag, htag, htagv⟩ :=
      tag_encodeRec pre ((G ++ R) ++ tail) (Rec.segment sg.timeStampHi sg.timeStampLo)
    rw [hHdef, ← hD1, ← hs] at htag
    have hhdr : ∃ w0 w1, headerWords D s.dataP = some (w0, w1) := by
      have := headerWords_at pre
        ((Rec.segment sg.timeStampHi sg.timeStampLo).payload ++ ((G ++ R) ++ tail))
        (toByte (Rec.segment sg.timeStampHi sg.timeStampLo).word0)
        (toByte ((Rec.segment sg.timeStampHi sg.timeStampLo).word0 / 256))
        (toByte ((Rec.segment sg.timeStampHi sg.timeStampLo).word0 / 65536))
        (toByte ((Rec.segment sg.timeStampHi sg.timeStampLo).word0 / 16777216))
        (toByte (Rec.segment sg.timeStampHi sg.timeStampLo).word1)
        (toByte ((Rec.segment sg.timeStampHi sg.timeStampLo).word1 / 256))
        (toByte ((Rec.segment sg.timeStampHi sg.timeStampLo).word1 / 65536))
        (toByte ((Rec.segment sg.timeStampHi sg.timeStampLo).word1 / 16777216))
      rw [← encodeRec_eq, hHdef, ← hD1, ← hs] at this
      exact ⟨_, _, this⟩
    obtain ⟨w0, w1, hw⟩ := hhdr
    have hlt : (s.dataP : Int) < E := by
      rw [hElen, hs]
      push_cast
      omega
    -- the gates of the segment
    obtain ⟨f1, rfl⟩ : ∃ f1, f = sg.gates.length + f1 := ⟨f - sg.gates.length, by
      simp only [List.length_cons] at hfuel; omega⟩
    obtain ⟨f2, rfl⟩ : ∃ f2, f1 = f2 + 1 := ⟨f1 - 1, by
      simp only [List.length_cons] at hfuel; omega⟩
    obtain ⟨sB, hsB, hgates⟩ := ssrGateLoop_gates E sg.gates (pre ++ H) (R ++ tail)
      { dataP := s.dataP + 8
        nSeg := s.nSeg + 1
        nGate := 0
        printed := s.printed ++ [SsrLine.segment s.nSeg (w0 &&& 0x00FFFFFF) w1] } (f2 + 1)
      (by simp only [List.length_append, hH, hs])
      (fun g hgm => by rw [(hg g hgm).2]; exact hlen)
      (by
        rw [hGdef, hElen]
        simp only [List.length_append, hH]
        push_cast
        omega)
    rw [hGdef, ← hD2] at hgates
    rw [hGdef] at hsB
    have hstep : ssrSegmentLoop D E (sg.gates.length + (f2 + 1) + 1) s =
        match ssrGateLoop D E (f2 + 1) sB with
        | .done s1 => ssrSegmentLoop D E (sg.gates.length + (f2 + 1)) s1
        | .outOfFuel => .outOfFuel
        | .outside => .outside := by
      rw [ssrSegmentLoop, htag]
      simp only [htagv, Rec.tag, hlt, and_self, if_true, hw, hgates]
    rw [hstep]
    have hcB : sB.dataP = (pre ++ H ++ G).length := by
      rw [hsB]; simp only [List.length_append]
    have hidx : D[sB.dataP + 3]? = (R ++ tail)[3]? := by
      rw [hD3, hcB]; exact getElem?_append_offset _ _ 3
    rcases hq : (R ++ tail)[3]? with _ | tagB
    · -- no byte at the cursor + 3
      have hshort : (R ++ tail).length ≤ 3 := List.getElem?_eq_none_iff.mp hq
      rw [List.length_append] at hshort
      rw [ssrGateLoop_outside D E sB f2 (by rw [hidx, hq])]
      exact ⟨fun _ => rfl, fun h4 => absurd h4 (by omega)⟩
    · have hno : ¬ (tagB.val = 0x00 ∧ (sB.dataP : Int) < E) := by
        rintro ⟨h0, hltB⟩
        rcases rest with _ | ⟨sg2, rest2⟩
        · have hR0 : R.length = 0 := by rw [← hRdef]; rfl
          rw [hElen, hcB] at hltB
          simp only [List.length_append, hH] at hltB
          push_cast at hltB
          omega
        · have hcons2 : encodeRecs (gatedRecs (sg2 :: rest2)) =
              encodeRec (Rec.segment sg2.timeStampHi sg2.timeStampLo) ++
                encodeRecs (gateRecs sg2.gates ++ gatedRecs rest2) := rfl
          obtain ⟨tag2, htag2, htagv2⟩ := tag_encodeRec []
            (encodeRecs (gateRecs sg2.gates ++ gatedRecs rest2) ++ tail)
            (Rec.segment sg2.timeStampHi sg2.timeStampLo)
          simp only [List.nil_append, List.length_nil, Nat.zero_add] at htag2
          rw [← List.append_assoc, ← hcons2, hRdef, hq] at htag2
          have : tagB = tag2 := Option.some.inj htag2
          rw [this, htagv2] at h0
          simp [Rec.tag] at h0
      rw [ssrGateLoop_done D E sB f2 tagB (by rw [hidx, hq]) hno]
      simp only
      have hih := ih (pre ++ H ++ G) sB (sg.gates.length + (f2 + 1)) hregRest hcB
        (by simp only [List.length_cons] at hfuel; omega)
      rw [hRdef, ← hD3] at hih
      have hE3 : (((pre ++ H ++ G).length + R.length : Nat) : Int) = E := by
        rw [hElen]
        simp only [List.length_append, hH]
      rw [hE3] at hih
      have hpos : (pre ++ H ++ G).length + R.length = pre.length + (H ++ (G ++ R)).length := by
        simp only [List.length_append]
        omega
      rw [hpos] at hih
      exact hih

/-- C27. For `nbrSegments` segments, each a segment header followed by `nbrGates` gate
records of `lenGate` payload bytes (fields within their widths, sizes below `2^31`): the
byte image has exactly `nbrBytesAlloc = (8 + (8 + lenGate) * nbrGates) * nbrSegments`
bytes, 1568 for 1 segment and 3 gates of 512 samples. `PrintoutData` on this buffer with
this length returns with the cursor at `nbrBytesAlloc`, the end of the buffer. The readout
loop of the SSR example moves its cursor to `nbrBytesAlloc` as well, but its loop test
reads the byte at `cursor + 3` before it compares the cursor with the end: on a buffer of
exactly `nbrBytesAlloc` bytes it reads outside the buffer, and it ends with the cursor at
`nbrBytesAlloc` only when at least 4 more bytes follow the data. -/
theorem gated_buffer_size (lenGate nbrGates : Nat) (segs : List GatedSegment) (fuel : Nat)
    (post : List Byte) (hreg : ∀ sg ∈ segs, sg.Regular lenGate nbrGates)
    (hlen : lenGate < 2 ^ 31) (_hsize : nbrBytesAlloc lenGate nbrGates segs.length < 2 ^ 31)
    (hfuel1 : (gatedRecs segs).length < fuel) (hfuel2 : segs.length + nbrGates + 1 < fuel)
    (hpost : 4 ≤ post.length) :
    (encodeRecs (gatedRecs segs)).length = nbrBytesAlloc lenGate nbrGates segs.length ∧
    nbrBytesAlloc 512 3 1 = 1568 ∧
    (PrintoutData fuel (encodeRecs (gatedRecs segs))
      (nbrBytesAlloc lenGate nbrGates segs.length : Nat)).status = .returned ∧
    (PrintoutData fuel (encodeRecs (gatedRecs segs))
      (nbrBytesAlloc lenGate nbrGates segs.length : Nat)).final.dataP =
        nbrBytesAlloc lenGate nbrGates segs.length ∧
    ssrSegmentLoop (encodeRecs (gatedRecs segs))
      (nbrBytesAlloc lenGate nbrGates segs.length : Nat) fuel ssrInit = .outside ∧
    ∃ s1, ssrSegmentLoop (encodeRecs (gatedRecs segs) ++ post)
        (nbrBytesAlloc lenGate nbrGates segs.length : Nat) fuel ssrInit = .done s1 ∧
      s1.dataP = nbrBytesAlloc lenGate nbrGates segs.length := by
  have hlenEq := gatedRecs_length lenGate nbrGates segs hreg
  have hwf := gatedRecs_wellFormed lenGate nbrGates (by omega) segs hreg
  obtain ⟨hst, _, hdp⟩ := decodeLoop_encodeRecs (gatedRecs segs) hwf [] [] [] fuel hfuel1
  simp only [List.nil_append, List.length_nil] at hst hdp
  rw [hlenEq] at hst hdp
  obtain ⟨hout, _⟩ := ssrSegmentLoop_segments lenGate nbrGates hlen [] segs [] ssrInit fuel hreg
    rfl hfuel2
  obtain ⟨_, hdone⟩ := ssrSegmentLoop_segments lenGate nbrGates hlen post segs [] ssrInit fuel
    hreg rfl hfuel2
  simp only [List.nil_append, List.length_nil, Nat.zero_add, List.append_nil, hlenEq]
    at hout hdone
  exact ⟨hlenEq, by decide, hst, hdp, hout (by decide), hdone hpost⟩

theorem gated_buffer_size_witness :
    (PrintoutData 4 (encodeRecs (gatedRecs [gatedDemoSegment]))
      (nbrBytesAlloc 1 1 1 : Nat)).status = .returned ∧
    ssrSegmentLoop (encodeRecs (gatedRecs [gatedDemoSegment])) (nbrBytesAlloc 1 1 1 : Nat) 4
      ssrInit = .outside :=
  ⟨(gated_buffer_size 1 1 [gatedDemoSegment] 4 [0, 0, 0, 0] (by decide) (by decide) (by decide)
      (by decide) (by decide) (by decide)).2.2.1,
   (gated_buffer_size 1 1 [gatedDemoSegment] 4 [0, 0, 0, 0] (by decide) (by decide) (by decide)
      (by decide) (by decide) (by decide)).2.2.2.2.1⟩

/-! ### C28: the number of samples saved by the averager example -/

theorem toSizeT_of_small (W : Nat) (hW : 32 ≤ W) (x : Int) (h0 : 0 ≤ x) (h1 : x < 2 ^ 31) :
    toSizeT W x = x.toNat ∧ x.toNat < 2 ^ 31 ∧ 2 ^ 32 ≤ 2 ^ W := by
  have hM : (2 : Nat) ^ 32 ≤ 2 ^ W := Nat.pow_le_pow_right (by norm_num) hW
  have hMi : (2 : Int) ^ 32 ≤ 2 ^ W := by exact_mod_cast hM
  refine ⟨?_, by omega, hM⟩
  unfold toSizeT
  rw [Int.emod_eq_of_lt h0 (by omega)]

/-- C28. In the averager example, with `size_t` of at least 32 bits, non-negative
`nbrSamples` and `nbrSegments` (1024 and 1 in the example) whose array size
`nbrSegments * (nbrSamples + 32)` is below `2^31`, and every `indexFirstPoint` with
`0 <= indexFirstPoint <= dataArray.size()`: the number of samples written is
`min(nbrSamples*nbrSegments, dataArray.size() - indexFirstPoint)`, the indices read are
`indexFirstPoint + i` for `0 <= i < totalSamples`, in order, and each of them is strictly
below `dataArray.size()`. For the constants of the example the array has 1056 elements. -/
theorem avg_save_clamp (W : Nat) (nbrSamples nbrSegments indexFirstPoint : Int)
    (hW : 32 ≤ W) (hs : 0 ≤ nbrSamples) (hg : 0 ≤ nbrSegments)
    (hsize : nbrSegments * (nbrSamples + 32) < 2 ^ 31)
    (h0 : 0 ≤ indexFirstPoint)
    (h1 : indexFirstPoint ≤ (avgDataArraySize W nbrSamples nbrSegments : Int)) :
    (avgDataArraySize W nbrSamples nbrSegments : Int) = nbrSegments * (nbrSamples + 32) ∧
    avgDataArraySize W 1024 1 = 1056 ∧
    (avgTotalSamples W nbrSamples nbrSegments indexFirstPoint
        (avgDataArraySize W nbrSamples nbrSegments) : Int) =
      min (nbrSamples * nbrSegments)
        ((avgDataArraySize W nbrSamples nbrSegments : Int) - indexFirstPoint) ∧
    avgSavedIndices W nbrSamples nbrSegments indexFirstPoint
        (avgDataArraySize W nbrSamples nbrSegments) =
      (List.range (avgTotalSamples W nbrSamples nbrSegments indexFirstPoint
        (avgDataArraySize W nbrSamples nbrSegments))).map
        (fun i => indexFirstPoint.toNat + i) ∧
    ∀ idx ∈ avgSavedIndices W nbrSamples nbrSegments indexFirstPoint
        (avgDataArraySize W nbrSamples nbrSegments),
      idx < avgDataArraySize W nbrSamples nbrSegments := by
  have hprod0 : 0 ≤ nbrSegments * (nbrSamples + 32) := mul_nonneg hg (by omega)
  have hprod1 : 0 ≤ nbrSamples * nbrSegments := mul_nonneg hs hg
  have hprodle : nbrSamples * nbrSegments ≤ nbrSegments * (nbrSamples + 32) := by nlinarith
  obtain ⟨hA, hA31, hM⟩ := toSizeT_of_small W hW _ hprod0 hsize
  have hAsz : avgDataArraySize W nbrSamples nbrSegments =
      (nbrSegments * (nbrSamples + 32)).toNat := hA
  have hAint : (avgDataArraySize W nbrSamples nbrSegments : Int) =
      nbrSegments * (nbrSamples + 32) := by
    rw [hAsz]; exact Int.toNat_of_nonneg hprod0
  rw [hAint] at h1
  obtain ⟨hT, hT31, _⟩ := toSizeT_of_small W hW _ hprod1 (by omega)
  obtain ⟨hI, hI31, _⟩ := toSizeT_of_small W hW _ h0 (by omega)
  have h1056 : avgDataArraySize W 1024 1 = 1056 := by
    have := (toSizeT_of_small W hW (1 * (1024 + 32)) (by norm_num) (by norm_num)).1
    simpa [avgDataArraySize] using this
  generalize hMdef : (2 : Nat) ^ W = M at hM
  have htot : avgTotalSamples W nbrSamples nbrSegments indexFirstPoint
      (avgDataArraySize W nbrSamples nbrSegments) =
      if (nbrSamples * nbrSegments).toNat + indexFirstPoint.toNat >
          (nbrSegments * (nbrSamples + 32)).toNat then
        (nbrSegments * (nbrSamples + 32)).toNat - indexFirstPoint.toNat
      else (nbrSamples * nbrSegments).toNat := by
    simp only [avgTotalSamples, hT, hI, hAsz, hMdef]
    rw [Nat.mod_eq_of_lt (by omega)]
    split_ifs
    · have : (nbrSegments * (nbrSamples + 32)).toNat + M - indexFirstPoint.toNat =
          (nbrSegments * (nbrSamples + 32)).toNat - indexFirstPoint.toNat + M := by omega
      rw [this, Nat.add_mod_right, Nat.mod_eq_of_lt (by omega)]
    · rfl
  have hidx : avgSavedIndices W nbrSamples nbrSegments indexFirstPoint
      (avgDataArraySize W nbrSamples nbrSegments) =
      (List.range (avgTotalSamples W nbrSamples nbrSegments indexFirstPoint
        (avgDataArraySize W nbrSamples nbrSegments))).map
        (fun i => indexFirstPoint.toNat + i) := by
    unfold avgSavedIndices
    apply List.map_congr_left
    intro i hi
    rw [List.mem_range, htot] at hi
    rw [hI, hMdef]
    apply Nat.mod_eq_of_lt
    split_ifs at hi <;> omega
  refine ⟨hAint, h1056, ?_, hidx, ?_⟩
  · rw [htot, hAint]
    split_ifs with hc
    · rw [min_eq_right (by omega)]
      omega
    · rw [min_eq_left (by omega)]
      omega
  · intro idx hmem
    rw [hidx, List.mem_map] at hmem
    obtain ⟨i, hi, rfl⟩ := hmem
    rw [List.mem_range, htot] at hi
    rw [hAsz]
    split_ifs at hi <;> omega

theorem avg_save_clamp_witness :
    (avgTotalSamples 32 1024 1 40 (avgDataArraySize 32 1024 1) : Int) =
      min (1024 * 1) ((avgDataArraySize 32 1024 1 : Int) - 40) ∧
    ∀ idx ∈ avgSavedIndices 32 1024 1 40 (avgDataArraySize 32 1024 1),
      idx < avgDataArraySize 32 1024 1 :=
  ⟨(avg_save_clamp 32 1024 1 40 (by decide) (by decide) (by decide) (by decide) (by decide)
      (by decide)).2.2.1,
   (avg_save_clamp 32 1024 1 40 (by decide) (by decide) (by decide) (by decide) (by decide)
      (by decide)).2.2.2.2⟩

/-! ### C29: the indices of the multi-segment readout -/

theorem readoutRow_mem (segmentOffset : Int) (n j : Nat) (idx : Int) :
    idx ∈ readoutRow segmentOffset n j ↔
      ∃ i : Nat, i < n ∧ idx = readoutIndex segmentOffset j i := by
  unfold readoutRow
  rw [List.mem_map]
  constructor
  · rintro ⟨i, hi, rfl⟩
    exact ⟨i, List.mem_range.mp hi, rfl⟩
  · rintro ⟨i, hi, rfl⟩
    exact ⟨i, List.mem_range.mpr hi, rfl⟩

theorem readoutRows_mem (segmentOffset : Int) (n : Nat) :
    ∀ (k : Nat) (idx : Int), idx ∈ readoutRows segmentOffset n k ↔
      ∃ j i : Nat, j < k ∧ i < n ∧ idx = readoutIndex segmentOffset j i := by
  intro k
  induction k with
  | zero => intro idx; simp [readoutRows]
  | succ k ih =>
    intro idx
    rw [readoutRows, List.mem_append, ih, readoutRow_mem]
    constructor
    · rintro (⟨j, i, hj, hi, rfl⟩ | ⟨i, hi, rfl⟩)
      · exact ⟨j, i, by omega, hi, rfl⟩
      · exact ⟨k, i, by omega, hi, rfl⟩
    · rintro ⟨j, i, hj, hi, rfl⟩
      by_cases hjk : j < k
      · exact Or.inl ⟨j, i, hjk, hi, rfl⟩
      · have : j = k := by omega
        subst this
        exact Or.inr ⟨i, hi, rfl⟩

/-- The index of sample `i` of segment `j` lies below the number of elements. -/
theorem readoutIndex_bound (nbrSamples nbrSegments pad rs rsps j i : Int)
    (hpad : 0 ≤ pad) (hrs : rs ≤ nbrSegments) (hrsps : rsps ≤ nbrSamples)
    (hj0 : 0 ≤ j) (hj : j < rs) (hi0 : 0 ≤ i) (hi : i < rsps) :
    0 ≤ readoutIndex nbrSamples j i ∧
    readoutIndex nbrSamples j i < nbrSamples * nbrSegments ∧
    nbrSamples * nbrSegments ≤ adcArrayCount nbrSamples nbrSegments pad := by
  unfold readoutIndex adcArrayCount
  have hns : 1 ≤ nbrSamples := by omega
  have hng : 1 ≤ nbrSegments := by omega
  have h1 : 0 ≤ j * nbrSamples := mul_nonneg hj0 (by omega)
  have h2 : j * nbrSamples ≤ (nbrSegments - 1) * nbrSamples :=
    mul_le_mul_of_nonneg_right (by omega) (by omega)
  have h3 : 0 ≤ pad * nbrSegments := mul_nonneg hpad (by omega)
  refine ⟨by omega, ?_, ?_⟩
  · nlinarith
  · nlinarith

/-- Distinct pairs of a segment and a sample below `segmentOffset` have distinct indices. -/
theorem readoutIndex_inj (segmentOffset j i j1 i1 : Int)
    (hi0 : 0 ≤ i) (hi : i < segmentOffset) (hi10 : 0 ≤ i1) (hi1 : i1 < segmentOffset)
    (h : readoutIndex segmentOffset j i = readoutIndex segmentOffset j1 i1) :
    j = j1 ∧ i = i1 := by
  unfold readoutIndex at h
  have hj : j = j1 := by
    rcases lt_trichotomy j j1 with hlt | heq | hgt
    · have : (j + 1) * segmentOffset ≤ j1 * segmentOffset :=
        mul_le_mul_of_nonneg_right (by omega) (by omega)
      nlinarith
    · exact heq
    · have : (j1 + 1) * segmentOffset ≤ j * segmentOffset :=
        mul_le_mul_of_nonneg_right (by omega) (by omega)
      nlinarith
  subst hj
  exact ⟨rfl, by omega⟩

/-- C29. In `Readout` of the multi-segment examples, whenever `tbNextSegmentPad >= 0`,
`returnedSegments <= nbrSegments` and `returnedSamplesPerSeg <= nbrSamples`: every index
`j*segmentOffset + i` read by the output loops (`0 <= j < returnedSegments`,
`0 <= i < returnedSamplesPerSeg`, `segmentOffset = nbrSamples`) is non-negative and below
`nbrSamples * nbrSegments`, hence below the allocated element count
`(nbrSamples + tbNextSegmentPad) * (nbrSegments + 1)`; the indices read are exactly these;
and distinct pairs `(j, i)` address distinct elements. -/
theorem readout_indices_in_bounds (nbrSamples nbrSegments tbNextSegmentPad returnedSegments
    returnedSamplesPerSeg : Int) (hpad : 0 ≤ tbNextSegmentPad)
    (hrs : returnedSegments ≤ nbrSegments) (hrsps : returnedSamplesPerSeg ≤ nbrSamples) :
    (∀ idx ∈ readoutIndices nbrSamples returnedSegments returnedSamplesPerSeg,
      0 ≤ idx ∧ idx < adcArrayCount nbrSamples nbrSegments tbNextSegmentPad) ∧
    (∀ idx, idx ∈ readoutIndices nbrSamples returnedSegments returnedSamplesPerSeg ↔
      ∃ j i : Int, 0 ≤ j ∧ j < returnedSegments ∧ 0 ≤ i ∧ i < returnedSamplesPerSeg ∧
        idx = readoutIndex nbrSamples j i) ∧
    (∀ j i j1 i1 : Int, 0 ≤ j → j < returnedSegments → 0 ≤ i → i < returnedSamplesPerSeg →
      0 ≤ j1 → j1 < returnedSegments → 0 ≤ i1 → i1 < returnedSamplesPerSeg →
      readoutIndex nbrSamples j i = readoutIndex nbrSamples j1 i1 → j = j1 ∧ i = i1) := by
  have hmem : ∀ idx, idx ∈ readoutIndices nbrSamples returnedSegments returnedSamplesPerSeg ↔
      ∃ j i : Int, 0 ≤ j ∧ j < returnedSegments ∧ 0 ≤ i ∧ i < returnedSamplesPerSeg ∧
        idx = readoutIndex nbrSamples j i := by
    intro idx
    unfold readoutIndices
    rw [readoutRows_mem]
    constructor
    · rintro ⟨j, i, hj, hi, rfl⟩
      exact ⟨j, i, by omega, by omega, by omega, by omega, rfl⟩
    · rintro ⟨j, i, hj0, hj, hi0, hi, rfl⟩
      refine ⟨j.toNat, i.toNat, by omega, by omega, ?_⟩
      rw [Int.toNat_of_nonneg hj0, Int.toNat_of_nonneg hi0]
  refine ⟨?_, hmem, ?_⟩
  · intro idx hidx
    obtain ⟨j, i, hj0, hj, hi0, hi, rfl⟩ := (hmem idx).mp hidx
    obtain ⟨h1, h2, h3⟩ := readoutIndex_bound nbrSamples nbrSegments tbNextSegmentPad
      returnedSegments returnedSamplesPerSeg j i hpad hrs hrsps hj0 hj hi0 hi
    exact ⟨h1, by omega⟩
  · intro j i j1 i1 _ _ hi0 hi _ _ hi10 hi1 h
    exact readoutIndex_inj nbrSamples j i j1 i1 hi0 (by omega) hi10 (by omega) h

theorem readout_indices_in_bounds_witness :
    (6 : Int) ∈ readoutIndices 4 2 3 ∧ (0 : Int) ≤ 6 ∧ (6 : Int) < adcArrayCount 4 2 1 :=
  ⟨by decide,
   (readout_indices_in_bounds 4 2 1 2 3 (by decide) (by decide) (by decide)).1 6 (by decide)⟩

end Acqiris
